import Mathlib

/-! RMRayTracer: a shallow embedding of the render core.

The C++ `double` is embedded as an arbitrary linear ordered field `α`
(exact arithmetic), the C++ `int` as `Int`.  The functions of `<cmath>` the
program calls are passed in as a record `Libm α`; the draw
`std::uniform_real_distribution<double>(0.0, 1.0)(rng)` on a `std::mt19937`
is passed in as a function `dist01 : G → α × G` on generator states `G`.
The globals `g_current_scene` and `g_camera` become explicit arguments.
A scene file is given as the list of the lines `std::getline` reads from it,
`std::stoi` and `std::stod` as a record `StrConv α` of functions that may
throw.  The worker threads and the main thread are embedded as an
interleaving of steps, one per program position, on a shared state.

Statements that depend on the rounding of `double` arithmetic are made of a
second embedding of the functions concerned, the definitions `*_fl`, in which
every arithmetic operation is followed by the rounding to the nearest double,
`binary64`, and `std::sqrt` is correctly rounded.
-/

/-! ## Vec3.h -/

/-- Vector of three components, `struct Vec3`. -/
structure Vec3 (α : Type) where
  x : α
  y : α
  z : α

/-- The functions of `<cmath>` used by the program. -/
structure Libm (α : Type) where
  sqrt : α → α
  cos : α → α
  sin : α → α
  tan : α → α
  atan2 : α → α → α

section Defs

variable {α : Type} [LinearOrderedField α]

/-- The macro `M_PI` of RMRayTracer.cpp and Camera.h, a decimal literal. -/
def M_PI : α := 3.14159265358979323846

/-- The constant `REFLECTION_EPSILON` of RMRayTracer.cpp. -/
def REFLECTION_EPSILON : α := 1e-4

/-- Vec3 `operator+`. -/
def Vec3.add (a b : Vec3 α) : Vec3 α := ⟨a.x + b.x, a.y + b.y, a.z + b.z⟩

/-- Vec3 `operator-`. -/
def Vec3.sub (a b : Vec3 α) : Vec3 α := ⟨a.x - b.x, a.y - b.y, a.z - b.z⟩

/-- Vec3 `operator*(double scalar)`. -/
def Vec3.mul (a : Vec3 α) (scalar : α) : Vec3 α := ⟨a.x * scalar, a.y * scalar, a.z * scalar⟩

/-- Vec3 `operator/(double scalar)`. -/
def Vec3.div (a : Vec3 α) (scalar : α) : Vec3 α := ⟨a.x / scalar, a.y / scalar, a.z / scalar⟩

/-- The method `Vec3::length_squared`. -/
def Vec3.length_squared (a : Vec3 α) : α := a.x * a.x + a.y * a.y + a.z * a.z

/-- The method `Vec3::length`. -/
def Vec3.length (m : Libm α) (a : Vec3 α) : α := m.sqrt a.length_squared

/-- The method `Vec3::normalize`: vectors no longer than 1e-8 become the zero vector. -/
def Vec3.normalize (m : Libm α) (a : Vec3 α) : Vec3 α :=
  let l := a.length m
  if l > 1e-8 then ⟨a.x / l, a.y / l, a.z / l⟩ else ⟨0, 0, 0⟩

/-- The static method `Vec3::dot`. -/
def Vec3.dot (a b : Vec3 α) : α := a.x * b.x + a.y * b.y + a.z * b.z

/-- The static method `Vec3::cross`. -/
def Vec3.cross (a b : Vec3 α) : Vec3 α :=
  ⟨a.y * b.z - a.z * b.y, a.z * b.x - a.x * b.z, a.x * b.y - a.y * b.x⟩

/-! ## Ray.h -/

/-- Ray with origin and direction, `struct Ray`; `Ray.mk` sets the two fields as they are. -/
structure Ray (α : Type) where
  origin : Vec3 α
  direction : Vec3 α

/-- The constructor `Ray::Ray(o, d)`: the direction is stored normalized. -/
def Ray.ctor (m : Libm α) (o d : Vec3 α) : Ray α := ⟨o, d.normalize m⟩

/-! ## Material.h -/

/-- Surface material, `struct Material`; `Material.mk` sets the fields as they are. -/
structure Material (α : Type) where
  id : String
  base_color : Vec3 α
  reflectivity : α
  roughness : α
  emission_color : Vec3 α

/-- The function `std::clamp(v, lo, hi)`. -/
def clamp (v lo hi : α) : α := if v < lo then lo else if hi < v then hi else v

/-- The constructor `Material::Material`: reflectivity and roughness are clamped to [0,1]. -/
def Material.ctor (material_id : String) (color : Vec3 α) (refl rough : α)
    (emission : Vec3 α) : Material α :=
  ⟨material_id, color, clamp refl 0 1, clamp rough 0 1, emission⟩

/-! ## Sphere.h -/

/-- Sphere with its own copy of a material, `struct Sphere`. -/
structure Sphere (α : Type) where
  center : Vec3 α
  radius : α
  material : Material α

/-- The three out-parameters of `Sphere::intersect`, set when it returns true. -/
structure Hit (α : Type) where
  t_out : α
  hit_point_out : Vec3 α
  normal_at_hit_out : Vec3 α

/-- The method `Sphere::intersect`: `none` is the result false, `some h` the result true with
the out-parameters `h`. -/
def Sphere.intersect (m : Libm α) (s : Sphere α) (ray : Ray α) : Option (Hit α) :=
  let oc := ray.origin.sub s.center
  let a := Vec3.dot ray.direction ray.direction
  let b := 2 * Vec3.dot oc ray.direction
  let c := Vec3.dot oc oc - s.radius * s.radius
  let discriminant := b * b - 4 * a * c
  if discriminant < 0 then none
  else
    let sqrt_discriminant := m.sqrt discriminant
    let t0 := (-b - sqrt_discriminant) / (2 * a)
    let t1 := (-b + sqrt_discriminant) / (2 * a)
    let intersection_t_min : α := 1e-4
    let t_hit : α := if t0 > intersection_t_min then t0 else -1
    let t_hit : α := if t1 > intersection_t_min ∧ (t_hit < 0 ∨ t1 < t_hit) then t1 else t_hit
    if t_hit > 0 then
      let hit_point_out := ray.origin.add (ray.direction.mul t_hit)
      some ⟨t_hit, hit_point_out, (hit_point_out.sub s.center).normalize m⟩
    else none

/-- The function `random_cosine_direction`: two draws, `r1` first, then `r2`. -/
def random_cosine_direction {G : Type} (m : Libm α) (dist01 : G → α × G) (rng : G) :
    Vec3 α × G :=
  let d1 := dist01 rng
  let r1 := d1.1
  let d2 := dist01 d1.2
  let r2 := d2.1
  let z := m.sqrt (1 - r2)
  let phi := 2 * M_PI * r1
  let x := m.cos phi * m.sqrt r2
  let y := m.sin phi * m.sqrt r2
  (⟨x, y, z⟩, d2.2)

/-- The function `create_onb`: returns the out-parameters `(tangent, bitangent)`. -/
def create_onb (m : Libm α) (normal : Vec3 α) : Vec3 α × Vec3 α :=
  let tangent : Vec3 α :=
    if |normal.x| > |normal.y| then
      (Vec3.mk (-normal.z) 0 normal.x).div (m.sqrt (normal.x * normal.x + normal.z * normal.z))
    else
      (Vec3.mk 0 normal.z (-normal.y)).div (m.sqrt (normal.y * normal.y + normal.z * normal.z))
  (tangent, Vec3.cross normal tangent)

/-! ## SceneLoader.h -/

/-- Scene, `struct Scene`; the `std::map` of materials is a list of (id, material) pairs. -/
structure Scene (α : Type) where
  max_ray_depth : Int
  samples_per_pixel : Int
  background_color : Vec3 α
  materials : List (String × Material α)
  objects : List (Sphere α)

/-! ## RMRayTracer.cpp: trace_ray -/

/-- The locals `closest_t`, `hit_sphere`, `hit_point`, `surface_normal` of `trace_ray`
that the loop over `g_current_scene.objects` updates; `hit_sphere` holds the sphere
pointed to, `none` is `nullptr`. -/
structure ScanState (α : Type) where
  closest_t : α
  hit_sphere : Option (Sphere α)
  hit_point : Vec3 α
  surface_normal : Vec3 α

/-- The values of the scan locals before the loop (RMRayTracer.cpp lines 90-93). -/
def scan_init : ScanState α := ⟨-1, none, ⟨0, 0, 0⟩, ⟨0, 0, 0⟩⟩

/-- One iteration of the loop over the spheres (RMRayTracer.cpp lines 96-107). -/
def scan_step (m : Libm α) (ray : Ray α) (depth : Int) (st : ScanState α)
    (sphere_obj : Sphere α) : ScanState α :=
  match sphere_obj.intersect m ray with
  | some h =>
    let t_min_check : α := if depth = 0 then 1e-4 else REFLECTION_EPSILON
    if h.t_out > t_min_check ∧ (st.closest_t < 0 ∨ h.t_out < st.closest_t) then
      ⟨h.t_out, some sphere_obj, h.hit_point_out, h.normal_at_hit_out⟩
    else st
  | none => st

/-- The loop over the spheres of the scene (RMRayTracer.cpp lines 90-108). -/
def scan (m : Libm α) (objects : List (Sphere α)) (ray : Ray α) (depth : Int) : ScanState α :=
  objects.foldl (scan_step m ray depth) scan_init

/-- The reflected ray of `trace_ray` (RMRayTracer.cpp lines 123-141) for a hit on `material`
at `hit_point` with normal `surface_normal`: the ray, the generator state afterwards and
the number of random draws made. -/
def reflection_ray {G : Type} (m : Libm α) (dist01 : G → α × G) (material : Material α)
    (ray : Ray α) (hit_point surface_normal : Vec3 α) (rng : G) : Ray α × G × Nat :=
  let incident_dir := ray.direction
  let perfect_reflection_dir :=
    incident_dir.sub (surface_normal.mul (2 * Vec3.dot incident_dir surface_normal))
  let perfect_reflection_dir := perfect_reflection_dir.normalize m
  if material.roughness < 1e-5 then
    (Ray.ctor m (hit_point.add (surface_normal.mul REFLECTION_EPSILON)) perfect_reflection_dir,
      rng, 0)
  else
    let onb := create_onb m surface_normal
    let tangent := onb.1
    let bitangent := onb.2
    let sample := random_cosine_direction m dist01 rng
    let sample_local_hemisphere := sample.1
    let random_world_dir :=
      (((tangent.mul sample_local_hemisphere.x).add (bitangent.mul sample_local_hemisphere.y)).add
        (surface_normal.mul sample_local_hemisphere.z)).normalize m
    let scattered_reflection_dir :=
      ((perfect_reflection_dir.mul (1 - material.roughness)).add
        (random_world_dir.mul material.roughness)).normalize m
    (Ray.ctor m (hit_point.add (surface_normal.mul REFLECTION_EPSILON)) scattered_reflection_dir,
      sample.2, 2)

/-- What one call of `trace_ray` yields: the returned radiance, the state of the generator
passed by reference, and counters of what the call and the calls nested in it did:
`invocations` of `trace_ray` (this one included), `scans` of the sphere list,
`tests` (calls of `Sphere::intersect`) and random `draws`. -/
structure TraceResult (α G : Type) where
  radiance : Vec3 α
  rng : G
  invocations : Nat
  scans : Nat
  tests : Nat
  draws : Nat

/-- The function `trace_ray` (RMRayTracer.cpp lines 85-146). -/
def trace_ray {G : Type} (m : Libm α) (dist01 : G → α × G) (scene : Scene α) (ray : Ray α)
    (depth : Int) (rng : G) : TraceResult α G :=
  if _hdepth : depth ≥ scene.max_ray_depth then
    ⟨⟨0, 0, 0⟩, rng, 1, 0, 0, 0⟩
  else
    let st := scan m scene.objects ray depth
    match st.hit_sphere with
    | none => ⟨scene.background_color, rng, 1, 1, scene.objects.length, 0⟩
    | some hit_sphere =>
      let material := hit_sphere.material
      let final_color := material.emission_color
      let base_color_contribution_factor := 1 - material.reflectivity
      let final_color :=
        if base_color_contribution_factor > 1e-5 then
          final_color.add (material.base_color.mul base_color_contribution_factor)
        else final_color
      if material.reflectivity > 1e-5 then
        let refl := reflection_ray m dist01 material ray st.hit_point st.surface_normal rng
        let reflected := trace_ray m dist01 scene refl.1 (depth + 1) refl.2.1
        ⟨final_color.add (reflected.radiance.mul material.reflectivity), reflected.rng,
          reflected.invocations + 1, reflected.scans + 1,
          reflected.tests + scene.objects.length, reflected.draws + refl.2.2⟩
      else
        ⟨final_color, rng, 1, 1, scene.objects.length, 0⟩
termination_by (scene.max_ray_depth - depth).toNat
decreasing_by omega

/-! ## Camera.h -/

/-- Camera state, `struct Camera`. -/
structure Camera (α : Type) where
  position : Vec3 α
  look_at_target : Vec3 α
  world_up_vector : Vec3 α
  fov_degrees : α
  forward_direction : Vec3 α
  right_direction : Vec3 α
  up_direction : Vec3 α
  image_plane_dist : α
  image_plane_h : α
  image_plane_w : α
  aspect_ratio : α
  yaw_radians : α
  pitch_radians : α

/-- The method `Camera::get_ray`. -/
def Camera.get_ray (m : Libm α) (cam : Camera α) (u_norm v_norm : α) : Ray α :=
  let u_film := u_norm - 0.5
  let v_film := 0.5 - v_norm
  let point_on_plane :=
    ((cam.right_direction.mul (u_film * cam.image_plane_w)).add
      (cam.up_direction.mul (v_film * cam.image_plane_h))).add
      (cam.forward_direction.mul cam.image_plane_dist)
  Ray.ctor m cam.position (point_on_plane.normalize m)

/-- The point of the image plane, relative to the camera position, that `Camera::get_ray`
aims at (Camera.h lines 99-101). -/
def Camera.point_on_plane (cam : Camera α) (u_norm v_norm : α) : Vec3 α :=
  ((cam.right_direction.mul ((u_norm - 0.5) * cam.image_plane_w)).add
    (cam.up_direction.mul ((0.5 - v_norm) * cam.image_plane_h))).add
    (cam.forward_direction.mul cam.image_plane_dist)

/-- The basis of the camera is orthonormal. -/
structure Camera.Orthonormal (cam : Camera α) : Prop where
  forward_unit : Vec3.dot cam.forward_direction cam.forward_direction = 1
  right_unit : Vec3.dot cam.right_direction cam.right_direction = 1
  up_unit : Vec3.dot cam.up_direction cam.up_direction = 1
  forward_right : Vec3.dot cam.forward_direction cam.right_direction = 0
  forward_up : Vec3.dot cam.forward_direction cam.up_direction = 0
  right_up : Vec3.dot cam.right_direction cam.up_direction = 0

/-- The constant `Camera::MIN_PITCH`. -/
def Camera.MIN_PITCH : α := -M_PI / 2.0 + 0.017

/-- The constant `Camera::MAX_PITCH`. -/
def Camera.MAX_PITCH : α := M_PI / 2.0 - 0.017

/-- The constructor `Camera::Camera(pos, target, world_up, fov)`; the three direction
vectors start as `Vec3()`. -/
def Camera.ctor (m : Libm α) (pos target world_up : Vec3 α) (fov : α) : Camera α :=
  { position := pos, look_at_target := target, world_up_vector := world_up.normalize m,
    fov_degrees := fov, forward_direction := ⟨0, 0, 0⟩, right_direction := ⟨0, 0, 0⟩,
    up_direction := ⟨0, 0, 0⟩, image_plane_dist := 1.0, image_plane_h := 0.0,
    image_plane_w := 0.0, aspect_ratio := 0.0, yaw_radians := 0.0, pitch_radians := 0.0 }

/-- The value of `right_direction` that `Camera::update_orientation_vectors` settles on
(Camera.h lines 47-61) for the normalized `forward_direction`. -/
def Camera.right_of (m : Libm α) (cam : Camera α) (forward_direction : Vec3 α) : Vec3 α :=
  let right_direction := (Vec3.cross forward_direction cam.world_up_vector).normalize m
  if right_direction.length_squared < 1e-6 then
    let robust_up_alternative : Vec3 α :=
      if |Vec3.dot forward_direction ⟨0, 1, 0⟩| > 0.999 then ⟨1, 0, 0⟩ else cam.world_up_vector
    let robust_up_alternative : Vec3 α :=
      if |Vec3.dot forward_direction ⟨1, 0, 0⟩| > 0.999 ∧ robust_up_alternative.x = 1.0 then
        ⟨0, 0, 1⟩
      else robust_up_alternative
    let right_direction := (Vec3.cross forward_direction robust_up_alternative).normalize m
    if right_direction.length_squared < 1e-6 then
      ⟨m.cos (cam.yaw_radians + M_PI / 2.0), 0, m.sin (cam.yaw_radians + M_PI / 2.0)⟩
    else right_direction
  else right_direction

/-- The method `Camera::update_orientation_vectors`. -/
def Camera.update_orientation_vectors (m : Libm α) (cam : Camera α) : Camera α :=
  let forward_direction : Vec3 α :=
    ⟨m.cos cam.yaw_radians * m.cos cam.pitch_radians, m.sin cam.pitch_radians,
      m.sin cam.yaw_radians * m.cos cam.pitch_radians⟩
  let forward_direction := forward_direction.normalize m
  let right_direction := cam.right_of m forward_direction
  let up_direction := (Vec3.cross right_direction forward_direction).normalize m
  let cam1 : Camera α :=
    { cam with forward_direction := forward_direction, right_direction := right_direction,
               up_direction := up_direction }
  if cam1.aspect_ratio > 0 then
    let fov_rad := cam1.fov_degrees * (M_PI / 180.0)
    let image_plane_h := 2.0 * cam1.image_plane_dist * m.tan (fov_rad / 2.0)
    { cam1 with image_plane_h := image_plane_h,
                image_plane_w := image_plane_h * cam1.aspect_ratio }
  else cam1

/-- The method `Camera::initialize(screen_aspect_ratio)`. -/
def Camera.init (m : Libm α) (cam : Camera α) (screen_aspect_ratio : α) : Camera α :=
  let cam1 : Camera α :=
    { cam with aspect_ratio := screen_aspect_ratio,
               world_up_vector := cam.world_up_vector.normalize m }
  let initial_forward := (cam1.look_at_target.sub cam1.position).normalize m
  let yaw_radians := m.atan2 initial_forward.z initial_forward.x
  let forward_proj_xz_len :=
    m.sqrt (initial_forward.x * initial_forward.x + initial_forward.z * initial_forward.z)
  let pitch_radians : α :=
    if forward_proj_xz_len < 1e-6 ∧ initial_forward.y ≠ 0.0 then
      (if initial_forward.y > 0 then Camera.MAX_PITCH else Camera.MIN_PITCH)
    else if forward_proj_xz_len > 1e-6 then m.atan2 initial_forward.y forward_proj_xz_len
    else 0.0
  let pitch_radians := clamp pitch_radians Camera.MIN_PITCH Camera.MAX_PITCH
  Camera.update_orientation_vectors m
    { cam1 with yaw_radians := yaw_radians, pitch_radians := pitch_radians }

/-- The method `Camera::move_forward`. -/
def Camera.move_forward (cam : Camera α) (amount : α) : Camera α :=
  { cam with position := cam.position.add (cam.forward_direction.mul amount) }

/-- The method `Camera::move_sideways`. -/
def Camera.move_sideways (cam : Camera α) (amount : α) : Camera α :=
  { cam with position := cam.position.add (cam.right_direction.mul amount) }

/-- The method `Camera::move_vertical`. -/
def Camera.move_vertical (cam : Camera α) (amount : α) : Camera α :=
  { cam with position := cam.position.add (cam.up_direction.mul amount) }

/-- The method `Camera::rotate_yaw`. -/
def Camera.rotate_yaw (cam : Camera α) (angle_rad : α) : Camera α :=
  { cam with yaw_radians := cam.yaw_radians + angle_rad }

/-- The method `Camera::rotate_pitch`. -/
def Camera.rotate_pitch (cam : Camera α) (angle_rad : α) : Camera α :=
  let pitch_radians := cam.pitch_radians + angle_rad
  { cam with pitch_radians := clamp pitch_radians Camera.MIN_PITCH Camera.MAX_PITCH }

/-- One call of a method of `Camera` on an existing camera, with its argument. -/
inductive CameraCall (α : Type) where
  | init (screen_aspect_ratio : α)
  | update_orientation_vectors
  | move_forward (amount : α)
  | move_sideways (amount : α)
  | move_vertical (amount : α)
  | rotate_yaw (angle_rad : α)
  | rotate_pitch (angle_rad : α)

/-- The camera after one method call. -/
def Camera.call (m : Libm α) (cam : Camera α) : CameraCall α → Camera α
  | .init screen_aspect_ratio => cam.init m screen_aspect_ratio
  | .update_orientation_vectors => cam.update_orientation_vectors m
  | .move_forward amount => cam.move_forward amount
  | .move_sideways amount => cam.move_sideways amount
  | .move_vertical amount => cam.move_vertical amount
  | .rotate_yaw angle_rad => cam.rotate_yaw angle_rad
  | .rotate_pitch angle_rad => cam.rotate_pitch angle_rad

/-- The camera after a sequence of method calls, first call first. -/
def Camera.calls (m : Libm α) (cam : Camera α) (cs : List (CameraCall α)) : Camera α :=
  cs.foldl (Camera.call m) cam

/-! ## ColorUtils.h -/

/-- The conversion `static_cast<uint8_t>` of a `double`: the fraction is dropped. -/
def to_uint8 [FloorRing α] (v : α) : Nat := (Int.toNat (Int.floor v)) % 256

/-- The function `vec3_to_uint32_color`: 0xAARRGGBB as a 32-bit value. -/
def vec3_to_uint32_color [FloorRing α] (color_vec : Vec3 α) : Nat :=
  let r := to_uint8 (clamp color_vec.x 0 1 * 255)
  let g := to_uint8 (clamp color_vec.y 0 1 * 255)
  let b := to_uint8 (clamp color_vec.z 0 1 * 255)
  let alpha := 0xFF
  ((alpha <<< 24) ||| (r <<< 16) ||| (g <<< 8) ||| b) % 2 ^ 32

/-! ## RMRayTracer.cpp: render_chunk -/

/-- The constant `IMAGE_WIDTH`. -/
def IMAGE_WIDTH : Int := 1920

/-- The constant `IMAGE_HEIGHT`. -/
def IMAGE_HEIGHT : Int := 1080

/-- The band of one worker, `struct ThreadRenderTask`; the buffer that `pixelBuffer_ptr`
points to is passed along as a value. -/
structure ThreadRenderTask where
  threadId : Int
  startY : Int
  endY : Int

/-- The pixel buffer `g_pixelBuffer`: the 32-bit value stored at each index. -/
abbrev PixelBuffer := Int → Nat

/-- The assignment `buffer[index] = value`. -/
def PixelBuffer.write (buffer : PixelBuffer) (index : Int) (value : Nat) : PixelBuffer :=
  fun i => if i = index then value else buffer i

/-- The loop `for (int i = lo; i < hi; ++i) body` over a state `σ`. -/
def for_range {σ : Type} (lo hi : Int) (body : Int → σ → σ) (init : σ) : σ :=
  (List.range (hi - lo).toNat).foldl (fun (st : σ) (i : Nat) => body (lo + Int.ofNat i) st) init

/-- One iteration of the sample loop of `render_chunk` (RMRayTracer.cpp lines 71-77) on the
state `(accumulated_color, rng_for_thread)`. -/
def render_sample {G : Type} (m : Libm α) (dist01 : G → α × G) (scene : Scene α)
    (camera : Camera α) (x y samples : Int) (st : Vec3 α × G) : Vec3 α × G :=
  let jx : α × G := if samples > 1 then dist01 st.2 else (0.5, st.2)
  let dx := jx.1
  let jy : α × G := if samples > 1 then dist01 jx.2 else (0.5, jx.2)
  let dy := jy.1
  let u := ((x : α) + dx) / (IMAGE_WIDTH : α)
  let v := ((y : α) + dy) / (IMAGE_HEIGHT : α)
  let primary_ray := camera.get_ray m u v
  let traced := trace_ray m dist01 scene primary_ray 0 jy.2
  (st.1.add traced.radiance, traced.rng)

/-- The body of the loop over `x` of `render_chunk` (RMRayTracer.cpp lines 67-80) on the
state `(rng_for_thread, pixel buffer)`. -/
def render_pixel {G : Type} [FloorRing α] (m : Libm α) (dist01 : G → α × G) (scene : Scene α)
    (camera : Camera α) (y x : Int) (st : G × PixelBuffer) : G × PixelBuffer :=
  let samples : Int := if scene.samples_per_pixel > 0 then scene.samples_per_pixel else 1
  let acc := for_range 0 samples (fun _ => render_sample m dist01 scene camera x y samples)
    ((⟨0, 0, 0⟩ : Vec3 α), st.1)
  let final_pixel_color := acc.1.div (samples : α)
  (acc.2, st.2.write (y * IMAGE_WIDTH + x) (vec3_to_uint32_color final_pixel_color))

/-- The function `render_chunk`: the generator state and the pixel buffer afterwards. -/
def render_chunk {G : Type} [FloorRing α] (m : Libm α) (dist01 : G → α × G) (scene : Scene α)
    (camera : Camera α) (task : ThreadRenderTask) (rng_for_thread : G)
    (buffer : PixelBuffer) : G × PixelBuffer :=
  for_range task.startY task.endY
    (fun y => for_range 0 IMAGE_WIDTH (render_pixel m dist01 scene camera y))
    (rng_for_thread, buffer)

/-- The radiance the specification states for a hit on `hit_sphere` (section 4.4):
emission + base_color × (1 − reflectivity), plus, if reflectivity > 0, the radiance of the
reflected ray traced at `depth + 1`, weighted by the reflectivity. -/
def radiance_as_specified {G : Type} (m : Libm α) (dist01 : G → α × G) (scene : Scene α)
    (ray : Ray α) (depth : Int) (rng : G) (hit_sphere : Sphere α) : Vec3 α :=
  let material := hit_sphere.material
  let st := scan m scene.objects ray depth
  let own := material.emission_color.add (material.base_color.mul (1 - material.reflectivity))
  if material.reflectivity > 0 then
    let refl := reflection_ray m dist01 material ray st.hit_point st.surface_normal rng
    own.add ((trace_ray m dist01 scene refl.1 (depth + 1) refl.2.1).radiance.mul
      material.reflectivity)
  else own

/-- The quadratic `a*t^2 + b*t + c` that `Sphere::intersect` solves (Sphere.h lines 77-86),
at `t`. -/
def Sphere.quadratic (s : Sphere α) (ray : Ray α) (t : α) : α :=
  Vec3.dot ray.direction ray.direction * t ^ 2 +
    2 * Vec3.dot (ray.origin.sub s.center) ray.direction * t +
    (Vec3.dot (ray.origin.sub s.center) (ray.origin.sub s.center) - s.radius * s.radius)

/-! ## RMRayTracer.cpp: the band partition of WinMain -/


/-- The constant `NUM_THREADS`. -/
def NUM_THREADS : Int := 16

/-- The body of the loop that fills `g_renderTasks` (RMRayTracer.cpp lines 238-245), on the
state `(current_y_offset, the tasks filled so far)`. -/
def band_step (image_height num_threads rowsPerThread : Int) (i : Int)
    (st : Int × List ThreadRenderTask) : Int × List ThreadRenderTask :=
  let startY := st.1
  let endY := st.1 + rowsPerThread
  let endY := if i = num_threads - 1 then image_height else endY
  (endY, st.2 ++ [⟨i, startY, endY⟩])

/-- The band computation of `WinMain` (RMRayTracer.cpp lines 235-245) for an image of
`image_height` rows and `num_threads` workers: the tasks in the order of their index. -/
def make_render_tasks (image_height num_threads : Int) : List ThreadRenderTask :=
  (for_range 0 num_threads
    (band_step image_height num_threads (Int.tdiv image_height num_threads)) (0, [])).2

/-- The number of rows of a band. -/
def ThreadRenderTask.rows (t : ThreadRenderTask) : Int := t.endY - t.startY

/-! ## RMRayTracer.cpp: the frame barrier of render_chunk_loop and WinMain -/

/-- Where a worker thread stands in `render_chunk_loop` (RMRayTracer.cpp lines 148-173). -/
inductive WorkerPc where
  /-- In `g_workerStartCv.wait` (lines 156-159). -/
  | waiting
  /-- The wait has returned; before the shutdown check (line 160). -/
  | woke
  /-- Before the load of `g_targetFrameId` (lines 163-164). -/
  | loading
  /-- Inside `render_chunk`, writing the rows of its band (line 166). -/
  | rendering
  /-- After `render_chunk`, before the `fetch_add` (lines 167-168). -/
  | rendered
  /-- The `fetch_add` returned `NUM_THREADS - 1`; before `notify_one` (lines 169-170). -/
  | notifying
  /-- Left the loop by `break` (line 161). -/
  | exited
deriving DecidableEq

/-- The local variables of one worker thread, with two ghost fields: `completed` lists the
frame ids for which the worker has run `render_chunk` to its end and executed the `fetch_add`
(newest first), and `added` counts its `fetch_add`s since the counter was last stored 0. -/
structure WorkerState where
  pc : WorkerPc
  worker_last_completed_frame_id : Int
  current_frame_to_render : Int
  local_frame_info : Int
  completed : List Int
  added : Nat

/-- Where the main thread stands in the loop of `WinMain` (RMRayTracer.cpp lines 259-306). -/
inductive MainPc where
  /-- Lines 260-286: message pump (the paint handler reads the pixel buffer), scene reload,
  camera update. -/
  | top
  /-- After `g_currentFrameInfo.frameNumber = frame_counter` (line 288). -/
  | prepared
  /-- After `g_workersDoneCount.store(0)` (line 289). -/
  | reset
  /-- After `g_targetFrameId.store(frame_counter)` (line 290). -/
  | published
  /-- After `notify_all`, in `g_mainWaitCv.wait` (lines 291-297). -/
  | waiting
  /-- The wait has returned; before `InvalidateRect` and `frame_counter++` (lines 298-299). -/
  | presenting
  /-- After the loop: `g_shutdownThreads.store(true)` has run (line 305). -/
  | stopped
deriving DecidableEq

/-- The shared variables of the scheduler, the main thread's `frame_counter` and position,
and the state of each of the `N` workers. -/
structure SchedState (N : Nat) where
  g_targetFrameId : Int
  g_workersDoneCount : Nat
  g_shutdownThreads : Bool
  g_currentFrameInfo : Int
  frame_counter : Int
  main_pc : MainPc
  worker : Fin N → WorkerState

/-- The threads of the program; the main thread carries the value that the message pump
gives `quit_flag` when it is next read. -/
inductive Thread (N : Nat) where
  | main (quit_flag : Bool)
  | worker (i : Fin N)

/-- One step of a worker in `render_chunk_loop` (RMRayTracer.cpp lines 148-173), given the
values it reads from the shared variables; returns the worker's new local state and the new
value of `g_workersDoneCount`, the only shared variable a worker writes. A wait whose
predicate is false leaves the worker where it is. -/
def render_chunk_loop_step (num_threads : Nat) (g_targetFrameId : Int)
    (g_shutdownThreads : Bool) (g_currentFrameInfo : Int) (g_workersDoneCount : Nat)
    (ws : WorkerState) : WorkerState × Nat :=
  match ws.pc with
  | .waiting =>
    if g_targetFrameId > ws.worker_last_completed_frame_id ∨ g_shutdownThreads = true then
      ({ ws with pc := .woke }, g_workersDoneCount)
    else (ws, g_workersDoneCount)
  | .woke =>
    if g_shutdownThreads = true then ({ ws with pc := .exited }, g_workersDoneCount)
    else ({ ws with pc := .loading }, g_workersDoneCount)
  | .loading =>
    ({ ws with pc := .rendering, current_frame_to_render := g_targetFrameId,
               local_frame_info := g_currentFrameInfo }, g_workersDoneCount)
  | .rendering => ({ ws with pc := .rendered }, g_workersDoneCount)
  | .rendered =>
    ({ ws with pc := if g_workersDoneCount + 1 = num_threads then .notifying else .waiting,
               worker_last_completed_frame_id := ws.current_frame_to_render,
               completed := ws.current_frame_to_render :: ws.completed,
               added := ws.added + 1 }, g_workersDoneCount + 1)
  | .notifying => ({ ws with pc := .waiting }, g_workersDoneCount)
  | .exited => (ws, g_workersDoneCount)

/-- One step of the main thread in the loop of `WinMain` (RMRayTracer.cpp lines 259-306). A
wait whose predicate is false leaves the thread where it is. -/
def main_loop_step {N : Nat} (quit_flag : Bool) (s : SchedState N) : SchedState N :=
  match s.main_pc with
  | .top =>
    if quit_flag = true then { s with g_shutdownThreads := true, main_pc := .stopped }
    else { s with g_currentFrameInfo := s.frame_counter, main_pc := .prepared }
  | .prepared =>
    { s with g_workersDoneCount := 0, main_pc := .reset,
             worker := fun i => { s.worker i with added := 0 } }
  | .reset => { s with g_targetFrameId := s.frame_counter, main_pc := .published }
  | .published => { s with main_pc := .waiting }
  | .waiting => if s.g_workersDoneCount = N then { s with main_pc := .presenting } else s
  | .presenting => { s with frame_counter := s.frame_counter + 1, main_pc := .top }
  | .stopped => s

/-- One step of the thread `t`. -/
def sched_step {N : Nat} (t : Thread N) (s : SchedState N) : SchedState N :=
  match t with
  | .main quit_flag => main_loop_step quit_flag s
  | .worker i =>
    let r := render_chunk_loop_step N s.g_targetFrameId s.g_shutdownThreads
      s.g_currentFrameInfo s.g_workersDoneCount (s.worker i)
    { s with worker := Function.update s.worker i r.1, g_workersDoneCount := r.2 }

/-- The state when the main thread enters its loop: the initial values of the globals
(RMRayTracer.cpp lines 41-49), `frame_counter = 0`, every worker at its first wait with
`worker_last_completed_frame_id = -1`. -/
def sched_init (N : Nat) : SchedState N :=
  { g_targetFrameId := -1, g_workersDoneCount := 0, g_shutdownThreads := false,
    g_currentFrameInfo := 0, frame_counter := 0, main_pc := .top,
    worker := fun _ => ⟨.waiting, -1, 0, 0, [], 0⟩ }

/-- The state after the threads have taken steps in the order `schedule`. -/
def sched_run (N : Nat) (schedule : List (Thread N)) : SchedState N :=
  schedule.foldl (fun s t => sched_step t s) (sched_init N)

/-- What holds of one worker at each position of the main thread. -/
def WorkerInv (c : MainPc) (target : Int) (ws : WorkerState) : Prop :=
  (∀ x ∈ ws.completed, x ≤ ws.worker_last_completed_frame_id) ∧ ws.completed.Nodup ∧
  ws.added ≤ 1 ∧
  match c with
  | .top | .prepared =>
    ws.worker_last_completed_frame_id = target ∧ (ws.pc = .waiting ∨ ws.pc = .notifying)
  | .stopped =>
    ws.worker_last_completed_frame_id = target ∧
      (ws.pc = .waiting ∨ ws.pc = .notifying ∨ ws.pc = .woke ∨ ws.pc = .exited)
  | .reset =>
    ws.worker_last_completed_frame_id = target ∧ ws.added = 0 ∧
      (ws.pc = .waiting ∨ ws.pc = .notifying)
  | .published | .waiting =>
    (ws.worker_last_completed_frame_id = target ∧ ws.added = 1 ∧ target ∈ ws.completed ∧
      (ws.pc = .waiting ∨ ws.pc = .notifying)) ∨
    (ws.worker_last_completed_frame_id < target ∧ ws.added = 0 ∧
      (ws.pc = .waiting ∨ ws.pc = .notifying ∨ ws.pc = .woke ∨ ws.pc = .loading)) ∨
    (ws.worker_last_completed_frame_id < target ∧ ws.added = 0 ∧
      ws.current_frame_to_render = target ∧ (ws.pc = .rendering ∨ ws.pc = .rendered))
  | .presenting =>
    ws.worker_last_completed_frame_id = target ∧ ws.added = 1 ∧ target ∈ ws.completed ∧
      (ws.pc = .waiting ∨ ws.pc = .notifying)

/-- A schedule of two workers in which the main thread publishes frame 0, both workers
render it, and the wait of the main thread returns. -/
def two_worker_schedule : List (Thread 2) :=
  [.main false, .main false, .main false, .main false,
   .worker 0, .worker 0, .worker 0, .worker 1, .worker 1, .worker 1,
   .worker 0, .worker 1, .worker 0, .worker 1, .main false]

/-- The invariant of the scheduler. -/
def SchedInv {N : Nat} (s : SchedState N) : Prop :=
  s.g_workersDoneCount = ∑ i, (s.worker i).added ∧
  (s.g_shutdownThreads = true ↔ s.main_pc = .stopped) ∧
  (s.frame_counter =
    if s.main_pc = .published ∨ s.main_pc = .waiting ∨ s.main_pc = .presenting then s.g_targetFrameId
    else s.g_targetFrameId + 1) ∧
  ∀ i, WorkerInv s.main_pc s.g_targetFrameId (s.worker i)

/-! ## SceneLoader.h: load_scene_from_file -/

/-- The functions `std::stoi` and `std::stod` of the standard library; `none` stands for a
thrown exception. -/
structure StrConv (α : Type) where
  stoi : String → Option Int
  stod : String → Option α

/-- The default constructor `Scene::Scene()`. -/
def Scene.ctor : Scene α := ⟨5, 1, ⟨0.2, 0.2, 0.2⟩, [], []⟩

/-- The function `split_string` on the characters not yet read and the token being read
(in reverse): `std::getline` with a delimiter yields a token at each delimiter, and one more
when the input ends after at least one further character. -/
def split_string_loop (delimiter : Char) : List Char → List Char → List (List Char)
  | [], token => if token = [] then [] else [token.reverse]
  | c :: rest, token =>
    if c = delimiter then token.reverse :: split_string_loop delimiter rest []
    else split_string_loop delimiter rest (c :: token)

/-- The function `split_string`. -/
def split_string (s : List Char) (delimiter : Char) : List (List Char) :=
  split_string_loop delimiter s []

/-- Membership in the set `" \t\n\r\f\v"` that `load_scene_from_file` trims. -/
def is_trimmed (c : Char) : Bool :=
  c = ' ' || c = '\t' || c = '\n' || c = '\r' || c = '\x0c' || c = '\x0b'

/-- The two `erase` calls that trim a line (SceneLoader.h lines 53-54). -/
def trim_line (line : List Char) : List Char :=
  ((line.dropWhile is_trimmed).reverse.dropWhile is_trimmed).reverse

/-- The test `line.empty() || line[0] == '#'` on the trimmed line (SceneLoader.h line 56):
the line is blank or a comment. -/
def is_skipped (raw : String) : Bool :=
  trim_line raw.data = [] || (trim_line raw.data).head? = some '#'

/-- The tokens of a line: `split_string(line, ';')` on the trimmed line. -/
def line_tokens (raw : String) : List String :=
  (split_string (trim_line raw.data) ';').map String.mk

/-- The lookup `materials.find(id)` of the `std::map`; `none` is `end()`. -/
def materials_find : List (String × Material α) → String → Option (Material α)
  | [], _ => none
  | (k, v) :: rest, id => if k = id then some v else materials_find rest id

/-- The assignment `materials[id] = material` of the `std::map`: the entry of `id` is
replaced, or a new entry is added. -/
def materials_assign : List (String × Material α) → String → Material α →
    List (String × Material α)
  | [], id, material => [(id, material)]
  | (k, v) :: rest, id, material =>
    if k = id then (k, material) :: rest else (k, v) :: materials_assign rest id material

/-- The locals of `load_scene_from_file` that the loop over the lines updates; `stopped`
holds once the loop has been left by `break`. -/
structure LoadState (α : Type) where
  loaded_scene : Scene α
  success : Bool
  line_number : Int
  globals_loaded : Bool
  stopped : Bool

/-- The values of the locals before the loop (SceneLoader.h lines 37-49). -/
def load_init : LoadState α := ⟨Scene.ctor, true, 0, false, false⟩

/-- The global settings line (SceneLoader.h lines 63-73): the five assignments in order; a
conversion that throws leaves the earlier assignments in place and clears `success`. -/
def load_globals (P : StrConv α) (st : LoadState α) (tokens : List String) : LoadState α :=
  if tokens.length < 5 then { st with success := false, stopped := true }
  else
    match P.stoi (tokens.getD 0 "") with
    | none => { st with success := false }
    | some d =>
      let sc := { st.loaded_scene with max_ray_depth := d }
      match P.stoi (tokens.getD 1 "") with
      | none => { st with loaded_scene := sc, success := false }
      | some s =>
        let sc := { sc with samples_per_pixel := s }
        match P.stod (tokens.getD 2 "") with
        | none => { st with loaded_scene := sc, success := false }
        | some r =>
          let sc := { sc with background_color := { sc.background_color with x := r } }
          match P.stod (tokens.getD 3 "") with
          | none => { st with loaded_scene := sc, success := false }
          | some g =>
            let sc := { sc with background_color := { sc.background_color with y := g } }
            match P.stod (tokens.getD 4 "") with
            | none => { st with loaded_scene := sc, success := false }
            | some b =>
              let sc := { sc with background_color := { sc.background_color with z := b } }
              { st with loaded_scene := sc, globals_loaded := true }

/-- The conversions of a material line (SceneLoader.h lines 79-89); `none` when one of them
throws. -/
def parse_material (P : StrConv α) (tokens : List String) : Option (Material α) := do
  let id := tokens.getD 1 ""
  let cx ← P.stod (tokens.getD 2 "")
  let cy ← P.stod (tokens.getD 3 "")
  let cz ← P.stod (tokens.getD 4 "")
  let reflectivity ← P.stod (tokens.getD 5 "")
  let roughness ← P.stod (tokens.getD 6 "")
  let emission ←
    if tokens.length ≥ 10 then do
      let ex ← P.stod (tokens.getD 7 "")
      let ey ← P.stod (tokens.getD 8 "")
      let ez ← P.stod (tokens.getD 9 "")
      pure (Vec3.mk ex ey ez)
    else pure (Vec3.mk 0 0 0)
  pure (Material.ctor id ⟨cx, cy, cz⟩ reflectivity roughness emission)

/-- The conversions of a sphere line (SceneLoader.h lines 94-95): centre and radius; `none`
when one of them throws. -/
def parse_sphere (P : StrConv α) (tokens : List String) : Option (Vec3 α × α) := do
  let cx ← P.stod (tokens.getD 2 "")
  let cy ← P.stod (tokens.getD 3 "")
  let cz ← P.stod (tokens.getD 4 "")
  let radius ← P.stod (tokens.getD 5 "")
  pure (⟨cx, cy, cz⟩, radius)

/-- A line after the global settings (SceneLoader.h lines 76-108). -/
def load_object (P : StrConv α) (st : LoadState α) (tokens : List String) : LoadState α :=
  let type := (tokens.getD 0 "").data.headD (Char.ofNat 0)
  if type = 'M' then
    if tokens.length < 7 then st
    else
      match parse_material P tokens with
      | none => { st with success := false }
      | some material =>
        { st with loaded_scene :=
            { st.loaded_scene with
              materials := materials_assign st.loaded_scene.materials (tokens.getD 1 "")
                material } }
  else if type = 'S' then
    if tokens.length < 6 then st
    else
      match parse_sphere P tokens with
      | none => { st with success := false }
      | some (center, radius) =>
        match materials_find st.loaded_scene.materials (tokens.getD 1 "") with
        | some material =>
          { st with loaded_scene :=
              { st.loaded_scene with
                objects := st.loaded_scene.objects ++ [⟨center, radius, material⟩] } }
        | none => st
  else st

/-- One iteration of the loop over the lines of the file (SceneLoader.h lines 51-114). -/
def load_line (P : StrConv α) (st : LoadState α) (raw : String) : LoadState α :=
  if st.stopped then st
  else
    let st := { st with line_number := st.line_number + 1 }
    if is_skipped raw then st
    else
      let tokens := line_tokens raw
      if tokens = [] then st
      else if ¬ st.globals_loaded then load_globals P st tokens
      else load_object P st tokens

/-- The loop over the lines that `std::getline` reads from the file. -/
def load_lines (P : StrConv α) (lines : List String) : LoadState α :=
  lines.foldl (load_line P) load_init

/-- The function `load_scene_from_file`; the file is given as the lines that `std::getline`
reads from it, `none` when it cannot be opened. -/
def load_scene_from_file (P : StrConv α) (file : Option (List String)) : Scene α :=
  match file with
  | none => Scene.ctor
  | some lines =>
    let st := load_lines P lines
    let success :=
      if ¬ st.globals_loaded ∧ st.line_number > 0 ∧ st.success then false else st.success
    if ¬ success then Scene.ctor else st.loaded_scene

/-! ## Double arithmetic

The definitions above compute in the exact arithmetic of `α`.  The definitions of this part
repeat those that the statements about rounding need, with a function `fl : α → α` applied
to the result of every arithmetic operation and to every decimal literal that is not a
double; with `fl` the identity they are the definitions above.  The rounding of the machine
is `binary64`: to the nearest number with a significand of 53 bits and an exponent of the
last place of at least -1074, a tie to the even significand.  It is the rounding of the
machine for every result below the largest double in magnitude; overflow to an infinity and
NaN have no counterpart.  Every operation is rounded once, as the source writes it. -/

/-- Rounding to the nearest integer, a tie to the even one. -/
def round_half_even [FloorRing α] (y : α) : Int :=
  if y - Int.floor y < 1 / 2 then Int.floor y
  else if 1 / 2 < y - Int.floor y then Int.floor y + 1
  else if Int.floor y % 2 = 0 then Int.floor y else Int.floor y + 1

/-- The exponent of the last place of the double nearest to `x`: 52 below the exponent of
`x`, and -1074 for the subnormal numbers. -/
def binary64_exponent [FloorRing α] (x : α) : Int := max (Int.log 2 |x| - 52) (-1074)

/-- The value of the double nearest to `x`, a tie to the even significand. -/
def binary64 [FloorRing α] (x : α) : α :=
  (round_half_even (x / 2 ^ binary64_exponent x) : α) * 2 ^ binary64_exponent x

/-- Vec3 `operator+` in double arithmetic. -/
def Vec3.add_fl (fl : α → α) (a b : Vec3 α) : Vec3 α :=
  ⟨fl (a.x + b.x), fl (a.y + b.y), fl (a.z + b.z)⟩

/-- Vec3 `operator-` in double arithmetic. -/
def Vec3.sub_fl (fl : α → α) (a b : Vec3 α) : Vec3 α :=
  ⟨fl (a.x - b.x), fl (a.y - b.y), fl (a.z - b.z)⟩

/-- Vec3 `operator*(double scalar)` in double arithmetic. -/
def Vec3.mul_fl (fl : α → α) (a : Vec3 α) (scalar : α) : Vec3 α :=
  ⟨fl (a.x * scalar), fl (a.y * scalar), fl (a.z * scalar)⟩

/-- The method `Vec3::length_squared` in double arithmetic. -/
def Vec3.length_squared_fl (fl : α → α) (a : Vec3 α) : α :=
  fl (fl (fl (a.x * a.x) + fl (a.y * a.y)) + fl (a.z * a.z))

/-- The method `Vec3::length` in double arithmetic; `m.sqrt` returns a double. -/
def Vec3.length_fl (fl : α → α) (m : Libm α) (a : Vec3 α) : α :=
  m.sqrt (a.length_squared_fl fl)

/-- The method `Vec3::normalize` in double arithmetic. -/
def Vec3.normalize_fl (fl : α → α) (m : Libm α) (a : Vec3 α) : Vec3 α :=
  let l := a.length_fl fl m
  if l > fl 1e-8 then ⟨fl (a.x / l), fl (a.y / l), fl (a.z / l)⟩ else ⟨0, 0, 0⟩

/-- The static method `Vec3::dot` in double arithmetic. -/
def Vec3.dot_fl (fl : α → α) (a b : Vec3 α) : α :=
  fl (fl (fl (a.x * b.x) + fl (a.y * b.y)) + fl (a.z * b.z))

/-- The static method `Vec3::cross` in double arithmetic. -/
def Vec3.cross_fl (fl : α → α) (a b : Vec3 α) : Vec3 α :=
  ⟨fl (fl (a.y * b.z) - fl (a.z * b.y)), fl (fl (a.z * b.x) - fl (a.x * b.z)),
    fl (fl (a.x * b.y) - fl (a.y * b.x))⟩

/-- The constructor `Ray::Ray(o, d)` in double arithmetic. -/
def Ray.ctor_fl (fl : α → α) (m : Libm α) (o d : Vec3 α) : Ray α := ⟨o, d.normalize_fl fl m⟩

/-- The method `Sphere::intersect` in double arithmetic. -/
def Sphere.intersect_fl (fl : α → α) (m : Libm α) (s : Sphere α) (ray : Ray α) :
    Option (Hit α) :=
  let oc := ray.origin.sub_fl fl s.center
  let a := Vec3.dot_fl fl ray.direction ray.direction
  let b := fl (2 * Vec3.dot_fl fl oc ray.direction)
  let c := fl (Vec3.dot_fl fl oc oc - fl (s.radius * s.radius))
  let discriminant := fl (fl (b * b) - fl (fl (4 * a) * c))
  if discriminant < 0 then none
  else
    let sqrt_discriminant := m.sqrt discriminant
    let t0 := fl (fl (-b - sqrt_discriminant) / fl (2 * a))
    let t1 := fl (fl (-b + sqrt_discriminant) / fl (2 * a))
    let intersection_t_min : α := fl 1e-4
    let t_hit : α := if t0 > intersection_t_min then t0 else -1
    let t_hit : α := if t1 > intersection_t_min ∧ (t_hit < 0 ∨ t1 < t_hit) then t1 else t_hit
    if t_hit > 0 then
      let hit_point_out := ray.origin.add_fl fl (ray.direction.mul_fl fl t_hit)
      some ⟨t_hit, hit_point_out, (hit_point_out.sub_fl fl s.center).normalize_fl fl m⟩
    else none

/-- The method `Camera::get_ray` in double arithmetic. -/
def Camera.get_ray_fl (fl : α → α) (m : Libm α) (cam : Camera α) (u_norm v_norm : α) :
    Ray α :=
  let u_film := fl (u_norm - 0.5)
  let v_film := fl (0.5 - v_norm)
  let point_on_plane :=
    ((cam.right_direction.mul_fl fl (fl (u_film * cam.image_plane_w))).add_fl fl
      (cam.up_direction.mul_fl fl (fl (v_film * cam.image_plane_h)))).add_fl fl
      (cam.forward_direction.mul_fl fl cam.image_plane_dist)
  Ray.ctor_fl fl m cam.position (point_on_plane.normalize_fl fl m)

/-- The function `vec3_to_uint32_color` in double arithmetic. -/
def vec3_to_uint32_color_fl [FloorRing α] (fl : α → α) (color_vec : Vec3 α) : Nat :=
  let r := to_uint8 (fl (clamp color_vec.x 0 1 * 255))
  let g := to_uint8 (fl (clamp color_vec.y 0 1 * 255))
  let b := to_uint8 (fl (clamp color_vec.z 0 1 * 255))
  let alpha := 0xFF
  ((alpha <<< 24) ||| (r <<< 16) ||| (g <<< 8) ||| b) % 2 ^ 32

/-- The square root is correctly rounded: `m.sqrt x` is the double nearest to the
non-negative root of `x`, as IEEE 754 requires of `std::sqrt`. -/
def Libm.RoundedSqrt [FloorRing α] (m : Libm α) : Prop :=
  ∀ x, 0 ≤ x → ∃ r, 0 ≤ r ∧ r * r = x ∧ m.sqrt x = binary64 r

/-! ## Predicates on the scan of trace_ray and on colours -/

/-- The minimum distance `t_min_check` of `trace_ray` (RMRayTracer.cpp line 100). -/
def t_min_check (depth : Int) : α :=
  if depth = 0 then 1e-4 else REFLECTION_EPSILON

/-- The scene with its spheres in another order. -/
def Scene.with_objects (scene : Scene α) (objects : List (Sphere α)) : Scene α :=
  { scene with objects := objects }

/-- The sphere `s1` and the sphere `s2` do not report the same distance for the ray. -/
def distinct_hits (m : Libm α) (ray : Ray α)
    (s1 s2 : Sphere α) : Prop :=
  ∀ h1 h2, s1.intersect m ray = some h1 → s2.intersect m ray = some h2 → h1.t_out ≠ h2.t_out

/-- What the locals of the scan hold after the spheres `pre` have been tested: nothing, when
no sphere of `pre` reported a hit beyond the minimum distance; otherwise the first sphere of
`pre` among those that reported the least such distance. -/
def ScanState.Nearest (m : Libm α) (ray : Ray α)
    (depth : Int) (pre : List (Sphere α)) (st : ScanState α) : Prop :=
  (st = scan_init ∧
    ∀ s ∈ pre, ∀ h, s.intersect m ray = some h → ¬ h.t_out > t_min_check depth) ∨
  ∃ (s : Sphere α) (h : Hit α) (before after : List (Sphere α)),
    st = ⟨h.t_out, some s, h.hit_point_out, h.normal_at_hit_out⟩ ∧
    pre = before ++ s :: after ∧ s.intersect m ray = some h ∧ h.t_out > t_min_check depth ∧
    (∀ s1 ∈ before, ∀ h1, s1.intersect m ray = some h1 → h1.t_out > t_min_check depth →
      h.t_out < h1.t_out) ∧
    (∀ s1 ∈ after, ∀ h1, s1.intersect m ray = some h1 → h1.t_out > t_min_check depth →
      h.t_out ≤ h1.t_out)

/-- Each component of the vector lies in [0,1]. -/
def Vec3.in_unit_range (v : Vec3 α) : Prop :=
  (0 ≤ v.x ∧ v.x ≤ 1) ∧ (0 ≤ v.y ∧ v.y ≤ 1) ∧ (0 ≤ v.z ∧ v.z ≤ 1)

/-! ## Concrete inputs -/

/-- Generator state that lists the draws still to come; an exhausted list draws 0. -/
def draw_from_list (rng : List α) : α × List α := (rng.headD 0, rng.tail)

/-- Square root that is exact: non-negative, and its square is the argument. -/
structure Libm.ExactSqrt (m : Libm α) : Prop where
  sqrt_nonneg : ∀ x, 0 ≤ x → 0 ≤ m.sqrt x
  sqrt_mul_self : ∀ x, 0 ≤ x → m.sqrt x * m.sqrt x = x

/-- Matte grey material: reflectivity 0, no emission, base colour (0.5, 0.5, 0.5). -/
def grey_material : Material α := Material.ctor "grey" ⟨0.5, 0.5, 0.5⟩ 0 0 ⟨0, 0, 0⟩

/-- Unit sphere of the given material centred at (0, 0, -5). -/
def sphere_ahead (material : Material α) : Sphere α := ⟨⟨0, 0, -5⟩, 1, material⟩

/-- Scene with white background and the one sphere `sphere_ahead material`. -/
def one_sphere_scene (max_ray_depth : Int) (material : Material α) : Scene α :=
  ⟨max_ray_depth, 1, ⟨1, 1, 1⟩, [(material.id, material)], [sphere_ahead material]⟩

/-- Ray from the world origin down the negative z axis. -/
def ray_ahead : Ray α := ⟨⟨0, 0, 0⟩, ⟨0, 0, -1⟩⟩

/-- Ray from the world origin along the positive x axis. -/
def ray_sideways : Ray α := ⟨⟨0, 0, 0⟩, ⟨1, 0, 0⟩⟩

/-- Smooth grey material of reflectivity 1e-6. -/
def faint_mirror : Material α := Material.ctor "faint" ⟨0.5, 0.5, 0.5⟩ 1e-6 0 ⟨0, 0, 0⟩

/-- Smooth grey material of reflectivity 0.999999. -/
def near_mirror : Material α := Material.ctor "near" ⟨0.5, 0.5, 0.5⟩ 0.999999 0 ⟨0, 0, 0⟩

/-- Rough mirror: reflectivity 1, roughness 1, no emission. -/
def rough_mirror : Material α := Material.ctor "rough" ⟨0.8, 0.8, 0.8⟩ 1 1 ⟨0, 0, 0⟩

/-- Matte black material: reflectivity 0, no emission, base colour (0, 0, 0). -/
def black_material : Material α := Material.ctor "black" ⟨0, 0, 0⟩ 0 0 ⟨0, 0, 0⟩

/-- Unit sphere of rough mirror centred at (5, 1, 3). -/
def mirror_sphere : Sphere α := ⟨⟨5, 1, 3⟩, 1, rough_mirror⟩

/-- Unit sphere of matte black centred at (-4.0001, 1, -3). -/
def black_sphere : Sphere α := ⟨⟨-4.0001, 1, -3⟩, 1, black_material⟩

/-- Scene of depth limit 2 with one sample per pixel, white background, the mirror sphere
and the black sphere. -/
def two_sphere_scene : Scene α :=
  ⟨2, 1, ⟨1, 1, 1⟩, [("rough", rough_mirror), ("black", black_material)],
    [mirror_sphere, black_sphere]⟩

/-- The camera `Camera(Vec3(0,1,3))` after `update_orientation_vectors()` and before
`initialize`: yaw 0, pitch 0, aspect ratio 0 and an image plane of width and height 0. -/
def fresh_camera : Camera α :=
  { position := ⟨0, 1, 3⟩, look_at_target := ⟨0, 0, 0⟩, world_up_vector := ⟨0, 1, 0⟩,
    fov_degrees := 60, forward_direction := ⟨1, 0, 0⟩, right_direction := ⟨0, 0, 1⟩,
    up_direction := ⟨0, 1, 0⟩, image_plane_dist := 1, image_plane_h := 0, image_plane_w := 0,
    aspect_ratio := 0, yaw_radians := 0, pitch_radians := 0 }

/-- The band that holds row 0 only. -/
def first_row : ThreadRenderTask := ⟨0, 0, 1⟩

/-- Pixel buffer of zeros. -/
def blank_buffer : PixelBuffer := fun _ => 0

/-- The value of a string of decimal digits. -/
def digits_value (ds : List Char) : Nat := ds.foldl (fun n c => 10 * n + (c.toNat - 48)) 0

/-- The function `std::stoi` in base 10: leading white space, an optional sign, then the
longest run of digits; `none` (an exception) when there is no digit or the value does not
fit an `int`. -/
def decimal_stoi (s : String) : Option Int :=
  let cs := s.data.dropWhile is_trimmed
  let negative := cs.head? = some '-'
  let cs := if cs.head? = some '-' ∨ cs.head? = some '+' then cs.tail else cs
  let ds := cs.takeWhile Char.isDigit
  if ds = [] then none
  else
    let v : Int := if negative then -(digits_value ds : Int) else (digits_value ds : Int)
    if v < -2147483648 ∨ 2147483647 < v then none else some v

/-- The function `std::stod` on decimal numerals without exponent: leading white space, an
optional sign, digits, an optional point and digits; `none` (an exception) when there is no
digit. Exponents, hexadecimal numerals, infinities and NaN are not covered. -/
def decimal_stod (s : String) : Option α :=
  let cs := s.data.dropWhile is_trimmed
  let negative := cs.head? = some '-'
  let cs := if cs.head? = some '-' ∨ cs.head? = some '+' then cs.tail else cs
  let whole := cs.takeWhile Char.isDigit
  let rest := cs.dropWhile Char.isDigit
  let fraction := if rest.head? = some '.' then rest.tail.takeWhile Char.isDigit else []
  if whole = [] ∧ fraction = [] then none
  else
    let v : α := (digits_value whole : α) + (digits_value fraction : α) / 10 ^ fraction.length
    some (if negative then -v else v)

/-- The conversions `decimal_stoi` and `decimal_stod`. -/
def decimal_conv : StrConv α := ⟨decimal_stoi, decimal_stod⟩

end Defs

/-! ## Shading: depth limit and cost of `trace_ray` -/

section Shading

variable {α : Type} [LinearOrderedField α] {G : Type}

/-- Unfolding of `trace_ray` at or beyond the depth limit. -/
theorem trace_ray_at_limit (m : Libm α) (dist01 : G → α × G) (scene : Scene α) (ray : Ray α)
    (depth : Int) (rng : G) (h : depth ≥ scene.max_ray_depth) :
    trace_ray m dist01 scene ray depth rng = ⟨⟨0, 0, 0⟩, rng, 1, 0, 0, 0⟩ := by
  rw [trace_ray, dif_pos h]

/-- Unfolding of `trace_ray` below the depth limit when the scan finds no sphere. -/
theorem trace_ray_miss (m : Libm α) (dist01 : G → α × G) (scene : Scene α) (ray : Ray α)
    (depth : Int) (rng : G) (h : depth < scene.max_ray_depth)
    (hs : (scan m scene.objects ray depth).hit_sphere = none) :
    trace_ray m dist01 scene ray depth rng =
      ⟨scene.background_color, rng, 1, 1, scene.objects.length, 0⟩ := by
  rw [trace_ray, dif_neg (not_le.mpr h)]
  simp only [hs]

/-- Unfolding of `trace_ray` below the depth limit when the scan finds `hit_sphere`. -/
theorem trace_ray_hit (m : Libm α) (dist01 : G → α × G) (scene : Scene α) (ray : Ray α)
    (depth : Int) (rng : G) (h : depth < scene.max_ray_depth) (hit_sphere : Sphere α)
    (hs : (scan m scene.objects ray depth).hit_sphere = some hit_sphere) :
    trace_ray m dist01 scene ray depth rng =
      (let st := scan m scene.objects ray depth
       let material := hit_sphere.material
       let final_color :=
        if 1 - material.reflectivity > 1e-5 then
          material.emission_color.add (material.base_color.mul (1 - material.reflectivity))
        else material.emission_color
       if material.reflectivity > 1e-5 then
        let refl := reflection_ray m dist01 material ray st.hit_point st.surface_normal rng
        let reflected := trace_ray m dist01 scene refl.1 (depth + 1) refl.2.1
        ⟨final_color.add (reflected.radiance.mul material.reflectivity), reflected.rng,
          reflected.invocations + 1, reflected.scans + 1,
          reflected.tests + scene.objects.length, reflected.draws + refl.2.2⟩
       else
        ⟨final_color, rng, 1, 1, scene.objects.length, 0⟩) := by
  rw [trace_ray, dif_neg (not_le.mpr h)]
  simp only [hs]

/-- C2: at or beyond the depth limit `trace_ray` returns the zero vector, tests no sphere,
makes no nested call and draws no random number. -/
theorem trace_ray_depth_limit (m : Libm α) (dist01 : G → α × G) (scene : Scene α)
    (ray : Ray α) (depth : Int) (rng : G) (h : depth ≥ scene.max_ray_depth) :
    (trace_ray m dist01 scene ray depth rng).radiance = ⟨0, 0, 0⟩ ∧
    (trace_ray m dist01 scene ray depth rng).tests = 0 ∧
    (trace_ray m dist01 scene ray depth rng).scans = 0 ∧
    (trace_ray m dist01 scene ray depth rng).invocations = 1 ∧
    (trace_ray m dist01 scene ray depth rng).draws = 0 ∧
    (trace_ray m dist01 scene ray depth rng).rng = rng := by
  rw [trace_ray_at_limit m dist01 scene ray depth rng h]
  exact ⟨rfl, rfl, rfl, rfl, rfl, rfl⟩

/-- C2 at depth 2 of a scene with depth limit 2 and a grey sphere ahead. -/
theorem trace_ray_depth_limit_witness :
    (2 : Int) ≥ (one_sphere_scene 2 (grey_material : Material ℝ)).max_ray_depth ∧
    (trace_ray (Libm.mk Real.sqrt Real.cos Real.sin Real.tan (fun y x => Complex.arg ⟨x, y⟩))
      draw_from_list (one_sphere_scene 2 grey_material) ray_ahead 2 [0.25, 0.5]).radiance
      = ⟨0, 0, 0⟩ :=
  ⟨by simp [one_sphere_scene],
   (trace_ray_depth_limit _ draw_from_list (one_sphere_scene 2 grey_material) ray_ahead 2
      [0.25, 0.5] (by simp [one_sphere_scene])).1⟩

/-- Cost of `trace_ray` by induction on the distance to the depth limit. -/
theorem trace_ray_cost_aux (m : Libm α) (dist01 : G → α × G) (scene : Scene α) (n : Nat) :
    ∀ (ray : Ray α) (depth : Int) (rng : G), (scene.max_ray_depth - depth).toNat = n →
      (trace_ray m dist01 scene ray depth rng).invocations ≤ n + 1 ∧
      (trace_ray m dist01 scene ray depth rng).scans ≤ n ∧
      (trace_ray m dist01 scene ray depth rng).tests ≤ n * scene.objects.length := by
  induction n with
  | zero =>
    intro ray depth rng hn
    have h : depth ≥ scene.max_ray_depth := by omega
    rw [trace_ray_at_limit m dist01 scene ray depth rng h]
    simp
  | succ k ih =>
    intro ray depth rng hn
    have h : depth < scene.max_ray_depth := by omega
    cases hs : (scan m scene.objects ray depth).hit_sphere with
    | none =>
      rw [trace_ray_miss m dist01 scene ray depth rng h hs]
      refine ⟨by simp, by simp, ?_⟩
      simp only [Nat.succ_mul]
      omega
    | some hit_sphere =>
      rw [trace_ray_hit m dist01 scene ray depth rng h hit_sphere hs]
      simp only []
      split
      · have hk := ih
          (reflection_ray m dist01 hit_sphere.material ray
            (scan m scene.objects ray depth).hit_point
            (scan m scene.objects ray depth).surface_normal rng).1 (depth + 1)
          (reflection_ray m dist01 hit_sphere.material ray
            (scan m scene.objects ray depth).hit_point
            (scan m scene.objects ray depth).surface_normal rng).2.1 (by omega)
        refine ⟨by simpa using hk.1, by simpa using hk.2.1, ?_⟩
        simp only [Nat.succ_mul]
        omega
      · refine ⟨by simp, by simp, ?_⟩
        simp only [Nat.succ_mul]
        omega

/-- C3: `trace_ray` is a total function; every invocation either makes no nested call or
exactly one, at `depth + 1`; the chain of nested invocations started at depth `d` has length
at most `max 1 (max_ray_depth - d + 1)` and scans the sphere list at most
`max 0 (max_ray_depth - d)` times, whatever the materials and the random draws. -/
theorem trace_ray_terminates_bounded (m : Libm α) (dist01 : G → α × G) (scene : Scene α)
    (ray : Ray α) (depth : Int) (rng : G) :
    ((trace_ray m dist01 scene ray depth rng).invocations : Int)
      ≤ max 1 (scene.max_ray_depth - depth + 1) ∧
    ((trace_ray m dist01 scene ray depth rng).scans : Int)
      ≤ max 0 (scene.max_ray_depth - depth) ∧
    (((trace_ray m dist01 scene ray depth rng).invocations = 1 ∧
        (trace_ray m dist01 scene ray depth rng).scans ≤ 1) ∨
      ∃ (ray1 : Ray α) (rng1 : G),
        (trace_ray m dist01 scene ray depth rng).invocations =
          (trace_ray m dist01 scene ray1 (depth + 1) rng1).invocations + 1 ∧
        (trace_ray m dist01 scene ray depth rng).scans =
          (trace_ray m dist01 scene ray1 (depth + 1) rng1).scans + 1) := by
  have hc := trace_ray_cost_aux m dist01 scene _ ray depth rng rfl
  refine ⟨?_, ?_, ?_⟩
  · rcases le_total scene.max_ray_depth depth with h | h
    · have h0 : (scene.max_ray_depth - depth).toNat = 0 := by omega
      rw [h0] at hc
      have := hc.1
      have h1 : (1 : Int) ≤ max 1 (scene.max_ray_depth - depth + 1) := le_max_left _ _
      omega
    · have h2 : scene.max_ray_depth - depth + 1 ≤ max 1 (scene.max_ray_depth - depth + 1) :=
        le_max_right _ _
      have := hc.1
      omega
  · rcases le_total scene.max_ray_depth depth with h | h
    · have h0 : (scene.max_ray_depth - depth).toNat = 0 := by omega
      rw [h0] at hc
      have := hc.2.1
      have h1 : (0 : Int) ≤ max 0 (scene.max_ray_depth - depth) := le_max_left _ _
      omega
    · have h2 : scene.max_ray_depth - depth ≤ max 0 (scene.max_ray_depth - depth) :=
        le_max_right _ _
      have := hc.2.1
      omega
  · rcases le_or_lt scene.max_ray_depth depth with h | h
    · rw [trace_ray_at_limit m dist01 scene ray depth rng h]
      exact Or.inl ⟨rfl, Nat.zero_le 1⟩
    · cases hs : (scan m scene.objects ray depth).hit_sphere with
      | none =>
        rw [trace_ray_miss m dist01 scene ray depth rng h hs]
        exact Or.inl ⟨rfl, le_refl 1⟩
      | some hit_sphere =>
        rw [trace_ray_hit m dist01 scene ray depth rng h hit_sphere hs]
        simp only []
        split
        · exact Or.inr ⟨_, _, rfl, rfl⟩
        · exact Or.inl ⟨rfl, le_refl 1⟩

/-! ## Shading: background, matte surfaces and the reflection thresholds -/

/-- Exact square root of a square. -/
theorem Libm.ExactSqrt.sqrt_eq {m : Libm α} (hm : m.ExactSqrt) {x y : α} (hy : 0 ≤ y)
    (h : y * y = x) : m.sqrt x = y := by
  have hx : 0 ≤ x := h ▸ mul_self_nonneg y
  have h1 := hm.sqrt_nonneg x hx
  have h2 := hm.sqrt_mul_self x hx
  exact (mul_self_inj h1 hy).mp (h2.trans h.symm)

/-- The square root of the reals is exact. -/
theorem real_sqrt_exact :
    (Libm.mk Real.sqrt Real.cos Real.sin Real.tan
      (fun y x => Complex.arg ⟨x, y⟩)).ExactSqrt :=
  ⟨fun x _ => Real.sqrt_nonneg x, fun _ hx => Real.mul_self_sqrt hx⟩

/-- A scan over spheres none of which is hit beyond 1e-4 keeps `hit_sphere` unset. -/
theorem scan_foldl_none (m : Libm α) (ray : Ray α) (depth : Int) (objects : List (Sphere α))
    (hmiss : ∀ s ∈ objects, ∀ hit, s.intersect m ray = some hit → ¬ hit.t_out > 1e-4) :
    ∀ st : ScanState α, st.hit_sphere = none →
      (objects.foldl (scan_step m ray depth) st).hit_sphere = none := by
  induction objects with
  | nil => intro st hst; simpa using hst
  | cons s rest ih =>
    intro st hst
    rw [List.foldl_cons]
    apply ih (fun s1 h1 => hmiss s1 (List.mem_cons_of_mem _ h1))
    unfold scan_step
    cases hi : s.intersect m ray with
    | none => simpa using hst
    | some hit =>
      have hno := hmiss s (List.mem_cons_self _ _) hit hi
      have hcond : ¬ (hit.t_out > (if depth = 0 then (1e-4 : α) else REFLECTION_EPSILON) ∧
          (st.closest_t < 0 ∨ hit.t_out < st.closest_t)) := by
        intro hc
        apply hno
        have h1 := hc.1
        unfold REFLECTION_EPSILON at h1
        simpa using h1
      simp only [hcond, if_false]
      exact hst

/-- C9: below the depth limit, a ray for which no sphere of the scene reports an intersection
beyond the minimum distance 1e-4 (in particular in a scene without spheres) gets exactly the
background colour. -/
theorem trace_ray_no_hit_background (m : Libm α) (dist01 : G → α × G) (scene : Scene α)
    (ray : Ray α) (depth : Int) (rng : G) (h : depth < scene.max_ray_depth)
    (hmiss : ∀ s ∈ scene.objects, ∀ hit, s.intersect m ray = some hit → ¬ hit.t_out > 1e-4) :
    (trace_ray m dist01 scene ray depth rng).radiance = scene.background_color := by
  have hs : (scan m scene.objects ray depth).hit_sphere = none :=
    scan_foldl_none m ray depth scene.objects hmiss scan_init rfl
  rw [trace_ray_miss m dist01 scene ray depth rng h hs]

/-- The sphere ahead is not hit by the sideways ray. -/
theorem intersect_sphere_ahead_sideways (m : Libm α) (mat : Material α) :
    (sphere_ahead mat).intersect m ray_sideways = none := by
  simp only [Sphere.intersect, sphere_ahead, ray_sideways, Vec3.sub, Vec3.dot]
  norm_num

/-- C9 on the scene with one grey sphere ahead and a ray that passes it sideways. -/
theorem trace_ray_no_hit_background_witness :
    ((0 : Int) < (one_sphere_scene 3 (grey_material : Material ℝ)).max_ray_depth ∧
      ∀ s ∈ (one_sphere_scene 3 (grey_material : Material ℝ)).objects, ∀ hit,
        s.intersect (Libm.mk Real.sqrt Real.cos Real.sin Real.tan
          (fun y x => Complex.arg ⟨x, y⟩)) ray_sideways = some hit → ¬ hit.t_out > 1e-4) ∧
    (trace_ray (Libm.mk Real.sqrt Real.cos Real.sin Real.tan (fun y x => Complex.arg ⟨x, y⟩))
      draw_from_list (one_sphere_scene 3 grey_material) ray_sideways 0 [0.25, 0.5]).radiance
      = ⟨1, 1, 1⟩ := by
  have hmiss : ∀ s ∈ (one_sphere_scene 3 (grey_material : Material ℝ)).objects, ∀ hit,
      s.intersect (Libm.mk Real.sqrt Real.cos Real.sin Real.tan
        (fun y x => Complex.arg ⟨x, y⟩)) ray_sideways = some hit → ¬ hit.t_out > 1e-4 := by
    intro s hs hit hhit
    simp only [one_sphere_scene, List.mem_singleton] at hs
    rw [hs, intersect_sphere_ahead_sideways] at hhit
    exact absurd hhit (by simp)
  exact ⟨⟨by simp [one_sphere_scene], hmiss⟩,
    trace_ray_no_hit_background _ draw_from_list (one_sphere_scene 3 grey_material)
      ray_sideways 0 [0.25, 0.5] (by simp [one_sphere_scene]) hmiss⟩

/-- The ray ahead hits the sphere ahead at distance 4, at (0,0,-4) with normal (0,0,1). -/
theorem intersect_sphere_ahead {m : Libm α} (hm : m.ExactSqrt) (mat : Material α) :
    (sphere_ahead mat).intersect m ray_ahead = some ⟨4, ⟨0, 0, -4⟩, ⟨0, 0, 1⟩⟩ := by
  have h4 : m.sqrt 4 = 2 := hm.sqrt_eq (by norm_num) (by norm_num)
  have h1 : m.sqrt 1 = 1 := hm.sqrt_eq (by norm_num) (by norm_num)
  simp only [Sphere.intersect, sphere_ahead, ray_ahead, Vec3.sub, Vec3.dot, Vec3.add, Vec3.mul,
    Vec3.normalize, Vec3.length, Vec3.length_squared]
  norm_num [h4, h1]

/-- The scan of the one-sphere scene along the ray ahead, at depth 0. -/
theorem scan_one_sphere_scene {m : Libm α} (hm : m.ExactSqrt) (mat : Material α) (k : Int) :
    scan m (one_sphere_scene k mat).objects ray_ahead 0 =
      ⟨4, some (sphere_ahead mat), ⟨0, 0, -4⟩, ⟨0, 0, 1⟩⟩ := by
  simp only [scan, one_sphere_scene, List.foldl, scan_step, intersect_sphere_ahead hm, scan_init]
  norm_num

/-- The mirror ray that a smooth sphere ahead sends back along the ray ahead. -/
theorem reflection_ray_sphere_ahead {m : Libm α} (hm : m.ExactSqrt) (dist01 : G → α × G)
    (mat : Material α) (hr : mat.roughness < 1e-5) (rng : G) :
    reflection_ray m dist01 mat ray_ahead ⟨0, 0, -4⟩ ⟨0, 0, 1⟩ rng =
      (⟨⟨0, 0, -3.9999⟩, ⟨0, 0, 1⟩⟩, rng, 0) := by
  have h1 : m.sqrt 1 = 1 := hm.sqrt_eq (by norm_num) (by norm_num)
  simp only [reflection_ray, if_pos hr, ray_ahead, Vec3.sub, Vec3.dot, Vec3.add, Vec3.mul,
    Vec3.normalize, Vec3.length, Vec3.length_squared, Ray.ctor, REFLECTION_EPSILON]
  norm_num [h1]

/-- The mirror ray leaves the sphere ahead without hitting it again. -/
theorem intersect_sphere_ahead_back {m : Libm α} (hm : m.ExactSqrt) (mat : Material α) :
    (sphere_ahead mat).intersect m ⟨⟨0, 0, -3.9999⟩, ⟨0, 0, 1⟩⟩ = none := by
  have h4 : m.sqrt 4 = 2 := hm.sqrt_eq (by norm_num) (by norm_num)
  simp only [Sphere.intersect, sphere_ahead, Vec3.sub, Vec3.dot]
  norm_num [h4]

/-- The mirror ray traced at depth 1 of the one-sphere scene of depth limit 2 sees the
white background. -/
theorem trace_ray_mirror_ray_background {m : Libm α} (hm : m.ExactSqrt) (dist01 : G → α × G)
    (mat : Material α) (rng : G) :
    (trace_ray m dist01 (one_sphere_scene 2 mat) ⟨⟨0, 0, -3.9999⟩, ⟨0, 0, 1⟩⟩ 1 rng).radiance
      = ⟨1, 1, 1⟩ := by
  have hs : (scan m (one_sphere_scene 2 mat).objects ⟨⟨0, 0, -3.9999⟩, ⟨0, 0, 1⟩⟩ 1).hit_sphere
      = none := by
    simp [scan, one_sphere_scene, scan_step, intersect_sphere_ahead_back hm, scan_init]
  rw [trace_ray_miss m dist01 _ _ 1 rng (by simp [one_sphere_scene]) hs]
  rfl

/-- C8, amended: in a scene with `max_ray_depth > 0`, a primary ray whose nearest hit is a
sphere of reflectivity 0, emission (0,0,0) and base colour (0.5,0.5,0.5) gets exactly
(0.5,0.5,0.5), without a nested call of `trace_ray`. -/
theorem trace_ray_matte_grey (m : Libm α) (dist01 : G → α × G) (scene : Scene α)
    (ray : Ray α) (rng : G) (s : Sphere α) (hmax : 0 < scene.max_ray_depth)
    (hs : (scan m scene.objects ray 0).hit_sphere = some s)
    (hrefl : s.material.reflectivity = 0) (hemit : s.material.emission_color = ⟨0, 0, 0⟩)
    (hbase : s.material.base_color = ⟨0.5, 0.5, 0.5⟩) :
    (trace_ray m dist01 scene ray 0 rng).radiance = ⟨0.5, 0.5, 0.5⟩ ∧
    (trace_ray m dist01 scene ray 0 rng).invocations = 1 := by
  rw [trace_ray_hit m dist01 scene ray 0 rng hmax s hs]
  simp only [hrefl, hemit, hbase, Vec3.add, Vec3.mul]
  norm_num

/-- C8, amended, on the scene of depth limit 5 with one grey sphere ahead. -/
theorem trace_ray_matte_grey_witness :
    ((0 : Int) < (one_sphere_scene 5 (grey_material : Material ℝ)).max_ray_depth ∧
      (scan (Libm.mk Real.sqrt Real.cos Real.sin Real.tan (fun y x => Complex.arg ⟨x, y⟩))
        (one_sphere_scene 5 (grey_material : Material ℝ)).objects ray_ahead 0).hit_sphere
        = some (sphere_ahead grey_material)) ∧
    (trace_ray (Libm.mk Real.sqrt Real.cos Real.sin Real.tan (fun y x => Complex.arg ⟨x, y⟩))
      draw_from_list (one_sphere_scene 5 grey_material) ray_ahead 0 [0.25, 0.5]).radiance
      = ⟨0.5, 0.5, 0.5⟩ := by
  have hs := congrArg ScanState.hit_sphere
    (scan_one_sphere_scene real_sqrt_exact (grey_material : Material ℝ) 5)
  exact ⟨⟨by simp [one_sphere_scene], hs⟩,
    (trace_ray_matte_grey _ draw_from_list (one_sphere_scene 5 grey_material) ray_ahead
      [0.25, 0.5] (sphere_ahead grey_material) (by simp [one_sphere_scene]) hs
      (by simp [sphere_ahead, grey_material, Material.ctor, clamp])
      (by simp [sphere_ahead, grey_material, Material.ctor])
      (by simp [sphere_ahead, grey_material, Material.ctor])).1⟩

/-- C8 as stated fails when `max_ray_depth` is 0: the primary ray ahead has the grey sphere
as its nearest hit, and `trace_ray` returns (0,0,0), not (0.5,0.5,0.5). -/
theorem trace_ray_matte_grey_depth_zero :
    (scan (Libm.mk Real.sqrt Real.cos Real.sin Real.tan (fun y x => Complex.arg ⟨x, y⟩))
      (one_sphere_scene 0 (grey_material : Material ℝ)).objects ray_ahead 0).hit_sphere
      = some (sphere_ahead grey_material) ∧
    (sphere_ahead (grey_material : Material ℝ)).material.reflectivity = 0 ∧
    (sphere_ahead (grey_material : Material ℝ)).material.emission_color = ⟨0, 0, 0⟩ ∧
    (sphere_ahead (grey_material : Material ℝ)).material.base_color = ⟨0.5, 0.5, 0.5⟩ ∧
    (trace_ray (Libm.mk Real.sqrt Real.cos Real.sin Real.tan (fun y x => Complex.arg ⟨x, y⟩))
      draw_from_list (one_sphere_scene 0 grey_material) ray_ahead 0 [0.25, 0.5]).radiance
      = ⟨0, 0, 0⟩ ∧
    (trace_ray (Libm.mk Real.sqrt Real.cos Real.sin Real.tan (fun y x => Complex.arg ⟨x, y⟩))
      draw_from_list (one_sphere_scene 0 grey_material) ray_ahead 0 [0.25, 0.5]).radiance
      ≠ ⟨0.5, 0.5, 0.5⟩ := by
  have hs := congrArg ScanState.hit_sphere
    (scan_one_sphere_scene real_sqrt_exact (grey_material : Material ℝ) 0)
  have ht := trace_ray_at_limit
    (Libm.mk Real.sqrt Real.cos Real.sin Real.tan (fun y x => Complex.arg ⟨x, y⟩))
    draw_from_list (one_sphere_scene 0 (grey_material : Material ℝ)) ray_ahead 0 [0.25, 0.5]
    (by simp [one_sphere_scene])
  refine ⟨hs, by simp [sphere_ahead, grey_material, Material.ctor, clamp],
    by simp [sphere_ahead, grey_material, Material.ctor],
    by simp [sphere_ahead, grey_material, Material.ctor], by rw [ht], ?_⟩
  rw [ht]
  intro h
  have hx := congrArg Vec3.x h
  norm_num at hx

/-- C1, amended: below the depth limit, a nearest hit on a sphere of material `mat` yields
`mat.emission_color`, plus `mat.base_color * (1 - mat.reflectivity)` when
`1 - mat.reflectivity > 1e-5`, plus `mat.reflectivity` times the radiance of the reflected
ray traced at `depth + 1` when `mat.reflectivity > 1e-5`, and nothing more. -/
theorem trace_ray_hit_radiance (m : Libm α) (dist01 : G → α × G) (scene : Scene α)
    (ray : Ray α) (depth : Int) (rng : G) (s : Sphere α) (h : depth < scene.max_ray_depth)
    (hs : (scan m scene.objects ray depth).hit_sphere = some s) :
    (trace_ray m dist01 scene ray depth rng).radiance =
      if s.material.reflectivity > 1e-5 then
        (if 1 - s.material.reflectivity > 1e-5 then
          s.material.emission_color.add (s.material.base_color.mul (1 - s.material.reflectivity))
         else s.material.emission_color).add
          ((trace_ray m dist01 scene
            (reflection_ray m dist01 s.material ray (scan m scene.objects ray depth).hit_point
              (scan m scene.objects ray depth).surface_normal rng).1 (depth + 1)
            (reflection_ray m dist01 s.material ray (scan m scene.objects ray depth).hit_point
              (scan m scene.objects ray depth).surface_normal rng).2.1).radiance.mul
            s.material.reflectivity)
      else
        (if 1 - s.material.reflectivity > 1e-5 then
          s.material.emission_color.add (s.material.base_color.mul (1 - s.material.reflectivity))
         else s.material.emission_color) := by
  rw [trace_ray_hit m dist01 scene ray depth rng h s hs]
  simp only []
  split <;> rfl

/-- The radiance of the ray ahead in the one-sphere scene of depth limit 2 with a smooth
material of reflectivity above 1e-5: the white background weighted by the reflectivity, on
top of the material's own part. -/
theorem trace_ray_one_sphere_reflective {m : Libm α} (hm : m.ExactSqrt) (dist01 : G → α × G)
    (mat : Material α) (hr : mat.roughness < 1e-5) (hrefl : mat.reflectivity > 1e-5)
    (rng : G) :
    (trace_ray m dist01 (one_sphere_scene 2 mat) ray_ahead 0 rng).radiance =
      (if 1 - mat.reflectivity > 1e-5 then
        mat.emission_color.add (mat.base_color.mul (1 - mat.reflectivity))
       else mat.emission_color).add ((Vec3.mk 1 1 1).mul mat.reflectivity) := by
  have hs := congrArg ScanState.hit_sphere (scan_one_sphere_scene hm mat 2)
  rw [trace_ray_hit m dist01 _ ray_ahead 0 rng (by simp [one_sphere_scene]) _ hs]
  have hmat : (sphere_ahead mat).material = mat := rfl
  simp only [hmat, if_pos hrefl, scan_one_sphere_scene hm mat 2,
    reflection_ray_sphere_ahead hm dist01 mat hr rng]
  have ht := trace_ray_mirror_ray_background hm dist01 mat rng
  norm_num at ht ⊢
  rw [ht]

/-- C1, amended, on the scene of depth limit 2 with a sphere of reflectivity 0.999999 ahead:
the base colour is left out and the white background comes back weighted by 0.999999. -/
theorem trace_ray_hit_radiance_witness :
    ((0 : Int) < (one_sphere_scene 2 (near_mirror : Material ℝ)).max_ray_depth ∧
      (scan (Libm.mk Real.sqrt Real.cos Real.sin Real.tan (fun y x => Complex.arg ⟨x, y⟩))
        (one_sphere_scene 2 (near_mirror : Material ℝ)).objects ray_ahead 0).hit_sphere
        = some (sphere_ahead near_mirror)) ∧
    (trace_ray (Libm.mk Real.sqrt Real.cos Real.sin Real.tan (fun y x => Complex.arg ⟨x, y⟩))
      draw_from_list (one_sphere_scene 2 near_mirror) ray_ahead 0 [0.25, 0.5]).radiance
      = ⟨0.999999, 0.999999, 0.999999⟩ := by
  have hs := congrArg ScanState.hit_sphere
    (scan_one_sphere_scene real_sqrt_exact (near_mirror : Material ℝ) 2)
  refine ⟨⟨by simp [one_sphere_scene], hs⟩, ?_⟩
  rw [trace_ray_hit_radiance _ draw_from_list (one_sphere_scene 2 near_mirror) ray_ahead 0
    [0.25, 0.5] (sphere_ahead near_mirror) (by simp [one_sphere_scene]) hs]
  have hmat : (sphere_ahead (near_mirror : Material ℝ)).material = near_mirror := rfl
  have hrough : (near_mirror : Material ℝ).roughness < 1e-5 := by
    norm_num [near_mirror, Material.ctor, clamp]
  simp only [hmat, scan_one_sphere_scene real_sqrt_exact (near_mirror : Material ℝ) 2,
    reflection_ray_sphere_ahead real_sqrt_exact draw_from_list near_mirror hrough]
  have ht := trace_ray_mirror_ray_background real_sqrt_exact draw_from_list
    (near_mirror : Material ℝ) [0.25, 0.5]
  rw [show (0 : Int) + 1 = 1 from rfl, ht]
  norm_num [near_mirror, Material.ctor, clamp, Vec3.add, Vec3.mul]

/-- The radiance of the ray ahead in the one-sphere scene with a material of reflectivity at
most 1e-5: the material's own part only. -/
theorem trace_ray_one_sphere_unreflective {m : Libm α} (hm : m.ExactSqrt) (dist01 : G → α × G)
    (mat : Material α) (hrefl : ¬ mat.reflectivity > 1e-5) (rng : G) :
    (trace_ray m dist01 (one_sphere_scene 2 mat) ray_ahead 0 rng).radiance =
      if 1 - mat.reflectivity > 1e-5 then
        mat.emission_color.add (mat.base_color.mul (1 - mat.reflectivity))
      else mat.emission_color := by
  have hs := congrArg ScanState.hit_sphere (scan_one_sphere_scene hm mat 2)
  rw [trace_ray_hit m dist01 _ ray_ahead 0 rng (by simp [one_sphere_scene]) _ hs]
  have hmat : (sphere_ahead mat).material = mat := rfl
  simp only [hmat, if_neg hrefl]

/-- What the specified formula gives for the ray ahead in the one-sphere scene of depth
limit 2 with a smooth material of positive reflectivity. -/
theorem radiance_as_specified_one_sphere {m : Libm α} (hm : m.ExactSqrt) (dist01 : G → α × G)
    (mat : Material α) (hr : mat.roughness < 1e-5) (hrefl : mat.reflectivity > 0) (rng : G) :
    radiance_as_specified m dist01 (one_sphere_scene 2 mat) ray_ahead 0 rng (sphere_ahead mat) =
      (mat.emission_color.add (mat.base_color.mul (1 - mat.reflectivity))).add
        ((Vec3.mk 1 1 1).mul mat.reflectivity) := by
  have hmat : (sphere_ahead mat).material = mat := rfl
  simp only [radiance_as_specified, hmat, if_pos hrefl, scan_one_sphere_scene hm mat 2,
    reflection_ray_sphere_ahead hm dist01 mat hr rng]
  rw [show (0 : Int) + 1 = 1 from rfl, trace_ray_mirror_ray_background hm dist01 mat rng]

/-- C1 as stated fails at both thresholds of the code.  With reflectivity 1e-6 the code adds
no reflected radiance: it returns 0.4999995 per channel where the stated formula gives
0.5000005.  With reflectivity 0.999999 the code adds no base colour: it returns 0.999999
per channel where the stated formula gives 0.9999995. -/
theorem trace_ray_hit_radiance_not_as_specified :
    ((0 : Int) < (one_sphere_scene 2 (faint_mirror : Material ℝ)).max_ray_depth ∧
      (scan (Libm.mk Real.sqrt Real.cos Real.sin Real.tan (fun y x => Complex.arg ⟨x, y⟩))
        (one_sphere_scene 2 (faint_mirror : Material ℝ)).objects ray_ahead 0).hit_sphere
        = some (sphere_ahead faint_mirror) ∧
      0 ≤ (sphere_ahead (faint_mirror : Material ℝ)).material.reflectivity ∧
      (sphere_ahead (faint_mirror : Material ℝ)).material.reflectivity ≤ 1 ∧
      (trace_ray (Libm.mk Real.sqrt Real.cos Real.sin Real.tan (fun y x => Complex.arg ⟨x, y⟩))
        draw_from_list (one_sphere_scene 2 faint_mirror) ray_ahead 0 [0.25, 0.5]).radiance
        = ⟨0.4999995, 0.4999995, 0.4999995⟩ ∧
      radiance_as_specified
        (Libm.mk Real.sqrt Real.cos Real.sin Real.tan (fun y x => Complex.arg ⟨x, y⟩))
        draw_from_list (one_sphere_scene 2 faint_mirror) ray_ahead 0 [0.25, 0.5]
        (sphere_ahead faint_mirror) = ⟨0.5000005, 0.5000005, 0.5000005⟩ ∧
      (trace_ray (Libm.mk Real.sqrt Real.cos Real.sin Real.tan (fun y x => Complex.arg ⟨x, y⟩))
        draw_from_list (one_sphere_scene 2 faint_mirror) ray_ahead 0 [0.25, 0.5]).radiance
        ≠ radiance_as_specified
          (Libm.mk Real.sqrt Real.cos Real.sin Real.tan (fun y x => Complex.arg ⟨x, y⟩))
          draw_from_list (one_sphere_scene 2 faint_mirror) ray_ahead 0 [0.25, 0.5]
          (sphere_ahead faint_mirror)) ∧
    ((0 : Int) < (one_sphere_scene 2 (near_mirror : Material ℝ)).max_ray_depth ∧
      (scan (Libm.mk Real.sqrt Real.cos Real.sin Real.tan (fun y x => Complex.arg ⟨x, y⟩))
        (one_sphere_scene 2 (near_mirror : Material ℝ)).objects ray_ahead 0).hit_sphere
        = some (sphere_ahead near_mirror) ∧
      0 ≤ (sphere_ahead (near_mirror : Material ℝ)).material.reflectivity ∧
      (sphere_ahead (near_mirror : Material ℝ)).material.reflectivity ≤ 1 ∧
      (trace_ray (Libm.mk Real.sqrt Real.cos Real.sin Real.tan (fun y x => Complex.arg ⟨x, y⟩))
        draw_from_list (one_sphere_scene 2 near_mirror) ray_ahead 0 [0.25, 0.5]).radiance
        = ⟨0.999999, 0.999999, 0.999999⟩ ∧
      radiance_as_specified
        (Libm.mk Real.sqrt Real.cos Real.sin Real.tan (fun y x => Complex.arg ⟨x, y⟩))
        draw_from_list (one_sphere_scene 2 near_mirror) ray_ahead 0 [0.25, 0.5]
        (sphere_ahead near_mirror) = ⟨0.9999995, 0.9999995, 0.9999995⟩ ∧
      (trace_ray (Libm.mk Real.sqrt Real.cos Real.sin Real.tan (fun y x => Complex.arg ⟨x, y⟩))
        draw_from_list (one_sphere_scene 2 near_mirror) ray_ahead 0 [0.25, 0.5]).radiance
        ≠ radiance_as_specified
          (Libm.mk Real.sqrt Real.cos Real.sin Real.tan (fun y x => Complex.arg ⟨x, y⟩))
          draw_from_list (one_sphere_scene 2 near_mirror) ray_ahead 0 [0.25, 0.5]
          (sphere_ahead near_mirror)) := by
  have hf : (faint_mirror : Material ℝ) =
      ⟨"faint", ⟨0.5, 0.5, 0.5⟩, 1e-6, 0, ⟨0, 0, 0⟩⟩ := by
    norm_num [faint_mirror, Material.ctor, clamp]
  have hn : (near_mirror : Material ℝ) =
      ⟨"near", ⟨0.5, 0.5, 0.5⟩, 0.999999, 0, ⟨0, 0, 0⟩⟩ := by
    norm_num [near_mirror, Material.ctor, clamp]
  have c1 : (trace_ray
      (Libm.mk Real.sqrt Real.cos Real.sin Real.tan (fun y x => Complex.arg ⟨x, y⟩))
      draw_from_list (one_sphere_scene 2 faint_mirror) ray_ahead 0 [0.25, 0.5]).radiance
      = ⟨0.4999995, 0.4999995, 0.4999995⟩ := by
    rw [trace_ray_one_sphere_unreflective real_sqrt_exact draw_from_list faint_mirror
      (by norm_num [hf])]
    norm_num [hf, Vec3.add, Vec3.mul]
  have s1 : radiance_as_specified
      (Libm.mk Real.sqrt Real.cos Real.sin Real.tan (fun y x => Complex.arg ⟨x, y⟩))
      draw_from_list (one_sphere_scene 2 faint_mirror) ray_ahead 0 [0.25, 0.5]
      (sphere_ahead faint_mirror) = ⟨0.5000005, 0.5000005, 0.5000005⟩ := by
    rw [radiance_as_specified_one_sphere real_sqrt_exact draw_from_list faint_mirror
      (by norm_num [hf]) (by norm_num [hf])]
    norm_num [hf, Vec3.add, Vec3.mul]
  have c2 : (trace_ray
      (Libm.mk Real.sqrt Real.cos Real.sin Real.tan (fun y x => Complex.arg ⟨x, y⟩))
      draw_from_list (one_sphere_scene 2 near_mirror) ray_ahead 0 [0.25, 0.5]).radiance
      = ⟨0.999999, 0.999999, 0.999999⟩ := by
    rw [trace_ray_one_sphere_reflective real_sqrt_exact draw_from_list near_mirror
      (by norm_num [hn]) (by norm_num [hn])]
    norm_num [hn, Vec3.add, Vec3.mul]
  have s2 : radiance_as_specified
      (Libm.mk Real.sqrt Real.cos Real.sin Real.tan (fun y x => Complex.arg ⟨x, y⟩))
      draw_from_list (one_sphere_scene 2 near_mirror) ray_ahead 0 [0.25, 0.5]
      (sphere_ahead near_mirror) = ⟨0.9999995, 0.9999995, 0.9999995⟩ := by
    rw [radiance_as_specified_one_sphere real_sqrt_exact draw_from_list near_mirror
      (by norm_num [hn]) (by norm_num [hn])]
    norm_num [hn, Vec3.add, Vec3.mul]
  refine ⟨⟨by simp [one_sphere_scene],
      congrArg ScanState.hit_sphere (scan_one_sphere_scene real_sqrt_exact _ 2),
      by norm_num [sphere_ahead, hf], by norm_num [sphere_ahead, hf], c1, s1, ?_⟩,
    ⟨by simp [one_sphere_scene],
      congrArg ScanState.hit_sphere (scan_one_sphere_scene real_sqrt_exact _ 2),
      by norm_num [sphere_ahead, hn], by norm_num [sphere_ahead, hn], c2, s2, ?_⟩⟩
  · rw [c1, s1]
    intro h
    have hx := congrArg Vec3.x h
    norm_num at hx
  · rw [c2, s2]
    intro h
    have hx := congrArg Vec3.x h
    norm_num at hx

end Shading

/-! ## Sphere intersection -/

section Intersect

variable {α : Type} [LinearOrderedField α]

/-- A vector other than zero has a positive square. -/
theorem Vec3.dot_self_pos (d : Vec3 α) (hd : d ≠ ⟨0, 0, 0⟩) : 0 < Vec3.dot d d := by
  unfold Vec3.dot
  by_contra hneg
  apply hd
  have hx := mul_self_nonneg d.x
  have hy := mul_self_nonneg d.y
  have hz := mul_self_nonneg d.z
  have hx0 : d.x * d.x = 0 := by linarith
  have hy0 : d.y * d.y = 0 := by linarith
  have hz0 : d.z * d.z = 0 := by linarith
  cases d with
  | mk x y z =>
    simp only [Vec3.mk.injEq]
    exact ⟨mul_self_eq_zero.mp hx0, mul_self_eq_zero.mp hy0, mul_self_eq_zero.mp hz0⟩

/-- The choice of `t_hit` in `Sphere::intersect` (Sphere.h lines 104-112) for `t0 ≤ t1`. -/
theorem t_hit_select (t0 t1 : α) (h01 : t0 ≤ t1) :
    (if t1 > (1e-4 : α) ∧ ((if t0 > (1e-4 : α) then t0 else -1) < 0 ∨
        t1 < (if t0 > (1e-4 : α) then t0 else -1)) then t1
      else (if t0 > (1e-4 : α) then t0 else -1)) =
    if t0 > (1e-4 : α) then t0 else if t1 > (1e-4 : α) then t1 else -1 := by
  have he : (0 : α) < 1e-4 := by norm_num
  by_cases h0 : t0 > (1e-4 : α)
  · simp only [if_pos h0]
    rw [if_neg]
    rintro ⟨-, h | h⟩
    · linarith
    · linarith
  · simp only [if_neg h0]
    by_cases h1 : t1 > (1e-4 : α)
    · rw [if_pos ⟨h1, Or.inl (by norm_num)⟩, if_pos h1]
    · rw [if_neg (fun h => h1 h.1), if_neg h1]

/-- The result of `Sphere::intersect` in terms of the two roots, for `a > 0`. -/
theorem Sphere.intersect_cases {m : Libm α} (hm : m.ExactSqrt) (s : Sphere α) (ray : Ray α)
    (ha : 0 < Vec3.dot ray.direction ray.direction) :
    s.intersect m ray =
      (let a := Vec3.dot ray.direction ray.direction
       let b := 2 * Vec3.dot (ray.origin.sub s.center) ray.direction
       let c := Vec3.dot (ray.origin.sub s.center) (ray.origin.sub s.center) - s.radius * s.radius
       let t0 := (-b - m.sqrt (b * b - 4 * a * c)) / (2 * a)
       let t1 := (-b + m.sqrt (b * b - 4 * a * c)) / (2 * a)
       if b * b - 4 * a * c < 0 then none
       else if t0 > 1e-4 then
         some ⟨t0, ray.origin.add (ray.direction.mul t0),
           ((ray.origin.add (ray.direction.mul t0)).sub s.center).normalize m⟩
       else if t1 > 1e-4 then
         some ⟨t1, ray.origin.add (ray.direction.mul t1),
           ((ray.origin.add (ray.direction.mul t1)).sub s.center).normalize m⟩
       else none) := by
  unfold Sphere.intersect
  simp only []
  split
  · rfl
  · rename_i hD
    have hsq := hm.sqrt_nonneg _ (not_lt.mp hD)
    have h2a : 0 < 2 * Vec3.dot ray.direction ray.direction := by linarith
    have he : (0 : α) < 1e-4 := by norm_num
    rw [t_hit_select _ _ ((div_le_div_iff_of_pos_right h2a).mpr (by linarith))]
    split_ifs with h0 h0p h1 h1p h1n
    · rfl
    · exact absurd (lt_trans he h0) h0p
    · rfl
    · exact absurd (lt_trans he h1) h1p
    · norm_num at h1n
    · rfl

end Intersect

/-! ## render_chunk and the random generator -/

section Render

variable {α : Type} [LinearOrderedField α] {G : Type}

/-- One step of the scan keeps the sphere found so far or takes the sphere tested. -/
theorem scan_step_hit_sphere (m : Libm α) (ray : Ray α) (depth : Int) (st : ScanState α)
    (s0 : Sphere α) :
    (scan_step m ray depth st s0).hit_sphere = st.hit_sphere ∨
      (scan_step m ray depth st s0).hit_sphere = some s0 := by
  unfold scan_step
  cases s0.intersect m ray with
  | none => exact Or.inl rfl
  | some hit =>
    dsimp only
    split_ifs <;> simp

/-- The sphere that a scan ends with is the one it started with or one of the list. -/
theorem scan_foldl_mem (m : Libm α) (ray : Ray α) (depth : Int) (objects : List (Sphere α))
    (s : Sphere α) : ∀ st : ScanState α,
      (objects.foldl (scan_step m ray depth) st).hit_sphere = some s →
      s ∈ objects ∨ st.hit_sphere = some s := by
  induction objects with
  | nil => intro st h; exact Or.inr h
  | cons s0 rest ih =>
    intro st h
    rw [List.foldl_cons] at h
    rcases ih _ h with hmem | hst
    · exact Or.inl (List.mem_cons_of_mem _ hmem)
    · rcases scan_step_hit_sphere m ray depth st s0 with hk | hk
      · exact Or.inr (hk ▸ hst)
      · rw [hk] at hst
        exact Or.inl ((Option.some.inj hst) ▸ List.mem_cons_self _ _)

/-- The sphere that `trace_ray` shades is one of the scene. -/
theorem scan_hit_mem (m : Libm α) (ray : Ray α) (depth : Int) (objects : List (Sphere α))
    (s : Sphere α) (h : (scan m objects ray depth).hit_sphere = some s) : s ∈ objects := by
  rcases scan_foldl_mem m ray depth objects s scan_init h with hmem | hinit
  · exact hmem
  · simp [scan_init] at hinit

/-- The reflected ray off a smooth material does not depend on the generator. -/
theorem reflection_ray_smooth (m : Libm α) (dist01 : G → α × G) (material : Material α)
    (ray : Ray α) (hit_point surface_normal : Vec3 α) (rng1 rng2 : G)
    (hsmooth : material.roughness < 1e-5) :
    (reflection_ray m dist01 material ray hit_point surface_normal rng1).1 =
      (reflection_ray m dist01 material ray hit_point surface_normal rng2).1 := by
  unfold reflection_ray
  simp only [if_pos hsmooth]

/-- In a scene where no sphere is both reflective and rough, the radiance that `trace_ray`
returns does not depend on the generator. -/
theorem trace_ray_radiance_rng_free (m : Libm α) (dist01 : G → α × G) (scene : Scene α)
    (hmat : ∀ s ∈ scene.objects, s.material.reflectivity > 1e-5 → s.material.roughness < 1e-5)
    (n : Nat) : ∀ (ray : Ray α) (depth : Int) (rng1 rng2 : G),
      (scene.max_ray_depth - depth).toNat = n →
      (trace_ray m dist01 scene ray depth rng1).radiance =
        (trace_ray m dist01 scene ray depth rng2).radiance := by
  induction n with
  | zero =>
    intro ray depth rng1 rng2 hn
    have h : depth ≥ scene.max_ray_depth := by omega
    rw [trace_ray_at_limit m dist01 scene ray depth rng1 h,
      trace_ray_at_limit m dist01 scene ray depth rng2 h]
  | succ k ih =>
    intro ray depth rng1 rng2 hn
    have h : depth < scene.max_ray_depth := by omega
    cases hs : (scan m scene.objects ray depth).hit_sphere with
    | none =>
      rw [trace_ray_miss m dist01 scene ray depth rng1 h hs,
        trace_ray_miss m dist01 scene ray depth rng2 h hs]
    | some hit_sphere =>
      rw [trace_ray_hit m dist01 scene ray depth rng1 h hit_sphere hs,
        trace_ray_hit m dist01 scene ray depth rng2 h hit_sphere hs]
      simp only []
      by_cases hrefl : hit_sphere.material.reflectivity > 1e-5
      · have hsmooth := hmat hit_sphere (scan_hit_mem m ray depth _ _ hs) hrefl
        simp only [if_pos hrefl]
        rw [reflection_ray_smooth m dist01 hit_sphere.material ray _ _ rng1 rng2 hsmooth,
          ih _ (depth + 1)
            (reflection_ray m dist01 hit_sphere.material ray
              (scan m scene.objects ray depth).hit_point
              (scan m scene.objects ray depth).surface_normal rng1).2.1
            (reflection_ray m dist01 hit_sphere.material ray
              (scan m scene.objects ray depth).hit_point
              (scan m scene.objects ray depth).surface_normal rng2).2.1 (by omega)]
      · simp only [if_neg hrefl]

/-- A loop whose body leaves a component of the state independent of the other component
leaves it so as a whole. -/
theorem for_range_snd_rng_free {B : Type} (body : Int → G × B → G × B)
    (hbody : ∀ (i : Int) (g1 g2 : G) (b : B), (body i (g1, b)).2 = (body i (g2, b)).2)
    (lo hi : Int) (g1 g2 : G) (b : B) :
    (for_range lo hi body (g1, b)).2 = (for_range lo hi body (g2, b)).2 := by
  unfold for_range
  have key : ∀ (l : List Nat) (st1 st2 : G × B), st1.2 = st2.2 →
      (l.foldl (fun (st : G × B) (i : Nat) => body (lo + Int.ofNat i) st) st1).2 =
        (l.foldl (fun (st : G × B) (i : Nat) => body (lo + Int.ofNat i) st) st2).2 := by
    intro l
    induction l with
    | nil => intro st1 st2 h; exact h
    | cons i rest ih =>
      intro st1 st2 h
      rw [List.foldl_cons, List.foldl_cons]
      apply ih
      obtain ⟨g1, b1⟩ := st1
      obtain ⟨g2, b2⟩ := st2
      simp only at h
      subst h
      exact hbody _ g1 g2 b1
  exact key _ _ _ rfl

/-- With one sample per pixel, `render_pixel` traces the ray through the pixel centre once
and stores its colour. -/
theorem render_pixel_single_sample [FloorRing α] (m : Libm α) (dist01 : G → α × G)
    (scene : Scene α) (camera : Camera α) (y x : Int) (st : G × PixelBuffer)
    (hspp : scene.samples_per_pixel = 1) :
    render_pixel m dist01 scene camera y x st =
      ((trace_ray m dist01 scene
          (camera.get_ray m (((x : α) + 0.5) / (IMAGE_WIDTH : α))
            (((y : α) + 0.5) / (IMAGE_HEIGHT : α))) 0 st.1).rng,
        st.2.write (y * IMAGE_WIDTH + x)
          (vec3_to_uint32_color
            (((Vec3.mk 0 0 0).add (trace_ray m dist01 scene
              (camera.get_ray m (((x : α) + 0.5) / (IMAGE_WIDTH : α))
                (((y : α) + 0.5) / (IMAGE_HEIGHT : α))) 0 st.1).radiance).div 1))) := by
  have h1 : (if scene.samples_per_pixel > 0 then scene.samples_per_pixel else 1) = 1 := by
    rw [hspp]; rfl
  unfold render_pixel
  simp only [h1]
  have hr : ∀ (f : Int → Vec3 α × G → Vec3 α × G) (s0 : Vec3 α × G),
      for_range 0 1 f s0 = f 0 s0 := by
    intro f s0
    have hl : List.range 1 = [0] := rfl
    simp [for_range, hl]
  rw [hr]
  simp [render_sample]

/-- C10, amended: with one sample per pixel and a scene in which no sphere is both
reflective (reflectivity > 1e-5) and rough (roughness ≥ 1e-5), the pixel buffer that
`render_chunk` leaves does not depend on the state of the worker's generator. -/
theorem render_chunk_rng_free [FloorRing α] (m : Libm α) (dist01 : G → α × G)
    (scene : Scene α) (camera : Camera α) (task : ThreadRenderTask) (rng1 rng2 : G)
    (buffer : PixelBuffer) (hspp : scene.samples_per_pixel = 1)
    (hmat : ∀ s ∈ scene.objects, s.material.reflectivity > 1e-5 → s.material.roughness < 1e-5) :
    (render_chunk m dist01 scene camera task rng1 buffer).2 =
      (render_chunk m dist01 scene camera task rng2 buffer).2 := by
  unfold render_chunk
  apply for_range_snd_rng_free
  intro y g1 g2 b
  apply for_range_snd_rng_free
  intro x h1 h2 b1
  rw [render_pixel_single_sample m dist01 scene camera y x _ hspp,
    render_pixel_single_sample m dist01 scene camera y x _ hspp]
  simp only []
  rw [trace_ray_radiance_rng_free m dist01 scene hmat _ _ 0 h1 h2 rfl]

/-- A loop over an empty range leaves the state as it is. -/
theorem for_range_empty {σ : Type} (lo hi : Int) (h : hi ≤ lo) (body : Int → σ → σ) (st : σ) :
    for_range lo hi body st = st := by
  have h0 : (hi - lo).toNat = 0 := by omega
  simp [for_range, h0]

/-- A loop over a non-empty range runs its body at `lo` and then the loop from `lo + 1`. -/
theorem for_range_step {σ : Type} (lo hi : Int) (h : lo < hi) (body : Int → σ → σ) (st : σ) :
    for_range lo hi body st = for_range (lo + 1) hi body (body lo st) := by
  have hk : (hi - lo).toNat = (hi - (lo + 1)).toNat + 1 := by omega
  unfold for_range
  rw [hk, List.range_succ_eq_map, List.foldl_cons, List.foldl_map]
  have h0 : lo + Int.ofNat 0 = lo := by simp
  rw [h0]
  congr 1
  funext s i
  congr 1
  simp only [Int.ofNat_eq_coe, Nat.succ_eq_add_one, Nat.cast_add, Nat.cast_one]
  ring

/-- What every iteration of a loop preserves, the loop preserves. -/
theorem for_range_preserve {σ β : Type} (f : σ → β) (lo hi : Int) (body : Int → σ → σ)
    (hbody : ∀ i, lo ≤ i → i < hi → ∀ st, f (body i st) = f st) (st : σ) :
    f (for_range lo hi body st) = f st := by
  unfold for_range
  have key : ∀ (l : List Nat), (∀ i ∈ l, i < (hi - lo).toNat) → ∀ s0 : σ,
      f (l.foldl (fun (s : σ) (i : Nat) => body (lo + Int.ofNat i) s) s0) = f s0 := by
    intro l
    induction l with
    | nil => intro _ s0; rfl
    | cons i rest ih =>
      intro hl s0
      rw [List.foldl_cons, ih (fun j hj => hl j (List.mem_cons_of_mem _ hj))]
      have hi := hl i (List.mem_cons_self _ _)
      apply hbody
      · simp only [Int.ofNat_eq_coe]; omega
      · simp only [Int.ofNat_eq_coe]; omega
  exact key _ (fun i hi => List.mem_range.mp hi) st

/-- A ray that starts on or outside a sphere and points away from its centre is reported as
no hit. -/
theorem Sphere.intersect_none_of_away {m : Libm α} (hm : m.ExactSqrt) (s : Sphere α)
    (ray : Ray α) (ha : 0 < Vec3.dot ray.direction ray.direction)
    (hb : 0 ≤ Vec3.dot (ray.origin.sub s.center) ray.direction)
    (hc : 0 ≤ Vec3.dot (ray.origin.sub s.center) (ray.origin.sub s.center)
      - s.radius * s.radius) :
    s.intersect m ray = none := by
  rw [Sphere.intersect_cases hm s ray ha]
  simp only []
  generalize Vec3.dot ray.direction ray.direction = a at ha
  generalize Vec3.dot (ray.origin.sub s.center) ray.direction = k at hb
  generalize Vec3.dot (ray.origin.sub s.center) (ray.origin.sub s.center)
    - s.radius * s.radius = c at hc
  split
  · rfl
  · rename_i hD
    have hD0 := not_lt.mp hD
    have hsq0 := hm.sqrt_nonneg _ hD0
    have hsq := hm.sqrt_mul_self _ hD0
    generalize m.sqrt (2 * k * (2 * k) - 4 * a * c) = sq at hsq0 hsq
    have hle : sq ≤ 2 * k := by
      by_contra hlt
      have hlt1 := not_le.mp hlt
      have hac : 0 ≤ a * c := mul_nonneg ha.le hc
      nlinarith
    have h2a : 0 < 2 * a := by linarith
    have he : (0 : α) < 1e-4 := by norm_num
    have ht1 : (-(2 * k) + sq) / (2 * a) ≤ 0 :=
      div_nonpos_of_nonpos_of_nonneg (by linarith) h2a.le
    have ht0 : (-(2 * k) - sq) / (2 * a) ≤ 0 :=
      div_nonpos_of_nonpos_of_nonneg (by linarith) h2a.le
    rw [if_neg (by linarith), if_neg (by linarith)]

/-- Every primary ray of the camera before `initialize` runs from (0,1,3) along the x axis. -/
theorem get_ray_fresh_camera {m : Libm α} (hm : m.ExactSqrt) (u v : α) :
    (fresh_camera : Camera α).get_ray m u v = ⟨⟨0, 1, 3⟩, ⟨1, 0, 0⟩⟩ := by
  have h1 : m.sqrt 1 = 1 := hm.sqrt_eq (by norm_num) (by norm_num)
  simp only [Camera.get_ray, fresh_camera, Ray.ctor, Vec3.add, Vec3.mul,
    Vec3.normalize, Vec3.length, Vec3.length_squared]
  norm_num [h1]

/-- The primary ray hits the mirror sphere at (4,1,3), with normal (-1,0,0). -/
theorem scan_two_sphere_scene_primary {m : Libm α} (hm : m.ExactSqrt) :
    scan m (two_sphere_scene : Scene α).objects ⟨⟨0, 1, 3⟩, ⟨1, 0, 0⟩⟩ 0 =
      ⟨4, some mirror_sphere, ⟨4, 1, 3⟩, ⟨-1, 0, 0⟩⟩ := by
  have h4 : m.sqrt 4 = 2 := hm.sqrt_eq (by norm_num) (by norm_num)
  have h1 : m.sqrt 1 = 1 := hm.sqrt_eq (by norm_num) (by norm_num)
  have hA : (mirror_sphere : Sphere α).intersect m ⟨⟨0, 1, 3⟩, ⟨1, 0, 0⟩⟩ =
      some ⟨4, ⟨4, 1, 3⟩, ⟨-1, 0, 0⟩⟩ := by
    simp only [Sphere.intersect, mirror_sphere, Vec3.sub, Vec3.dot, Vec3.add, Vec3.mul,
      Vec3.normalize, Vec3.length, Vec3.length_squared]
    norm_num [h4, h1]
  have hB : (black_sphere : Sphere α).intersect m ⟨⟨0, 1, 3⟩, ⟨1, 0, 0⟩⟩ = none := by
    simp only [Sphere.intersect, black_sphere, Vec3.sub, Vec3.dot]
    norm_num
  simp only [scan, two_sphere_scene, List.foldl, scan_step, hA, hB, scan_init]
  norm_num

/-- With the draws r1 = 0, r2 = 0 the rough mirror scatters the primary ray straight back. -/
theorem reflection_ray_draws_zero {m : Libm α} (hm : m.ExactSqrt) :
    reflection_ray m draw_from_list (rough_mirror : Material α) ⟨⟨0, 1, 3⟩, ⟨1, 0, 0⟩⟩
      ⟨4, 1, 3⟩ ⟨-1, 0, 0⟩ [0, 0] = (⟨⟨3.9999, 1, 3⟩, ⟨-1, 0, 0⟩⟩, [], 2) := by
  have h0 : m.sqrt 0 = 0 := hm.sqrt_eq (by norm_num) (by norm_num)
  have h1 : m.sqrt 1 = 1 := hm.sqrt_eq (by norm_num) (by norm_num)
  have hr : ¬ (rough_mirror : Material α).roughness < 1e-5 := by
    norm_num [rough_mirror, Material.ctor, clamp]
  have hro : (rough_mirror : Material α).roughness = 1 := by
    norm_num [rough_mirror, Material.ctor, clamp]
  simp only [reflection_ray, if_neg hr, hro, create_onb, random_cosine_direction,
    draw_from_list, List.headD, List.tail, Vec3.sub, Vec3.dot, Vec3.add, Vec3.mul, Vec3.div,
    Vec3.cross, Vec3.normalize, Vec3.length, Vec3.length_squared, Ray.ctor,
    REFLECTION_EPSILON]
  norm_num [h0, h1]

/-- With the draws r1 = 0, r2 = 9/25 the rough mirror scatters the primary ray along
(-4/5, 0, -3/5). -/
theorem reflection_ray_draws_slanted {m : Libm α} (hm : m.ExactSqrt) (hcos : m.cos 0 = 1)
    (hsin : m.sin 0 = 0) :
    reflection_ray m draw_from_list (rough_mirror : Material α) ⟨⟨0, 1, 3⟩, ⟨1, 0, 0⟩⟩
      ⟨4, 1, 3⟩ ⟨-1, 0, 0⟩ [0, 9 / 25] =
      (⟨⟨3.9999, 1, 3⟩, ⟨-(4 / 5), 0, -(3 / 5)⟩⟩, [], 2) := by
  have h1 : m.sqrt 1 = 1 := hm.sqrt_eq (by norm_num) (by norm_num)
  have h9 : m.sqrt (9 / 25) = 3 / 5 := hm.sqrt_eq (by norm_num) (by norm_num)
  have h16 : m.sqrt (16 / 25) = 4 / 5 := hm.sqrt_eq (by norm_num) (by norm_num)
  have hr : ¬ (rough_mirror : Material α).roughness < 1e-5 := by
    norm_num [rough_mirror, Material.ctor, clamp]
  have hro : (rough_mirror : Material α).roughness = 1 := by
    norm_num [rough_mirror, Material.ctor, clamp]
  simp only [reflection_ray, if_neg hr, hro, create_onb, random_cosine_direction,
    draw_from_list, List.headD, List.tail, Vec3.sub, Vec3.dot, Vec3.add, Vec3.mul, Vec3.div,
    Vec3.cross, Vec3.normalize, Vec3.length, Vec3.length_squared, Ray.ctor,
    REFLECTION_EPSILON]
  norm_num [h1, h9, h16, hcos, hsin]

/-- The ray scattered straight back misses both spheres and sees the white background. -/
theorem trace_ray_straight_back {m : Libm α} (hm : m.ExactSqrt) (dist01 : G → α × G)
    (rng : G) :
    (trace_ray m dist01 (two_sphere_scene : Scene α) ⟨⟨3.9999, 1, 3⟩, ⟨-1, 0, 0⟩⟩ 1
      rng).radiance = ⟨1, 1, 1⟩ := by
  have hA : (mirror_sphere : Sphere α).intersect m ⟨⟨3.9999, 1, 3⟩, ⟨-1, 0, 0⟩⟩ = none :=
    Sphere.intersect_none_of_away hm _ _
      (by norm_num [Vec3.dot]) (by norm_num [Vec3.dot, Vec3.sub, mirror_sphere])
      (by norm_num [Vec3.dot, Vec3.sub, mirror_sphere])
  have hB : (black_sphere : Sphere α).intersect m ⟨⟨3.9999, 1, 3⟩, ⟨-1, 0, 0⟩⟩ = none := by
    simp only [Sphere.intersect, black_sphere, Vec3.sub, Vec3.dot]
    norm_num
  have hs : (scan m (two_sphere_scene : Scene α).objects ⟨⟨3.9999, 1, 3⟩, ⟨-1, 0, 0⟩⟩
      1).hit_sphere = none := by
    simp [scan, two_sphere_scene, scan_step, hA, hB, scan_init]
  rw [trace_ray_miss m dist01 _ _ 1 rng (by simp [two_sphere_scene]) hs]
  rfl

/-- The slanted ray passes the mirror sphere and hits the black sphere, which gives no
light. -/
theorem trace_ray_slanted {m : Libm α} (hm : m.ExactSqrt) (dist01 : G → α × G) (rng : G) :
    (trace_ray m dist01 (two_sphere_scene : Scene α)
      ⟨⟨3.9999, 1, 3⟩, ⟨-(4 / 5), 0, -(3 / 5)⟩⟩ 1 rng).radiance = ⟨0, 0, 0⟩ := by
  have h4 : m.sqrt 4 = 2 := hm.sqrt_eq (by norm_num) (by norm_num)
  have h1 : m.sqrt 1 = 1 := hm.sqrt_eq (by norm_num) (by norm_num)
  have hA : (mirror_sphere : Sphere α).intersect m
      ⟨⟨3.9999, 1, 3⟩, ⟨-(4 / 5), 0, -(3 / 5)⟩⟩ = none :=
    Sphere.intersect_none_of_away hm _ _
      (by norm_num [Vec3.dot]) (by norm_num [Vec3.dot, Vec3.sub, mirror_sphere])
      (by norm_num [Vec3.dot, Vec3.sub, mirror_sphere])
  have hB : (black_sphere : Sphere α).intersect m
      ⟨⟨3.9999, 1, 3⟩, ⟨-(4 / 5), 0, -(3 / 5)⟩⟩ =
      some ⟨9, ⟨-3.2001, 1, -2.4⟩, ⟨0.8, 0, 0.6⟩⟩ := by
    simp only [Sphere.intersect, black_sphere, Vec3.sub, Vec3.dot, Vec3.add, Vec3.mul,
      Vec3.normalize, Vec3.length, Vec3.length_squared]
    norm_num [h4, h1]
  have hs : (scan m (two_sphere_scene : Scene α).objects
      ⟨⟨3.9999, 1, 3⟩, ⟨-(4 / 5), 0, -(3 / 5)⟩⟩ 1).hit_sphere = some black_sphere := by
    simp only [scan, two_sphere_scene, List.foldl, scan_step, hA, hB, scan_init]
    norm_num [REFLECTION_EPSILON]
  rw [trace_ray_hit m dist01 _ _ 1 rng (by simp [two_sphere_scene]) _ hs]
  norm_num [black_sphere, black_material, Material.ctor, clamp, Vec3.add, Vec3.mul]

/-- The radiance of the primary ray is the radiance of the scattered ray. -/
theorem trace_ray_two_sphere_scene_primary {m : Libm α} (hm : m.ExactSqrt) (rng : List α) :
    (trace_ray m draw_from_list (two_sphere_scene : Scene α) ⟨⟨0, 1, 3⟩, ⟨1, 0, 0⟩⟩ 0
      rng).radiance =
    (trace_ray m draw_from_list (two_sphere_scene : Scene α)
      (reflection_ray m draw_from_list (rough_mirror : Material α) ⟨⟨0, 1, 3⟩, ⟨1, 0, 0⟩⟩
        ⟨4, 1, 3⟩ ⟨-1, 0, 0⟩ rng).1 1
      (reflection_ray m draw_from_list (rough_mirror : Material α) ⟨⟨0, 1, 3⟩, ⟨1, 0, 0⟩⟩
        ⟨4, 1, 3⟩ ⟨-1, 0, 0⟩ rng).2.1).radiance := by
  have hs := congrArg ScanState.hit_sphere (scan_two_sphere_scene_primary hm)
  rw [trace_ray_hit m draw_from_list _ _ 0 rng (by simp [two_sphere_scene]) _ hs]
  have hmat : (mirror_sphere : Sphere α).material = rough_mirror := rfl
  have hre : (rough_mirror : Material α).reflectivity = 1 := by
    norm_num [rough_mirror, Material.ctor, clamp]
  have hem : (rough_mirror : Material α).emission_color = ⟨0, 0, 0⟩ := rfl
  simp only [hmat, hre, hem, scan_two_sphere_scene_primary hm]
  norm_num [Vec3.add, Vec3.mul]

/-- The value that `render_chunk` leaves at index 0 for the first row: the colour of the
primary ray traced with the generator state passed in. -/
theorem render_chunk_first_pixel [FloorRing α] {m : Libm α} (hm : m.ExactSqrt)
    (rng : List α) :
    (render_chunk m draw_from_list (two_sphere_scene : Scene α) fresh_camera
      first_row rng blank_buffer).2 0 =
    vec3_to_uint32_color (((Vec3.mk 0 0 0).add
      (trace_ray m draw_from_list (two_sphere_scene : Scene α) ⟨⟨0, 1, 3⟩, ⟨1, 0, 0⟩⟩ 0
        rng).radiance).div 1) := by
  have hspp : (two_sphere_scene : Scene α).samples_per_pixel = 1 := rfl
  unfold render_chunk
  rw [show first_row.startY = 0 from rfl, show first_row.endY = 1 from rfl,
    for_range_step 0 1 (by decide), for_range_empty (0 + 1) 1 (by decide),
    for_range_step 0 IMAGE_WIDTH (by decide)]
  rw [for_range_preserve (fun st : List α × PixelBuffer => st.2 0) (0 + 1) IMAGE_WIDTH]
  · rw [render_pixel_single_sample m draw_from_list _ _ 0 0 _ hspp,
      get_ray_fresh_camera hm]
    simp [PixelBuffer.write]
  · intro i hlo _ st
    rw [render_pixel_single_sample m draw_from_list _ _ 0 i _ hspp]
    have hne : ¬ (0 : Int) = 0 * IMAGE_WIDTH + i := by omega
    simp only [PixelBuffer.write, if_neg hne]

/-- The colour word of white. -/
theorem vec3_to_uint32_color_white [FloorRing α] :
    vec3_to_uint32_color (((Vec3.mk 0 0 0).add (Vec3.mk (1 : α) 1 1)).div 1) = 4294967295 := by
  have h255 : Int.floor (255 : α) = 255 := by simp
  simp only [vec3_to_uint32_color, Vec3.add, Vec3.div, clamp, to_uint8]
  norm_num [h255]
  decide

/-- The colour word of black. -/
theorem vec3_to_uint32_color_black [FloorRing α] :
    vec3_to_uint32_color (((Vec3.mk 0 0 0).add (Vec3.mk (0 : α) 0 0)).div 1) = 4278190080 := by
  simp only [vec3_to_uint32_color, Vec3.add, Vec3.div, clamp, to_uint8]
  norm_num
  decide

/-- C10, amended, on the scene with one smooth mirror sphere, the first row and two
generator states. -/
theorem render_chunk_rng_free_witness :
    ((one_sphere_scene 2 (near_mirror : Material ℝ)).samples_per_pixel = 1 ∧
      ∀ s ∈ (one_sphere_scene 2 (near_mirror : Material ℝ)).objects,
        s.material.reflectivity > 1e-5 → s.material.roughness < 1e-5) ∧
    (render_chunk (Libm.mk Real.sqrt Real.cos Real.sin Real.tan (fun y x => Complex.arg ⟨x, y⟩))
      draw_from_list (one_sphere_scene 2 near_mirror) fresh_camera first_row
      [0, 0] blank_buffer).2 =
    (render_chunk (Libm.mk Real.sqrt Real.cos Real.sin Real.tan (fun y x => Complex.arg ⟨x, y⟩))
      draw_from_list (one_sphere_scene 2 near_mirror) fresh_camera first_row
      [0, 9 / 25] blank_buffer).2 := by
  have hmat : ∀ s ∈ (one_sphere_scene 2 (near_mirror : Material ℝ)).objects,
      s.material.reflectivity > 1e-5 → s.material.roughness < 1e-5 := by
    intro s hs _
    simp only [one_sphere_scene, List.mem_singleton] at hs
    rw [hs]
    norm_num [sphere_ahead, near_mirror, Material.ctor, clamp]
  exact ⟨⟨rfl, hmat⟩,
    render_chunk_rng_free _ draw_from_list (one_sphere_scene 2 near_mirror)
      fresh_camera first_row [0, 0] [0, 9 / 25] blank_buffer rfl hmat⟩

/-- C10 as stated fails for a scene with a rough reflective sphere: with one sample per
pixel, the same scene, camera and band, the generator state that draws (0, 0) next leaves
the white word 0xFFFFFFFF at index 0 of the buffer, the state that draws (0, 9/25) next
leaves the black word 0xFF000000 there. -/
theorem render_chunk_depends_on_rng :
    (two_sphere_scene : Scene ℝ).samples_per_pixel = 1 ∧
    (render_chunk (Libm.mk Real.sqrt Real.cos Real.sin Real.tan (fun y x => Complex.arg ⟨x, y⟩))
      draw_from_list two_sphere_scene fresh_camera first_row
      [0, 0] blank_buffer).2 0 = 4294967295 ∧
    (render_chunk (Libm.mk Real.sqrt Real.cos Real.sin Real.tan (fun y x => Complex.arg ⟨x, y⟩))
      draw_from_list two_sphere_scene fresh_camera first_row
      [0, 9 / 25] blank_buffer).2 0 = 4278190080 ∧
    (render_chunk (Libm.mk Real.sqrt Real.cos Real.sin Real.tan (fun y x => Complex.arg ⟨x, y⟩))
      draw_from_list two_sphere_scene fresh_camera first_row
      [0, 0] blank_buffer).2 ≠
    (render_chunk (Libm.mk Real.sqrt Real.cos Real.sin Real.tan (fun y x => Complex.arg ⟨x, y⟩))
      draw_from_list two_sphere_scene fresh_camera first_row
      [0, 9 / 25] blank_buffer).2 := by
  have hA : (render_chunk
      (Libm.mk Real.sqrt Real.cos Real.sin Real.tan (fun y x => Complex.arg ⟨x, y⟩))
      draw_from_list two_sphere_scene fresh_camera first_row
      [0, 0] blank_buffer).2 0 = 4294967295 := by
    rw [render_chunk_first_pixel real_sqrt_exact, trace_ray_two_sphere_scene_primary
      real_sqrt_exact, reflection_ray_draws_zero real_sqrt_exact,
      trace_ray_straight_back real_sqrt_exact]
    exact vec3_to_uint32_color_white
  have hB : (render_chunk
      (Libm.mk Real.sqrt Real.cos Real.sin Real.tan (fun y x => Complex.arg ⟨x, y⟩))
      draw_from_list two_sphere_scene fresh_camera first_row
      [0, 9 / 25] blank_buffer).2 0 = 4278190080 := by
    rw [render_chunk_first_pixel real_sqrt_exact, trace_ray_two_sphere_scene_primary
      real_sqrt_exact, reflection_ray_draws_slanted real_sqrt_exact Real.cos_zero Real.sin_zero,
      trace_ray_slanted real_sqrt_exact]
    exact vec3_to_uint32_color_black
  refine ⟨rfl, hA, hB, ?_⟩
  intro h
  have h0 := congrFun h 0
  rw [hA, hB] at h0
  exact absurd h0 (by decide)

end Render

/-! ## Vectors and the camera -/

section CameraModel

variable {α : Type} [LinearOrderedField α]

/-- The result of `std::clamp` lies between the bounds when they are ordered. -/
theorem clamp_mem (v lo hi : α) (h : lo ≤ hi) : lo ≤ clamp v lo hi ∧ clamp v lo hi ≤ hi := by
  unfold clamp
  split_ifs with h1 h2
  · exact ⟨le_refl lo, h⟩
  · exact ⟨h, le_refl hi⟩
  · exact ⟨not_lt.mp h1, not_lt.mp h2⟩

/-- The pitch bounds are ordered, opposite and inside (0, M_PI/2). -/
theorem Camera.pitch_bounds :
    (Camera.MIN_PITCH : α) ≤ Camera.MAX_PITCH ∧ (Camera.MAX_PITCH : α) = -Camera.MIN_PITCH ∧
    (0 : α) < Camera.MAX_PITCH ∧ (Camera.MAX_PITCH : α) < M_PI / 2 := by
  unfold Camera.MIN_PITCH Camera.MAX_PITCH M_PI
  norm_num

/-- The method `update_orientation_vectors` leaves the pitch as it is. -/
theorem Camera.update_orientation_vectors_pitch (m : Libm α) (cam : Camera α) :
    (cam.update_orientation_vectors m).pitch_radians = cam.pitch_radians := by
  unfold Camera.update_orientation_vectors
  simp only []
  split <;> rfl

/-- Every method call keeps the pitch inside the bounds. -/
theorem Camera.call_pitch (m : Libm α) (cam : Camera α) (c : CameraCall α)
    (h : Camera.MIN_PITCH ≤ cam.pitch_radians ∧ cam.pitch_radians ≤ Camera.MAX_PITCH) :
    Camera.MIN_PITCH ≤ (cam.call m c).pitch_radians ∧
      (cam.call m c).pitch_radians ≤ Camera.MAX_PITCH := by
  cases c with
  | init a =>
    simp only [Camera.call, Camera.init, Camera.update_orientation_vectors_pitch]
    exact clamp_mem _ _ _ Camera.pitch_bounds.1
  | update_orientation_vectors =>
    simp only [Camera.call, Camera.update_orientation_vectors_pitch]
    exact h
  | move_forward a => exact h
  | move_sideways a => exact h
  | move_vertical a => exact h
  | rotate_yaw a => exact h
  | rotate_pitch a => exact clamp_mem _ _ _ Camera.pitch_bounds.1

/-- C11: the pitch of a camera built by the constructor stays inside
[MIN_PITCH, MAX_PITCH] through every sequence of calls of `initialize`,
`update_orientation_vectors`, `move_forward`, `move_sideways`, `move_vertical`, `rotate_yaw`
and `rotate_pitch`, whatever the angles; `MAX_PITCH = -MIN_PITCH` lies strictly inside
(0, M_PI/2) and, over the reals, strictly inside (0, π/2). -/
theorem Camera.pitch_invariant (m : Libm α) (pos target world_up : Vec3 α) (fov : α)
    (cs : List (CameraCall α)) :
    (Camera.MIN_PITCH ≤ ((Camera.ctor m pos target world_up fov).calls m cs).pitch_radians ∧
      ((Camera.ctor m pos target world_up fov).calls m cs).pitch_radians ≤ Camera.MAX_PITCH) ∧
    (Camera.MAX_PITCH : α) = -Camera.MIN_PITCH ∧
    ((0 : α) < Camera.MAX_PITCH ∧ (Camera.MAX_PITCH : α) < M_PI / 2) ∧
    ((0 : ℝ) < Camera.MAX_PITCH ∧ (Camera.MAX_PITCH : ℝ) < Real.pi / 2) := by
  have key : ∀ (l : List (CameraCall α)) (cam : Camera α),
      (Camera.MIN_PITCH ≤ cam.pitch_radians ∧ cam.pitch_radians ≤ Camera.MAX_PITCH) →
      Camera.MIN_PITCH ≤ (cam.calls m l).pitch_radians ∧
        (cam.calls m l).pitch_radians ≤ Camera.MAX_PITCH := by
    intro l
    induction l with
    | nil => intro cam h; exact h
    | cons c rest ih =>
      intro cam h
      exact ih (cam.call m c) (Camera.call_pitch m cam c h)
  have h0 : (Camera.MIN_PITCH : α) ≤ (Camera.ctor m pos target world_up fov).pitch_radians ∧
      (Camera.ctor m pos target world_up fov).pitch_radians ≤ Camera.MAX_PITCH := by
    unfold Camera.ctor Camera.MIN_PITCH Camera.MAX_PITCH M_PI
    norm_num
  refine ⟨key cs _ h0, Camera.pitch_bounds.2.1, Camera.pitch_bounds.2.2,
    Camera.pitch_bounds.2.2.1, ?_⟩
  have hpi := Real.pi_gt_d20
  have h2 : (Camera.MAX_PITCH : ℝ) < M_PI / 2 := Camera.pitch_bounds.2.2.2
  have h3 : (M_PI : ℝ) < Real.pi := by unfold M_PI; exact hpi
  linarith

/-- The squared length of a combination of an orthonormal basis. -/
theorem Camera.Orthonormal.length_squared {cam : Camera α} (ho : cam.Orthonormal)
    (a b d : α) :
    (((cam.right_direction.mul a).add (cam.up_direction.mul b)).add
      (cam.forward_direction.mul d)).length_squared = a * a + b * b + d * d := by
  have h1 := ho.forward_unit
  have h2 := ho.right_unit
  have h3 := ho.up_unit
  have h4 := ho.forward_right
  have h5 := ho.forward_up
  have h6 := ho.right_up
  simp only [Vec3.dot] at h1 h2 h3 h4 h5 h6
  simp only [Vec3.length_squared, Vec3.add, Vec3.mul]
  linear_combination (d * d) * h1 + (a * a) * h2 + (b * b) * h3 + (2 * a * d) * h4 +
    (2 * b * d) * h5 + (2 * a * b) * h6

end CameraModel

/-! ## The band partition -/

section Bands

/-- The bands in closed form. -/
theorem make_render_tasks_eq (H N : Int) :
    make_render_tasks H N =
      (List.range N.toNat).map (fun (j : Nat) => (⟨j, j * Int.tdiv H N,
        if (j : Int) = N - 1 then H else j * Int.tdiv H N + Int.tdiv H N⟩ :
          ThreadRenderTask)) := by
  have key : ∀ n : Nat, (n : Int) ≤ N →
      (List.range n).foldl
        (fun (st : Int × List ThreadRenderTask) (i : Nat) =>
          band_step H N (Int.tdiv H N) (0 + Int.ofNat i) st) (0, []) =
      (if (n : Int) = N ∧ 0 < n then H else n * Int.tdiv H N,
        (List.range n).map (fun (j : Nat) => (⟨j, j * Int.tdiv H N,
          if (j : Int) = N - 1 then H else j * Int.tdiv H N + Int.tdiv H N⟩ :
            ThreadRenderTask))) := by
    intro n
    induction n with
    | zero => intro _; simp
    | succ k ih =>
      intro hk
      have hk1 : (k : Int) ≤ N := by omega
      have hkN : ¬ ((k : Int) = N ∧ 0 < k) := by omega
      rw [List.range_succ, List.foldl_append, ih hk1, if_neg hkN]
      simp only [List.foldl_cons, List.foldl_nil, band_step, List.map_append, List.map_cons,
        List.map_nil, Int.ofNat_eq_coe, zero_add]
      by_cases hlast : (k : Int) = N - 1
      · have h1 : ((k + 1 : Nat) : Int) = N ∧ 0 < k + 1 := by constructor <;> omega
        rw [if_pos hlast, if_pos h1]
      · have h1 : ¬ (((k + 1 : Nat) : Int) = N ∧ 0 < k + 1) := by omega
        rw [if_neg hlast, if_neg h1]
        congr 1
        push_cast
        ring
  unfold make_render_tasks for_range
  have hn : ((N - 0).toNat : Int) ≤ N ∨ N < 0 := by omega
  rcases hn with hn | hn
  · rw [key _ hn]
    simp
  · have h0 : (N - 0).toNat = 0 := by omega
    have h1 : N.toNat = 0 := by omega
    rw [h0, h1]
    simp

/-- The band of index `i` in closed form. -/
theorem make_render_tasks_get (H N : Int) (i : Nat) (hi : (i : Int) < N) :
    (make_render_tasks H N)[i]? =
      some ⟨i, i * Int.tdiv H N,
        if (i : Int) = N - 1 then H else i * Int.tdiv H N + Int.tdiv H N⟩ := by
  rw [make_render_tasks_eq, List.getElem?_map, List.getElem?_range (by omega)]
  rfl

/-- The number of bands. -/
theorem make_render_tasks_length (H N : Int) :
    (make_render_tasks H N).length = N.toNat := by
  rw [make_render_tasks_eq]
  simp

/-- An index that holds a band lies below the number of workers. -/
theorem make_render_tasks_index (H N : Int) (i : Nat) (t : ThreadRenderTask)
    (h : (make_render_tasks H N)[i]? = some t) : (i : Int) < N := by
  have hlt : i < (make_render_tasks H N).length := by
    by_contra hge
    rw [List.getElem?_eq_none (by omega)] at h
    exact absurd h (by simp)
  rw [make_render_tasks_length] at hlt
  omega

/-- Two bands that share a row have the same index. -/
theorem make_render_tasks_disjoint (H N : Int) (hH : 0 ≤ H) (hN : 1 ≤ N) (i j : Nat)
    (t1 t2 : ThreadRenderTask) (h1 : (make_render_tasks H N)[i]? = some t1)
    (h2 : (make_render_tasks H N)[j]? = some t2) (hij : i < j) (y : Int)
    (hy1 : t1.startY ≤ y ∧ y < t1.endY) (hy2 : t2.startY ≤ y ∧ y < t2.endY) : False := by
  have hj := make_render_tasks_index H N j t2 h2
  have hi : (i : Int) < N := by omega
  rw [make_render_tasks_get H N i hi] at h1
  rw [make_render_tasks_get H N j hj] at h2
  cases Option.some.inj h1
  cases Option.some.inj h2
  have hq : 0 ≤ Int.tdiv H N := by
    rw [Int.tdiv_eq_ediv hH (by omega)]
    exact Int.ediv_nonneg hH (by omega)
  have hne : ¬ ((i : Int) = N - 1) := by omega
  simp only [if_neg hne] at hy1
  have hmul : ((i : Int) + 1) * Int.tdiv H N ≤ (j : Int) * Int.tdiv H N :=
    Int.mul_le_mul_of_nonneg_right (by omega) hq
  have h3 := hy1.2
  have h4 := hy2.1
  simp only [] at h4
  have h5 : ((i : Int) + 1) * Int.tdiv H N = (i : Int) * Int.tdiv H N + Int.tdiv H N := by ring
  omega

/-- The number of rows of each band: `H / N`, and `H / N + H % N` for the last. -/
theorem make_render_tasks_rows (H N : Int) (hH : 0 ≤ H) (hN : 1 ≤ N) (i : Nat)
    (t : ThreadRenderTask) (h : (make_render_tasks H N)[i]? = some t) :
    (i + 1 < N.toNat → t.rows = H / N) ∧ (i + 1 = N.toNat → t.rows = H / N + H % N) := by
  have hdiv : Int.tdiv H N = H / N := Int.tdiv_eq_ediv hH (by omega)
  have hmod := Int.emod_add_ediv H N
  have hi := make_render_tasks_index H N i t h
  rw [make_render_tasks_get H N i hi] at h
  cases Option.some.inj h
  constructor
  · intro hlt
    have hne : ¬ ((i : Int) = N - 1) := by omega
    simp only [ThreadRenderTask.rows, if_neg hne, hdiv]
    omega
  · intro heq
    have hl : (i : Int) = N - 1 := by omega
    simp only [ThreadRenderTask.rows, if_pos hl, hdiv]
    have hexp : N * (H / N) = (N - 1) * (H / N) + H / N := by ring
    rw [hl]
    omega

/-- C17: for an image of `H ≥ 0` rows and `N ≥ 1` workers the band computation yields `N`
half-open row ranges, the first starting at 0, each next one starting where the one before
ends, the last ending at `H`; every row of [0, H) lies in exactly one band; every band but
the last has `H / N` rows and the last has `H / N + H % N` rows. -/
theorem make_render_tasks_partition (H N : Int) (hH : 0 ≤ H) (hN : 1 ≤ N) :
    (make_render_tasks H N).length = N.toNat ∧
    (∃ t, (make_render_tasks H N)[0]? = some t ∧ t.startY = 0) ∧
    (∀ (i : Nat) (t1 t2 : ThreadRenderTask), (make_render_tasks H N)[i]? = some t1 →
      (make_render_tasks H N)[i + 1]? = some t2 → t2.startY = t1.endY) ∧
    (∃ t, (make_render_tasks H N)[N.toNat - 1]? = some t ∧ t.endY = H) ∧
    (∀ y : Int, 0 ≤ y → y < H →
      ∃! i : Nat, ∃ t, (make_render_tasks H N)[i]? = some t ∧ t.startY ≤ y ∧ y < t.endY) ∧
    (∀ (i : Nat) (t : ThreadRenderTask), (make_render_tasks H N)[i]? = some t →
      (i + 1 < N.toNat → t.rows = H / N) ∧ (i + 1 = N.toNat → t.rows = H / N + H % N)) := by
  have hdiv : Int.tdiv H N = H / N := Int.tdiv_eq_ediv hH (by omega)
  have hq : 0 ≤ H / N := Int.ediv_nonneg hH (by omega)
  have hmod := Int.emod_add_ediv H N
  have hr0 : 0 ≤ H % N := Int.emod_nonneg H (by omega)
  have hr1 : H % N < N := Int.emod_lt_of_pos H (by omega)
  refine ⟨make_render_tasks_length H N, ?_, ?_, ?_, ?_, ?_⟩
  · refine ⟨_, make_render_tasks_get H N 0 (by omega), ?_⟩
    simp
  · intro i t1 t2 h1 h2
    have hi2 := make_render_tasks_index H N (i + 1) t2 h2
    have hi1 : (i : Int) < N := by omega
    rw [make_render_tasks_get H N i hi1] at h1
    rw [make_render_tasks_get H N (i + 1) hi2] at h2
    cases Option.some.inj h1
    cases Option.some.inj h2
    have hne : ¬ ((i : Int) = N - 1) := by omega
    simp only [if_neg hne]
    push_cast
    ring
  · refine ⟨_, make_render_tasks_get H N (N.toNat - 1) (by omega), ?_⟩
    have hl : ((N.toNat - 1 : Nat) : Int) = N - 1 := by omega
    simp only [if_pos hl]
  · intro y hy0 hyH
    have huniq : ∀ (i j : Nat) (t1 t2 : ThreadRenderTask),
        (make_render_tasks H N)[i]? = some t1 → (make_render_tasks H N)[j]? = some t2 →
        (t1.startY ≤ y ∧ y < t1.endY) → (t2.startY ≤ y ∧ y < t2.endY) → j = i := by
      intro i j t1 t2 h1 h2 hy1 hy2
      rcases Nat.lt_trichotomy i j with h | h | h
      · exact (make_render_tasks_disjoint H N hH hN i j t1 t2 h1 h2 h y hy1 hy2).elim
      · exact h.symm
      · exact (make_render_tasks_disjoint H N hH hN j i t2 t1 h2 h1 h y hy2 hy1).elim
    by_cases hlast : (N - 1) * (H / N) ≤ y
    · refine ⟨N.toNat - 1, ⟨_, make_render_tasks_get H N (N.toNat - 1) (by omega), ?_, ?_⟩, ?_⟩
      · have hl : ((N.toNat - 1 : Nat) : Int) = N - 1 := by omega
        simp only [hl, hdiv]
        exact hlast
      · have hl : ((N.toNat - 1 : Nat) : Int) = N - 1 := by omega
        simp only [if_pos hl]
        exact hyH
      · rintro j ⟨t2, h2, hy2⟩
        have hl : ((N.toNat - 1 : Nat) : Int) = N - 1 := by omega
        refine huniq (N.toNat - 1) j _ t2
          (make_render_tasks_get H N (N.toNat - 1) (by omega)) h2 ⟨?_, ?_⟩ hy2
        · simp only [hl, hdiv]; exact hlast
        · simp only [if_pos hl]; exact hyH
    · have hlast1 := not_le.mp hlast
      have hqpos : 0 < H / N := by
        by_contra hq0
        have hqz : H / N = 0 := by omega
        rw [hqz] at hlast1
        omega
      have hi0 : 0 ≤ y / (H / N) := Int.ediv_nonneg hy0 hq
      have hi1 : y / (H / N) < N - 1 := Int.ediv_lt_of_lt_mul hqpos hlast1
      have hlo : y / (H / N) * (H / N) ≤ y := Int.ediv_mul_le y hqpos.ne'
      have hhi : y < (y / (H / N) + 1) * (H / N) := Int.lt_ediv_add_one_mul_self y hqpos
      have hcast : (((y / (H / N)).toNat : Nat) : Int) = y / (H / N) := by omega
      have hget := make_render_tasks_get H N (y / (H / N)).toNat (by omega)
      have hne : ¬ ((((y / (H / N)).toNat : Nat) : Int) = N - 1) := by omega
      have hmem : (((y / (H / N)).toNat : Nat) : Int) * Int.tdiv H N ≤ y ∧
          y < (((y / (H / N)).toNat : Nat) : Int) * Int.tdiv H N + Int.tdiv H N := by
        rw [hcast, hdiv]
        constructor
        · exact hlo
        · have : (y / (H / N) + 1) * (H / N) = y / (H / N) * (H / N) + H / N := by ring
          omega
      refine ⟨(y / (H / N)).toNat, ⟨_, hget, ?_, ?_⟩, ?_⟩
      · exact hmem.1
      · simp only [if_neg hne]; exact hmem.2
      · rintro j ⟨t2, h2, hy2⟩
        refine huniq _ j _ t2 hget h2 ⟨hmem.1, ?_⟩ hy2
        simp only [if_neg hne]; exact hmem.2
  · exact make_render_tasks_rows H N hH hN

/-- C17 for the image of 1080 rows and the 16 workers of the program. -/
theorem make_render_tasks_partition_witness :
    ((0 : Int) ≤ IMAGE_HEIGHT ∧ (1 : Int) ≤ NUM_THREADS) ∧
    (make_render_tasks IMAGE_HEIGHT NUM_THREADS).length = 16 ∧
    ∃ t, (make_render_tasks IMAGE_HEIGHT NUM_THREADS)[NUM_THREADS.toNat - 1]? = some t ∧
      t.endY = IMAGE_HEIGHT :=
  ⟨⟨by decide, by decide⟩,
    (make_render_tasks_partition IMAGE_HEIGHT NUM_THREADS (by decide) (by decide)).1,
    (make_render_tasks_partition IMAGE_HEIGHT NUM_THREADS (by decide) (by decide)).2.2.2.1⟩

/-- C18, amended: for `H ≥ 0` rows and `N ≥ 1` workers the row counts of any two bands
differ by at most `H % N`: every band but the last has `H / N` rows and the last has
`H / N + H % N` rows. -/
theorem make_render_tasks_rows_differ (H N : Int) (hH : 0 ≤ H) (hN : 1 ≤ N) (i j : Nat)
    (t1 t2 : ThreadRenderTask) (h1 : (make_render_tasks H N)[i]? = some t1)
    (h2 : (make_render_tasks H N)[j]? = some t2) :
    t1.rows - t2.rows ≤ H % N ∧ t2.rows - t1.rows ≤ H % N ∧
    (i + 1 < N.toNat → t1.rows = H / N) ∧ (i + 1 = N.toNat → t1.rows = H / N + H % N) := by
  have hr0 : 0 ≤ H % N := Int.emod_nonneg H (by omega)
  have hi := make_render_tasks_index H N i t1 h1
  have hj := make_render_tasks_index H N j t2 h2
  have r1 := make_render_tasks_rows H N hH hN i t1 h1
  have r2 := make_render_tasks_rows H N hH hN j t2 h2
  refine ⟨?_, ?_, r1.1, r1.2⟩
  · rcases Nat.lt_or_ge (i + 1) N.toNat with a | a <;>
      rcases Nat.lt_or_ge (j + 1) N.toNat with b | b
    · rw [r1.1 a, r2.1 b]; omega
    · rw [r1.1 a, r2.2 (by omega)]; omega
    · rw [r1.2 (by omega), r2.1 b]; omega
    · rw [r1.2 (by omega), r2.2 (by omega)]; omega
  · rcases Nat.lt_or_ge (i + 1) N.toNat with a | a <;>
      rcases Nat.lt_or_ge (j + 1) N.toNat with b | b
    · rw [r1.1 a, r2.1 b]; omega
    · rw [r1.1 a, r2.2 (by omega)]; omega
    · rw [r1.2 (by omega), r2.1 b]; omega
    · rw [r1.2 (by omega), r2.2 (by omega)]; omega

/-- C18, amended, for the image of 1080 rows and the 16 workers of the program: the first
and the last band differ by 8 = 1080 % 16 rows. -/
theorem make_render_tasks_rows_differ_witness :
    ((0 : Int) ≤ IMAGE_HEIGHT ∧ (1 : Int) ≤ NUM_THREADS ∧
      (make_render_tasks IMAGE_HEIGHT NUM_THREADS)[15]? = some ⟨15, 1005, 1080⟩ ∧
      (make_render_tasks IMAGE_HEIGHT NUM_THREADS)[0]? = some ⟨0, 0, 67⟩) ∧
    (ThreadRenderTask.mk 15 1005 1080).rows - (ThreadRenderTask.mk 0 0 67).rows
      ≤ IMAGE_HEIGHT % NUM_THREADS :=
  ⟨⟨by decide, by decide, rfl, rfl⟩,
    (make_render_tasks_rows_differ IMAGE_HEIGHT NUM_THREADS (by decide) (by decide) 15 0
      ⟨15, 1005, 1080⟩ ⟨0, 0, 67⟩ rfl rfl).1⟩

/-- C18 as stated fails for the program's own constants: with 1080 rows and 16 workers
the first band is rows [0, 67) and the last band is rows [1005, 1080), so their row counts
67 and 75 differ by 8. -/
theorem make_render_tasks_last_band_longer :
    (make_render_tasks IMAGE_HEIGHT NUM_THREADS)[0]? = some ⟨0, 0, 67⟩ ∧
    (make_render_tasks IMAGE_HEIGHT NUM_THREADS)[15]? = some ⟨15, 1005, 1080⟩ ∧
    (ThreadRenderTask.mk 0 0 67).rows = 67 ∧ (ThreadRenderTask.mk 15 1005 1080).rows = 75 ∧
    ¬ ((ThreadRenderTask.mk 15 1005 1080).rows - (ThreadRenderTask.mk 0 0 67).rows ≤ 1) :=
  ⟨rfl, rfl, rfl, rfl, by decide⟩

end Bands

/-! ## The frame barrier -/

section Barrier

/-- A worker's step keeps its invariant, and changes the counter as it changes `added`. -/
theorem render_chunk_loop_step_inv (N : Nat) (c : MainPc) (target : Int) (sh : Bool)
    (info : Int) (done : Nat) (ws : WorkerState) (hsh : sh = true ↔ c = .stopped)
    (h : WorkerInv c target ws) :
    WorkerInv c target (render_chunk_loop_step N target sh info done ws).1 ∧
    (render_chunk_loop_step N target sh info done ws).2 + ws.added =
      done + (render_chunk_loop_step N target sh info done ws).1.added := by
  obtain ⟨pc, last, cur, li, comp, added⟩ := ws
  obtain ⟨hle, hnd, hadd, hc⟩ := h
  cases pc <;> cases c <;> cases sh <;>
    simp [render_chunk_loop_step, WorkerInv] at hsh hc hle hnd hadd ⊢ <;>
    (try split_ifs) <;> (try simp_all) <;> (try omega) <;>
    exact ⟨fun a ha => le_of_lt (lt_of_le_of_lt (hle a ha) hc.1),
      fun hmem => absurd (hle _ hmem) (not_le.mpr hc.1), by tauto⟩

/-- The sum of the `added` fields after one worker's state is replaced. -/
theorem sum_added_update {N : Nat} (f : Fin N → WorkerState) (i : Fin N) (b : WorkerState) :
    ∑ j, (Function.update f i b j).added + (f i).added = ∑ j, (f j).added + b.added := by
  have h1 : ∀ g : Fin N → WorkerState, ∑ j, (g j).added
      = (g i).added + ∑ j in Finset.univ.erase i, (g j).added := fun g =>
    (Finset.add_sum_erase Finset.univ (fun j => (g j).added) (Finset.mem_univ i)).symm
  have h2 : ∑ j in Finset.univ.erase i, (Function.update f i b j).added
      = ∑ j in Finset.univ.erase i, (f j).added := by
    apply Finset.sum_congr rfl
    intro j hj
    rw [Function.update_noteq (Finset.ne_of_mem_erase hj)]
  rw [h1 (Function.update f i b), h1 f, h2, Function.update_same]
  omega

/-- If each of `N` workers has added at most once and the sum is `N`, each has added once. -/
theorem added_of_sum {N : Nat} (f : Fin N → WorkerState) (h1 : ∀ i, (f i).added ≤ 1)
    (hs : ∑ i, (f i).added = N) : ∀ i, (f i).added = 1 := by
  by_contra hne
  push_neg at hne
  obtain ⟨i, hi⟩ := hne
  have hlt : ∑ i, (f i).added < ∑ _i : Fin N, 1 :=
    Finset.sum_lt_sum (fun j _ => h1 j) ⟨i, Finset.mem_univ i, by have := h1 i; omega⟩
  simp at hlt
  omega

/-- The invariant holds when the main thread enters its loop. -/
theorem sched_init_inv (N : Nat) : SchedInv (sched_init N) := by
  simp [SchedInv, sched_init, WorkerInv]

/-- The `added` field of a worker is at most 1 while the main thread waits. -/
theorem WorkerInv.added_le (target : Int) (ws : WorkerState)
    (h : WorkerInv .waiting target ws) : ws.added ≤ 1 := by
  exact h.2.2.1

/-- A step of the main thread keeps the invariant. -/
theorem main_loop_step_inv {N : Nat} (quit_flag : Bool) (s : SchedState N)
    (h : SchedInv s) : SchedInv (main_loop_step quit_flag s) := by
  obtain ⟨hsum, hsh, hF, hw⟩ := h
  unfold main_loop_step
  cases hc : s.main_pc <;> simp only [hc] at hsh hF hw ⊢
  · cases quit_flag <;> simp [SchedInv, hc, hsum, WorkerInv] at hF hw ⊢
    · exact ⟨by simpa [hc] using hsh, hF, hw⟩
    · refine ⟨hF, fun i => ?_⟩
      obtain ⟨h1, h2, h3, h4, h5⟩ := hw i
      exact ⟨h1, h2, h3, h4, by tauto⟩
  · simp [SchedInv, WorkerInv] at hF hw hsh ⊢
    refine ⟨hsh, hF, fun i => ?_⟩
    obtain ⟨h1, h2, _, h4, h5⟩ := hw i
    exact ⟨h1, h2, h4, h5⟩
  · simp [SchedInv, WorkerInv] at hF hw hsh ⊢
    refine ⟨hsum, hsh, fun i => ?_⟩
    obtain ⟨h1, h2, h3, h4, h5, h6⟩ := hw i
    exact ⟨h1, h2, h3, Or.inr (Or.inl ⟨by omega, h5, by tauto⟩)⟩
  · simp [SchedInv, WorkerInv] at hF hw hsh ⊢
    exact ⟨hsum, hsh, hF, hw⟩
  · by_cases hd : s.g_workersDoneCount = N
    · have hall := added_of_sum s.worker (fun i => WorkerInv.added_le _ _ (hw i))
        (hsum.symm.trans hd)
      simp [SchedInv, WorkerInv, hd] at hF hw hsh ⊢
      refine ⟨hd.symm.trans hsum, hsh, hF, fun i => ?_⟩
      have hi := hall i
      obtain ⟨h1, h2, h3, h4 | h4 | h4⟩ := hw i
      · exact ⟨h1, h2, h3, h4⟩
      · omega
      · omega
    · simp only [hd, if_false]
      exact ⟨hsum, by simpa [hc] using hsh, by simpa [hc] using hF, by simpa [hc] using hw⟩
  · simp [SchedInv, WorkerInv] at hF hw hsh ⊢
    refine ⟨hsum, hsh, by omega, fun i => ?_⟩
    obtain ⟨h1, h2, h3, h4, h5, h6, h7⟩ := hw i
    exact ⟨h1, h2, h3, h4, h7⟩
  · exact ⟨hsum, by simpa [hc] using hsh, by simpa [hc] using hF, by simpa [hc] using hw⟩

/-- A step of a worker keeps the invariant. -/
theorem worker_step_inv {N : Nat} (i : Fin N) (s : SchedState N) (h : SchedInv s) :
    SchedInv (sched_step (.worker i) s) := by
  obtain ⟨hsum, hsh, hF, hw⟩ := h
  obtain ⟨h1, h2⟩ := render_chunk_loop_step_inv N s.main_pc s.g_targetFrameId
    s.g_shutdownThreads s.g_currentFrameInfo s.g_workersDoneCount (s.worker i) hsh (hw i)
  have h3 := sum_added_update s.worker i (render_chunk_loop_step N s.g_targetFrameId
    s.g_shutdownThreads s.g_currentFrameInfo s.g_workersDoneCount (s.worker i)).1
  refine ⟨?_, hsh, hF, fun j => ?_⟩
  · simp only [sched_step]
    omega
  · simp only [sched_step]
    by_cases hj : j = i
    · subst hj
      rw [Function.update_same]
      exact h1
    · rw [Function.update_noteq hj]
      exact hw j

/-- The invariant holds after every schedule. -/
theorem sched_run_inv (N : Nat) (schedule : List (Thread N)) :
    SchedInv (sched_run N schedule) := by
  unfold sched_run
  have key : ∀ (l : List (Thread N)) (s : SchedState N), SchedInv s →
      SchedInv (l.foldl (fun s t => sched_step t s) s) := by
    intro l
    induction l with
    | nil => intro s hs; exact hs
    | cons t l ih =>
      intro s hs
      rw [List.foldl_cons]
      apply ih
      cases t with
      | main q => exact main_loop_step_inv q s hs
      | worker i => exact worker_step_inv i s hs
  exact key schedule _ (sched_init_inv N)

/-- C19: in the interleaving model of `render_chunk_loop` and the loop of `WinMain`, after
every schedule: the completion counter is at most `N`; no worker has completed the same
frame id twice; when the wait of the main thread has returned for the published frame
(before `frame_counter++`), every worker has rendered that frame and executed its
`fetch_add` for it exactly once, and is back at its wait or its `notify_one`; and a worker
is inside `render_chunk` only between the store of `g_targetFrameId` and the return of the
main thread's wait, so never while the main thread presents, reloads or republishes. -/
theorem frame_barrier (N : Nat) (schedule : List (Thread N)) :
    (sched_run N schedule).g_workersDoneCount ≤ N ∧
    (∀ i, ((sched_run N schedule).worker i).completed.Nodup) ∧
    ((sched_run N schedule).main_pc = .presenting →
      (sched_run N schedule).g_targetFrameId = (sched_run N schedule).frame_counter ∧
      (sched_run N schedule).g_workersDoneCount = N ∧
      ∀ i, ((sched_run N schedule).worker i).completed.count
              (sched_run N schedule).frame_counter = 1 ∧
           ((sched_run N schedule).worker i).added = 1 ∧
           (((sched_run N schedule).worker i).pc = .waiting ∨
            ((sched_run N schedule).worker i).pc = .notifying)) ∧
    (∀ i, ((sched_run N schedule).worker i).pc = .rendering →
      (sched_run N schedule).main_pc = .published ∨
      (sched_run N schedule).main_pc = .waiting) := by
  obtain ⟨hsum, hsh, hF, hw⟩ := sched_run_inv N schedule
  generalize sched_run N schedule = s at hsum hsh hF hw
  refine ⟨?_, fun i => (hw i).2.1, ?_, ?_⟩
  · rw [hsum]
    calc ∑ i, (s.worker i).added ≤ ∑ _i : Fin N, 1 :=
          Finset.sum_le_sum (fun i _ => (hw i).2.2.1)
      _ = N := by simp
  · intro hc
    simp only [hc] at hF hw
    simp at hF
    have hall : ∀ i, (s.worker i).added = 1 := fun i => by
      have := hw i
      simp only [WorkerInv] at this
      exact this.2.2.2.2.1
    refine ⟨hF.symm, ?_, fun i => ?_⟩
    · rw [hsum]
      simp [hall]
    · have := hw i
      simp only [WorkerInv] at this
      obtain ⟨_, hnd, _, _, h1, hmem, hpc⟩ := this
      rw [hF]
      exact ⟨List.count_eq_one_of_mem hnd hmem, h1, hpc⟩
  · intro i hpc
    have := hw i
    cases hc : s.main_pc <;> simp [hc, WorkerInv, hpc] at this ⊢

/-- C19 at the schedule `two_worker_schedule`: the wait of the main thread has returned, and
each of the two workers has completed frame 0 exactly once. -/
theorem frame_barrier_witness :
    (sched_run 2 two_worker_schedule).main_pc = .presenting ∧
    ∀ i, ((sched_run 2 two_worker_schedule).worker i).completed.count 0 = 1 :=
  ⟨by decide, fun i =>
    ((frame_barrier 2 two_worker_schedule).2.2.1 (by decide)).2.2 i |>.1⟩

end Barrier

/-! ## Pixel encoding -/

section Colour
variable {α : Type} [LinearOrderedField α]

/-- The word that the shifts and ORs of `vec3_to_uint32_color` build from three bytes. -/
theorem pack_bytes (r g b : Nat) (hr : r < 256) (hg : g < 256) (hb : b < 256) :
    ((0xFF <<< 24) ||| (r <<< 16) ||| (g <<< 8) ||| b) % 2 ^ 32 =
      4278190080 + r * 65536 + g * 256 + b := by
  have e1 : 0xFF <<< 24 = 2 ^ 24 * 255 := by decide
  have e2 : r <<< 16 = r * 2 ^ 16 := Nat.shiftLeft_eq r 16
  have e3 : g <<< 8 = g * 2 ^ 8 := Nat.shiftLeft_eq g 8
  have b1 : r * 2 ^ 16 < 2 ^ 24 := by omega
  have s1 := Nat.mul_add_lt_is_or b1 255
  have b2 : g * 2 ^ 8 < 2 ^ 16 := by omega
  have s2 := Nat.mul_add_lt_is_or b2 (255 * 2 ^ 8 + r)
  have b3 : b < 2 ^ 8 := by omega
  have s3 := Nat.mul_add_lt_is_or b3 (255 * 2 ^ 16 + r * 2 ^ 8 + g)
  have f1 : 2 ^ 16 * (255 * 2 ^ 8 + r) = 2 ^ 24 * 255 + r * 2 ^ 16 := by omega
  have f2 : 2 ^ 8 * (255 * 2 ^ 16 + r * 2 ^ 8 + g) = 2 ^ 24 * 255 + r * 2 ^ 16 + g * 2 ^ 8 := by
    omega
  rw [e1, e2, e3, ← s1, ← f1, ← s2, f1, ← f2, ← s3]
  omega

/-- The function `std::clamp` is monotone in its first argument. -/
theorem clamp_mono (x y lo hi : α) (hlh : lo ≤ hi) (h : x ≤ y) :
    clamp x lo hi ≤ clamp y lo hi := by
  unfold clamp
  split_ifs <;> linarith

end Colour

/-! ## Materials and the range of the radiance -/

section Range

variable {α : Type} [LinearOrderedField α] {G : Type}

/-- The constructor `Material::Material` stores reflectivity and roughness inside [0,1],
whatever the arguments; `base_color` and `emission_color` are stored as given, so
`base_color` lies in [0,1] exactly when the argument does. -/
theorem Material.ctor_ranges (material_id : String) (color : Vec3 α) (refl rough : α)
    (emission : Vec3 α) :
    (0 ≤ (Material.ctor material_id color refl rough emission).reflectivity ∧
      (Material.ctor material_id color refl rough emission).reflectivity ≤ 1) ∧
    (0 ≤ (Material.ctor material_id color refl rough emission).roughness ∧
      (Material.ctor material_id color refl rough emission).roughness ≤ 1) ∧
    (Material.ctor material_id color refl rough emission).base_color = color ∧
    (Material.ctor material_id color refl rough emission).emission_color = emission ∧
    ((Material.ctor material_id color refl rough emission).base_color.in_unit_range ↔
      color.in_unit_range) :=
  ⟨clamp_mem refl 0 1 zero_le_one, clamp_mem rough 0 1 zero_le_one, rfl, rfl, Iff.rfl⟩

/-- C21 does not hold of the constructor: `Material::Material` called with the colour
(2, 0.5, -1) stores that colour as `base_color`, whose red component is above 1 and whose
blue component is below 0, although Material.h line 10 documents the field as
`R,G,B from 0.0 to 1.0` and the same initialiser list clamps `reflectivity` and
`roughness`. -/
theorem Material.ctor_base_color_unclamped :
    (Material.ctor "m" (⟨2, 0.5, -1⟩ : Vec3 ℝ) 0 0 ⟨0, 0, 0⟩).base_color = ⟨2, 0.5, -1⟩ ∧
    ¬ (Material.ctor "m" (⟨2, 0.5, -1⟩ : Vec3 ℝ) 0 0 ⟨0, 0, 0⟩).base_color.x ≤ 1 ∧
    ¬ 0 ≤ (Material.ctor "m" (⟨2, 0.5, -1⟩ : Vec3 ℝ) 0 0 ⟨0, 0, 0⟩).base_color.z ∧
    ¬ (Material.ctor "m" (⟨2, 0.5, -1⟩ : Vec3 ℝ) 0 0 ⟨0, 0, 0⟩).base_color.in_unit_range := by
  refine ⟨rfl, ?_, ?_, ?_⟩
  · simp [Material.ctor]
  · simp [Material.ctor]
  · simp [Material.ctor, Vec3.in_unit_range]

/-- A blend `base * (1 - k) + reflected * k` of two values of [0,1] with `k` in [0,1] lies
in [0,1], also when either term is left out. -/
theorem blend_in_range (b r k : α) (hb : 0 ≤ b ∧ b ≤ 1) (hr : 0 ≤ r ∧ r ≤ 1)
    (hk : 0 ≤ k ∧ k ≤ 1) :
    (0 ≤ b * (1 - k) + r * k ∧ b * (1 - k) + r * k ≤ 1) ∧
    (0 ≤ b * (1 - k) ∧ b * (1 - k) ≤ 1) ∧
    (0 ≤ r * k ∧ r * k ≤ 1) := by
  have h1 : 0 ≤ 1 - k := by linarith
  have h2 : 0 ≤ b * (1 - k) := mul_nonneg hb.1 h1
  have h3 : b * (1 - k) ≤ 1 * (1 - k) := mul_le_mul_of_nonneg_right hb.2 h1
  have h4 : 0 ≤ r * k := mul_nonneg hr.1 hk.1
  have h5 : r * k ≤ 1 * k := mul_le_mul_of_nonneg_right hr.2 hk.1
  refine ⟨⟨by linarith, by linarith⟩, ⟨by linarith, by linarith⟩, ⟨by linarith, by linarith⟩⟩

/-- Range of the radiance by induction on the distance to the depth limit. -/
theorem trace_ray_range_aux (m : Libm α) (dist01 : G → α × G) (scene : Scene α)
    (hbg : scene.background_color.in_unit_range)
    (hmat : ∀ s ∈ scene.objects, s.material.emission_color = ⟨0, 0, 0⟩ ∧
      s.material.base_color.in_unit_range ∧
      0 ≤ s.material.reflectivity ∧ s.material.reflectivity ≤ 1) (n : Nat) :
    ∀ (ray : Ray α) (depth : Int) (rng : G), (scene.max_ray_depth - depth).toNat = n →
      (trace_ray m dist01 scene ray depth rng).radiance.in_unit_range := by
  induction n with
  | zero =>
    intro ray depth rng hn
    have h : depth ≥ scene.max_ray_depth := by omega
    rw [trace_ray_at_limit m dist01 scene ray depth rng h]
    simp [Vec3.in_unit_range]
  | succ k ih =>
    intro ray depth rng hn
    have h : depth < scene.max_ray_depth := by omega
    cases hs : (scan m scene.objects ray depth).hit_sphere with
    | none =>
      rw [trace_ray_miss m dist01 scene ray depth rng h hs]
      exact hbg
    | some hit_sphere =>
      obtain ⟨hem, hbase, hk0, hk1⟩ :=
        hmat hit_sphere (scan_hit_mem m ray depth scene.objects hit_sphere hs)
      rw [trace_ray_hit m dist01 scene ray depth rng h hit_sphere hs]
      simp only []
      have hr := ih
          (reflection_ray m dist01 hit_sphere.material ray
            (scan m scene.objects ray depth).hit_point
            (scan m scene.objects ray depth).surface_normal rng).1 (depth + 1)
          (reflection_ray m dist01 hit_sphere.material ray
            (scan m scene.objects ray depth).hit_point
            (scan m scene.objects ray depth).surface_normal rng).2.1 (by omega)
      generalize (trace_ray m dist01 scene _ (depth + 1) _) = reflected at hr ⊢
      obtain ⟨hx, hy, hz⟩ := hbase
      obtain ⟨rx, ry, rz⟩ := hr
      have bx := blend_in_range _ _ _ hx rx ⟨hk0, hk1⟩
      have bY := blend_in_range _ _ _ hy ry ⟨hk0, hk1⟩
      have bz := blend_in_range _ _ _ hz rz ⟨hk0, hk1⟩
      simp only [hem]
      split_ifs <;> simp only [Vec3.in_unit_range, Vec3.add, Vec3.mul, zero_add] <;>
        first
        | exact ⟨bx.1, bY.1, bz.1⟩
        | exact ⟨bx.2.1, bY.2.1, bz.2.1⟩
        | exact ⟨bx.2.2, bY.2.2, bz.2.2⟩
        | simp

/-- C27: in a scene whose background colour lies in [0,1] and whose spheres carry materials
built by `Material::Material` with zero emission and a base colour in [0,1], `trace_ray`
returns a radiance whose three components lie in [0,1], for every ray, every depth and
every generator. -/
theorem trace_ray_radiance_in_range (m : Libm α) (dist01 : G → α × G) (scene : Scene α)
    (hbg : scene.background_color.in_unit_range)
    (hmat : ∀ s ∈ scene.objects, s.material.emission_color = ⟨0, 0, 0⟩ ∧
      s.material.base_color.in_unit_range ∧
      ∃ (material_id : String) (color : Vec3 α) (refl rough : α) (emission : Vec3 α),
        s.material = Material.ctor material_id color refl rough emission)
    (ray : Ray α) (depth : Int) (rng : G) :
    (trace_ray m dist01 scene ray depth rng).radiance.in_unit_range := by
  refine trace_ray_range_aux m dist01 scene hbg (fun s hs => ?_) _ ray depth rng rfl
  obtain ⟨hem, hbase, material_id, color, refl, rough, emission, hctor⟩ := hmat s hs
  refine ⟨hem, hbase, ?_⟩
  rw [hctor]
  exact clamp_mem refl 0 1 zero_le_one

/-- C27 on the scene of the rough mirror sphere and the black sphere, for the ray down the
negative z axis and the generator that draws 0.25 and 0.5. -/
theorem trace_ray_radiance_in_range_witness :
    ((two_sphere_scene : Scene ℝ).background_color.in_unit_range ∧
      ∀ s ∈ (two_sphere_scene : Scene ℝ).objects, s.material.emission_color = ⟨0, 0, 0⟩ ∧
        s.material.base_color.in_unit_range ∧
        ∃ (material_id : String) (color : Vec3 ℝ) (refl rough : ℝ) (emission : Vec3 ℝ),
          s.material = Material.ctor material_id color refl rough emission) ∧
    (trace_ray (Libm.mk Real.sqrt Real.cos Real.sin Real.tan (fun y x => Complex.arg ⟨x, y⟩))
      draw_from_list two_sphere_scene ray_ahead 0 [0.25, 0.5]).radiance.in_unit_range := by
  have hbg : (two_sphere_scene : Scene ℝ).background_color.in_unit_range := by
    simp [two_sphere_scene, Vec3.in_unit_range]
  have hmat : ∀ s ∈ (two_sphere_scene : Scene ℝ).objects,
      s.material.emission_color = ⟨0, 0, 0⟩ ∧ s.material.base_color.in_unit_range ∧
      ∃ (material_id : String) (color : Vec3 ℝ) (refl rough : ℝ) (emission : Vec3 ℝ),
        s.material = Material.ctor material_id color refl rough emission := by
    intro s hs
    simp only [two_sphere_scene, List.mem_cons, List.mem_singleton, List.not_mem_nil,
      or_false] at hs
    rcases hs with rfl | rfl
    · refine ⟨rfl, ?_, _, _, _, _, _, rfl⟩
      simp only [mirror_sphere, rough_mirror, Material.ctor, Vec3.in_unit_range]
      norm_num
    · refine ⟨rfl, ?_, _, _, _, _, _, rfl⟩
      simp only [black_sphere, black_material, Material.ctor, Vec3.in_unit_range]
      norm_num
  exact ⟨⟨hbg, hmat⟩, trace_ray_radiance_in_range _ draw_from_list two_sphere_scene hbg hmat
    ray_ahead 0 [0.25, 0.5]⟩

end Range

/-! ## The nearest hit -/

section Nearest

variable {α : Type} [LinearOrderedField α] {G : Type}

/-- The minimum distance is positive. -/
theorem t_min_check_pos (depth : Int) : (0 : α) < t_min_check depth := by
  unfold t_min_check REFLECTION_EPSILON
  split_ifs <;> norm_num

/-- One iteration of the scan, with the minimum distance named. -/
theorem scan_step_eq (m : Libm α) (ray : Ray α) (depth : Int) (st : ScanState α)
    (s : Sphere α) :
    scan_step m ray depth st s =
      match s.intersect m ray with
      | some h =>
        if h.t_out > t_min_check depth ∧ (st.closest_t < 0 ∨ h.t_out < st.closest_t) then
          ⟨h.t_out, some s, h.hit_point_out, h.normal_at_hit_out⟩
        else st
      | none => st := rfl

/-- The scan keeps the nearest sphere found so far, the earlier one on equal distances. -/
theorem scan_nearest (m : Libm α) (ray : Ray α) (depth : Int) (objects : List (Sphere α)) :
    ScanState.Nearest m ray depth objects (scan m objects ray depth) := by
  unfold scan
  induction objects using List.reverseRecOn with
  | nil => exact Or.inl ⟨rfl, fun s hs => absurd hs (List.not_mem_nil s)⟩
  | append_singleton pre s0 ih =>
    rw [List.foldl_append, List.foldl_cons, List.foldl_nil, scan_step_eq]
    generalize List.foldl (scan_step m ray depth) scan_init pre = st at ih
    have hpos : (0 : α) < t_min_check depth := t_min_check_pos depth
    rcases ih with ⟨hinit, hnone⟩ | ⟨s, h, before, after, hst, hpre, hi, hgt, hbefore, hafter⟩
    · cases hi0 : s0.intersect m ray with
      | none =>
        refine Or.inl ⟨hinit, fun s hs h hi => ?_⟩
        rcases List.mem_append.mp hs with h1 | h1
        · exact hnone s h1 h hi
        · rw [List.mem_singleton.mp h1, hi0] at hi
          exact absurd hi (by simp)
      | some h0 =>
        by_cases hgt : h0.t_out > t_min_check depth
        · refine Or.inr ⟨s0, h0, pre, [], ?_, rfl, hi0, hgt, ?_, ?_⟩
          · have hc : st.closest_t < 0 := by rw [hinit]; simp [scan_init]
            simp only [hgt, hc, true_or, and_self, if_true]
          · intro s1 hs1 h1 hi1 hgt1
            exact absurd hgt1 (hnone s1 hs1 h1 hi1)
          · intro s1 hs1
            exact absurd hs1 (List.not_mem_nil s1)
        · refine Or.inl ⟨?_, fun s hs h hi => ?_⟩
          · simp only [hgt, false_and, if_false]
            exact hinit
          · rcases List.mem_append.mp hs with h1 | h1
            · exact hnone s h1 h hi
            · rw [List.mem_singleton.mp h1, hi0] at hi
              rw [← Option.some.inj hi]
              exact hgt
    · have hc : ¬ st.closest_t < 0 := by
        rw [hst]
        exact not_lt.mpr (le_of_lt (lt_trans hpos hgt))
      have hct : st.closest_t = h.t_out := by rw [hst]
      cases hi0 : s0.intersect m ray with
      | none =>
        refine Or.inr ⟨s, h, before, after ++ [s0], hst, ?_, hi, hgt, hbefore, ?_⟩
        · rw [hpre]; simp
        · intro s1 hs1 h1 hi1 hgt1
          rcases List.mem_append.mp hs1 with h2 | h2
          · exact hafter s1 h2 h1 hi1 hgt1
          · rw [List.mem_singleton.mp h2, hi0] at hi1
            exact absurd hi1 (by simp)
      | some h0 =>
        by_cases hlt : h0.t_out > t_min_check depth ∧ h0.t_out < h.t_out
        · refine Or.inr ⟨s0, h0, pre, [], ?_, rfl, hi0, hlt.1, ?_, ?_⟩
          · simp [hlt.1, hct, hlt.2]
          · intro s1 hs1 h1 hi1 hgt1
            rw [hpre] at hs1
            rcases List.mem_append.mp hs1 with h2 | h2
            · exact lt_trans hlt.2 (hbefore s1 h2 h1 hi1 hgt1)
            · rcases List.mem_cons.mp h2 with h3 | h3
              · rw [h3, hi] at hi1
                rw [← Option.some.inj hi1]
                exact hlt.2
              · exact lt_of_lt_of_le hlt.2 (hafter s1 h3 h1 hi1 hgt1)
          · intro s1 hs1
            exact absurd hs1 (List.not_mem_nil s1)
        · refine Or.inr ⟨s, h, before, after ++ [s0], ?_, ?_, hi, hgt, hbefore, ?_⟩
          · have hcond : ¬ (h0.t_out > t_min_check depth ∧
                (st.closest_t < 0 ∨ h0.t_out < st.closest_t)) := by
              rintro ⟨h1, h2 | h2⟩
              · exact hc h2
              · exact hlt ⟨h1, hct ▸ h2⟩
            simp only [hcond, if_false]
            exact hst
          · rw [hpre]; simp
          · intro s1 hs1 h1 hi1 hgt1
            rcases List.mem_append.mp hs1 with h2 | h2
            · exact hafter s1 h2 h1 hi1 hgt1
            · rw [List.mem_singleton.mp h2, hi0] at hi1
              rw [← Option.some.inj hi1]
              by_contra hcon
              exact hlt ⟨(Option.some.inj hi1) ▸ hgt1, not_le.mp hcon⟩

/-- The distance relation `distinct_hits` is symmetric. -/
theorem distinct_hits_symm (m : Libm α) (ray : Ray α) :
    Symmetric (distinct_hits m ray) := by
  intro s1 s2 h12 h2 h1 hi2 hi1 heq
  exact h12 h1 h2 hi1 hi2 heq.symm

/-- The order of the spheres does not matter to the scan when no two of them report the
same distance. -/
theorem scan_perm (m : Libm α) (ray : Ray α) (depth : Int) (objects objects1 : List (Sphere α))
    (hp : objects1.Perm objects) (hd : objects.Pairwise (distinct_hits m ray)) :
    scan m objects1 ray depth = scan m objects ray depth := by
  have hmin : ∀ (l : List (Sphere α)) (s : Sphere α) (h : Hit α) (before after : List (Sphere α)),
      l = before ++ s :: after → s.intersect m ray = some h →
      (∀ s1 ∈ before, ∀ h1, s1.intersect m ray = some h1 → h1.t_out > t_min_check depth →
        h.t_out < h1.t_out) →
      (∀ s1 ∈ after, ∀ h1, s1.intersect m ray = some h1 → h1.t_out > t_min_check depth →
        h.t_out ≤ h1.t_out) →
      ∀ s1 ∈ l, ∀ h1, s1.intersect m ray = some h1 → h1.t_out > t_min_check depth →
        h.t_out ≤ h1.t_out := by
    intro l s h before after hl hi hb ha s1 hs1 h1 hi1 hgt1
    rw [hl] at hs1
    rcases List.mem_append.mp hs1 with h2 | h2
    · exact le_of_lt (hb s1 h2 h1 hi1 hgt1)
    · rcases List.mem_cons.mp h2 with h3 | h3
      · rw [h3, hi] at hi1
        rw [← Option.some.inj hi1]
      · exact ha s1 h3 h1 hi1 hgt1
  have hmem : ∀ (l : List (Sphere α)) (s : Sphere α) (before after : List (Sphere α)),
      l = before ++ s :: after → s ∈ l := by
    intro l s before after hl
    rw [hl]
    exact List.mem_append_right _ (List.mem_cons_self _ _)
  rcases scan_nearest m ray depth objects with
    ⟨hinit, hnone⟩ | ⟨s, h, before, after, hst, hpre, hi, hgt, hbefore, hafter⟩
  · rcases scan_nearest m ray depth objects1 with
      ⟨hinit1, _⟩ | ⟨s1, h1, before1, after1, _, hpre1, hi1, hgt1, _, _⟩
    · rw [hinit, hinit1]
    · exact absurd hgt1 (hnone s1 (hp.mem_iff.mp (hmem _ _ _ _ hpre1)) h1 hi1)
  · rcases scan_nearest m ray depth objects1 with
      ⟨_, hnone1⟩ | ⟨s1, h1, before1, after1, hst1, hpre1, hi1, hgt1, hbefore1, hafter1⟩
    · exact absurd hgt (hnone1 s (hp.mem_iff.mpr (hmem _ _ _ _ hpre)) h hi)
    · have hs1 : s1 ∈ objects := hp.mem_iff.mp (hmem _ _ _ _ hpre1)
      have hs : s ∈ objects := hmem _ _ _ _ hpre
      have hle := hmin objects s h before after hpre hi hbefore hafter s1 hs1 h1 hi1 hgt1
      have hle1 := hmin objects1 s1 h1 before1 after1 hpre1 hi1 hbefore1 hafter1 s
        (hp.mem_iff.mpr hs) h hi hgt
      by_cases heq : s = s1
      · subst heq
        rw [hi] at hi1
        rw [hst, hst1, Option.some.inj hi1]
      · exact absurd (le_antisymm hle hle1)
          (hd.forall (distinct_hits_symm m ray) hs hs1 heq h h1 hi hi1)

/-- The order of the spheres does not matter to `trace_ray` when, for every ray, no two of
them report the same distance. -/
theorem trace_ray_perm_aux (m : Libm α) (dist01 : G → α × G) (scene : Scene α)
    (objects1 : List (Sphere α)) (hp : objects1.Perm scene.objects)
    (hd : ∀ ray : Ray α, scene.objects.Pairwise (distinct_hits m ray)) (n : Nat) :
    ∀ (ray : Ray α) (depth : Int) (rng : G), (scene.max_ray_depth - depth).toNat = n →
      trace_ray m dist01 (scene.with_objects objects1) ray depth rng =
        trace_ray m dist01 scene ray depth rng := by
  induction n with
  | zero =>
    intro ray depth rng hn
    have h : depth ≥ scene.max_ray_depth := by omega
    rw [trace_ray_at_limit m dist01 scene ray depth rng h,
      trace_ray_at_limit m dist01 (scene.with_objects objects1) ray depth rng h]
  | succ k ih =>
    intro ray depth rng hn
    have h : depth < scene.max_ray_depth := by omega
    have h1 : depth < (scene.with_objects objects1).max_ray_depth := h
    have hscan : scan m (scene.with_objects objects1).objects ray depth =
        scan m scene.objects ray depth := scan_perm m ray depth _ _ hp (hd ray)
    have hlen : (scene.with_objects objects1).objects.length = scene.objects.length :=
      hp.length_eq
    cases hs : (scan m scene.objects ray depth).hit_sphere with
    | none =>
      rw [trace_ray_miss m dist01 scene ray depth rng h hs,
        trace_ray_miss m dist01 (scene.with_objects objects1) ray depth rng h1
          (hscan ▸ hs), hlen]
      rfl
    | some hit_sphere =>
      rw [trace_ray_hit m dist01 scene ray depth rng h hit_sphere hs,
        trace_ray_hit m dist01 (scene.with_objects objects1) ray depth rng h1 hit_sphere
          (hscan ▸ hs), hscan, hlen]
      simp only []
      rw [ih _ (depth + 1) _ (by omega)]

/-- What a reported hit says: the direction is not zero, `t_out` exceeds 1e-4 and solves the
quadratic, the hit point is `origin + direction * t_out` and lies on the sphere, and the
normal is the normalized vector from the centre to the hit point. -/
theorem Sphere.intersect_some {m : Libm α} (hm : m.ExactSqrt) (s : Sphere α) (ray : Ray α)
    (h : Hit α) (hi : s.intersect m ray = some h) :
    0 < Vec3.dot ray.direction ray.direction ∧ h.t_out > 1e-4 ∧
    s.quadratic ray h.t_out = 0 ∧
    h.hit_point_out = ray.origin.add (ray.direction.mul h.t_out) ∧
    (h.hit_point_out.sub s.center).length_squared = s.radius * s.radius ∧
    h.normal_at_hit_out = (h.hit_point_out.sub s.center).normalize m := by
  have ha : 0 < Vec3.dot ray.direction ray.direction := by
    by_contra hna
    have hd : ray.direction = ⟨0, 0, 0⟩ := by
      by_contra hne
      exact hna (Vec3.dot_self_pos _ hne)
    have he : ¬ (0 : α) > 1e-4 := by norm_num
    have he1 : ¬ (-1 : α) > 0 := by norm_num
    unfold Sphere.intersect at hi
    simp only [hd, Vec3.dot, mul_zero, add_zero, zero_mul, sub_zero, lt_irrefl, if_false,
      div_zero, he, false_and, he1] at hi
    exact absurd hi (by simp)
  have hon : ∀ t : α, ((ray.origin.add (ray.direction.mul t)).sub s.center).length_squared
      = s.quadratic ray t + s.radius * s.radius := by
    intro t
    simp only [Sphere.quadratic, Vec3.length_squared, Vec3.sub, Vec3.add, Vec3.mul, Vec3.dot]
    ring
  rw [Sphere.intersect_cases hm s ray ha] at hi
  simp only [] at hi
  have hquad : ∀ t : α, s.quadratic ray t =
      Vec3.dot ray.direction ray.direction * (t * t) +
      2 * Vec3.dot (ray.origin.sub s.center) ray.direction * t +
      (Vec3.dot (ray.origin.sub s.center) (ray.origin.sub s.center)
        - s.radius * s.radius) := fun t => by
    unfold Sphere.quadratic
    ring
  generalize Vec3.dot ray.direction ray.direction = a at ha hi hquad
  generalize 2 * Vec3.dot (ray.origin.sub s.center) ray.direction = b at hi hquad
  generalize Vec3.dot (ray.origin.sub s.center) (ray.origin.sub s.center)
    - s.radius * s.radius = c at hi hquad
  have hdisc : discrim a b c = b * b - 4 * a * c := by unfold discrim; ring
  by_cases hD : b * b - 4 * a * c < 0
  · simp [hD] at hi
  · simp only [if_neg hD] at hi
    have hD0 := not_lt.mp hD
    have hsq := hm.sqrt_mul_self _ hD0
    generalize m.sqrt (b * b - 4 * a * c) = sq at hsq hi
    have hroot : ∀ t : α, a * (t * t) + b * t + c = 0 ↔
        t = (-b + sq) / (2 * a) ∨ t = (-b - sq) / (2 * a) :=
      quadratic_eq_zero_iff ha.ne' (hdisc.trans hsq.symm)
    split_ifs at hi with h0 h1
    · cases Option.some.inj hi
      have hq : s.quadratic ray ((-b - sq) / (2 * a)) = 0 := by
        rw [hquad]; exact (hroot _).mpr (Or.inr rfl)
      exact ⟨ha, h0, hq, rfl, by rw [hon, hq, zero_add], rfl⟩
    · cases Option.some.inj hi
      have hq : s.quadratic ray ((-b + sq) / (2 * a)) = 0 := by
        rw [hquad]; exact (hroot _).mpr (Or.inl rfl)
      exact ⟨ha, h1, hq, rfl, by rw [hon, hq, zero_add], rfl⟩

/-- Two spheres whose centres are too far apart for their surfaces to meet never report the
same distance. -/
theorem distinct_hits_of_far {m : Libm α} (hm : m.ExactSqrt) (s1 s2 : Sphere α)
    (hfar : 2 * (s1.radius * s1.radius + s2.radius * s2.radius) <
      (s1.center.sub s2.center).length_squared) (ray : Ray α) :
    distinct_hits m ray s1 s2 := by
  intro h1 h2 hi1 hi2 heq
  obtain ⟨_, _, _, hp1, hon1, _⟩ := Sphere.intersect_some hm s1 ray h1 hi1
  obtain ⟨_, _, _, hp2, hon2, _⟩ := Sphere.intersect_some hm s2 ray h2 hi2
  rw [hp1] at hon1
  rw [hp2, ← heq] at hon2
  generalize ray.origin.add (ray.direction.mul h1.t_out) = p at hon1 hon2
  simp only [Vec3.length_squared, Vec3.sub] at hon1 hon2 hfar
  nlinarith [sq_nonneg (p.x - s1.center.x + (p.x - s2.center.x)),
    sq_nonneg (p.y - s1.center.y + (p.y - s2.center.y)),
    sq_nonneg (p.z - s1.center.z + (p.z - s2.center.z))]

/-- C25: the sphere that the scan of `trace_ray` ends with reports the least distance among
the spheres of the scene that report a hit beyond the minimum distance, and is the first in
the scene's order among those that report that least distance; the scan ends with no sphere
exactly when none reports such a hit; below the depth limit `trace_ray` shades that sphere;
and when no two spheres report the same distance, the scan and `trace_ray` give the same
result for every order of the spheres. -/
theorem trace_ray_nearest_hit (m : Libm α) (dist01 : G → α × G) (scene : Scene α)
    (ray : Ray α) (depth : Int) :
    (∀ s, (scan m scene.objects ray depth).hit_sphere = some s →
      ∃ (h : Hit α) (before after : List (Sphere α)),
        scene.objects = before ++ s :: after ∧ s.intersect m ray = some h ∧
        h.t_out > t_min_check depth ∧
        (scan m scene.objects ray depth).closest_t = h.t_out ∧
        (scan m scene.objects ray depth).hit_point = h.hit_point_out ∧
        (scan m scene.objects ray depth).surface_normal = h.normal_at_hit_out ∧
        (∀ s1 ∈ scene.objects, ∀ h1, s1.intersect m ray = some h1 →
          h1.t_out > t_min_check depth → h.t_out ≤ h1.t_out) ∧
        (∀ s1 ∈ before, ∀ h1, s1.intersect m ray = some h1 →
          h1.t_out > t_min_check depth → h.t_out < h1.t_out)) ∧
    ((scan m scene.objects ray depth).hit_sphere = none ↔
      ∀ s ∈ scene.objects, ∀ h, s.intersect m ray = some h → ¬ h.t_out > t_min_check depth) ∧
    (depth < scene.max_ray_depth → ∀ s, (scan m scene.objects ray depth).hit_sphere = some s →
      ∀ rng : G,
        (s.material.reflectivity > 1e-5 →
          (trace_ray m dist01 scene ray depth rng).radiance =
            ((if 1 - s.material.reflectivity > 1e-5 then
                s.material.emission_color.add
                  (s.material.base_color.mul (1 - s.material.reflectivity))
              else s.material.emission_color).add
              ((trace_ray m dist01 scene
                (reflection_ray m dist01 s.material ray
                  (scan m scene.objects ray depth).hit_point
                  (scan m scene.objects ray depth).surface_normal rng).1 (depth + 1)
                (reflection_ray m dist01 s.material ray
                  (scan m scene.objects ray depth).hit_point
                  (scan m scene.objects ray depth).surface_normal rng).2.1).radiance.mul
                s.material.reflectivity))) ∧
        (¬ s.material.reflectivity > 1e-5 →
          (trace_ray m dist01 scene ray depth rng).radiance =
            (if 1 - s.material.reflectivity > 1e-5 then
                s.material.emission_color.add
                  (s.material.base_color.mul (1 - s.material.reflectivity))
              else s.material.emission_color))) ∧
    (∀ objects1 : List (Sphere α), objects1.Perm scene.objects →
      scene.objects.Pairwise (distinct_hits m ray) →
      scan m objects1 ray depth = scan m scene.objects ray depth) ∧
    (∀ objects1 : List (Sphere α), objects1.Perm scene.objects →
      (∀ ray1 : Ray α, scene.objects.Pairwise (distinct_hits m ray1)) →
      ∀ rng : G, trace_ray m dist01 (scene.with_objects objects1) ray depth rng =
        trace_ray m dist01 scene ray depth rng) := by
  refine ⟨?_, ?_, ?_, ?_, ?_⟩
  · intro s hs
    rcases scan_nearest m ray depth scene.objects with
      ⟨hinit, _⟩ | ⟨s0, h, before, after, hst, hpre, hi, hgt, hbefore, hafter⟩
    · rw [hinit] at hs
      simp [scan_init] at hs
    · rw [hst] at hs ⊢
      cases Option.some.inj hs
      refine ⟨h, before, after, hpre, hi, hgt, rfl, rfl, rfl, ?_, hbefore⟩
      intro s1 hs1 h1 hi1 hgt1
      rw [hpre] at hs1
      rcases List.mem_append.mp hs1 with h2 | h2
      · exact le_of_lt (hbefore s1 h2 h1 hi1 hgt1)
      · rcases List.mem_cons.mp h2 with h3 | h3
        · rw [h3, hi] at hi1
          rw [← Option.some.inj hi1]
        · exact hafter s1 h3 h1 hi1 hgt1
  · rcases scan_nearest m ray depth scene.objects with
      ⟨hinit, hnone⟩ | ⟨s0, h, before, after, hst, hpre, hi, hgt, _, _⟩
    · rw [hinit]
      exact ⟨fun _ => hnone, fun _ => rfl⟩
    · rw [hst]
      refine ⟨fun hn => by simp at hn, fun hall => ?_⟩
      exact absurd hgt (hall s0 (by rw [hpre]; simp) h hi)
  · intro hdepth s hs rng
    rw [trace_ray_hit m dist01 scene ray depth rng hdepth s hs]
    simp only []
    refine ⟨fun hr => ?_, fun hr => ?_⟩
    · rw [if_pos hr]
    · rw [if_neg hr]
  · intro objects1 hp hd
    exact scan_perm m ray depth _ _ hp hd
  · intro objects1 hp hd rng
    exact trace_ray_perm_aux m dist01 scene objects1 hp hd _ ray depth rng rfl

/-- C25 on the scene of the mirror sphere and the black sphere, whose surfaces do not meet:
with the two spheres in the other order `trace_ray` returns the same result. -/
theorem trace_ray_nearest_hit_witness :
    ([black_sphere, mirror_sphere].Perm (two_sphere_scene : Scene ℝ).objects ∧
      ∀ ray1 : Ray ℝ, (two_sphere_scene : Scene ℝ).objects.Pairwise
        (distinct_hits
          (Libm.mk Real.sqrt Real.cos Real.sin Real.tan (fun y x => Complex.arg ⟨x, y⟩)) ray1)) ∧
    trace_ray (Libm.mk Real.sqrt Real.cos Real.sin Real.tan (fun y x => Complex.arg ⟨x, y⟩))
        draw_from_list ((two_sphere_scene : Scene ℝ).with_objects [black_sphere, mirror_sphere])
        ray_ahead 0 [0.25, 0.5] =
      trace_ray (Libm.mk Real.sqrt Real.cos Real.sin Real.tan (fun y x => Complex.arg ⟨x, y⟩))
        draw_from_list two_sphere_scene ray_ahead 0 [0.25, 0.5] := by
  have hp : [black_sphere, mirror_sphere].Perm (two_sphere_scene : Scene ℝ).objects :=
    List.Perm.swap _ _ _
  have hd : ∀ ray1 : Ray ℝ, (two_sphere_scene : Scene ℝ).objects.Pairwise
      (distinct_hits
        (Libm.mk Real.sqrt Real.cos Real.sin Real.tan (fun y x => Complex.arg ⟨x, y⟩))
        ray1) := by
    intro ray1
    simp only [two_sphere_scene, List.pairwise_cons, List.mem_singleton, forall_eq,
      List.not_mem_nil, false_implies, implies_true, List.Pairwise.nil, and_true]
    apply distinct_hits_of_far real_sqrt_exact
    simp only [mirror_sphere, black_sphere, Vec3.sub, Vec3.length_squared]
    norm_num
  exact ⟨⟨hp, hd⟩, (trace_ray_nearest_hit _ draw_from_list two_sphere_scene ray_ahead 0).2.2.2.2
    [black_sphere, mirror_sphere] hp hd [0.25, 0.5]⟩

end Nearest

/-! ## The reflected ray -/

section Reflect

variable {α : Type} [LinearOrderedField α] {G : Type}

end Reflect

/-! ## The scene loader -/

section LoaderGlobals
variable {α : Type}

/-- The line number does not influence what a global settings line does. -/
theorem load_globals_number (P : StrConv α) (st : LoadState α) (k : Int)
    (tokens : List String) :
    load_globals P { st with line_number := k } tokens =
      { load_globals P st tokens with line_number := k } := by
  unfold load_globals
  split_ifs
  · rfl
  · cases P.stoi (tokens.getD 0 "") with
    | none => rfl
    | some d =>
      cases P.stoi (tokens.getD 1 "") with
      | none => rfl
      | some s =>
        cases P.stod (tokens.getD 2 "") with
        | none => rfl
        | some r =>
          cases P.stod (tokens.getD 3 "") with
          | none => rfl
          | some g =>
            cases P.stod (tokens.getD 4 "") with
            | none => rfl
            | some b => rfl

end LoaderGlobals

section Loader
variable {α : Type} [LinearOrderedField α]

/-- The loop of `split_string` yields at least one token unless nothing is left to read. -/
theorem split_string_loop_ne_nil (delimiter : Char) (s : List Char) :
    ∀ token : List Char, s ≠ [] ∨ token ≠ [] → split_string_loop delimiter s token ≠ [] := by
  induction s with
  | nil =>
    intro token h
    rcases h with h | h
    · exact absurd rfl h
    · simp [split_string_loop, h]
  | cons c rest ih =>
    intro token _
    unfold split_string_loop
    split_ifs
    · simp
    · exact ih (c :: token) (Or.inr (by simp))

/-- The loop of `split_string` yields at most one token more than there are delimiters. -/
theorem split_string_loop_length (delimiter : Char) (s : List Char) :
    ∀ token : List Char,
      (split_string_loop delimiter s token).length ≤ s.count delimiter + 1 := by
  induction s with
  | nil =>
    intro token
    unfold split_string_loop
    split_ifs <;> simp
  | cons c rest ih =>
    intro token
    unfold split_string_loop
    split_ifs with h
    · rw [h, List.length_cons, List.count_cons_self]
      exact Nat.succ_le_succ (ih [])
    · rw [List.count_cons_of_ne (fun hc => h hc.symm)]
      exact ih (c :: token)

/-- The first token that the loop of `split_string` yields starts with the token being
read. -/
theorem split_string_loop_head (delimiter : Char) (s : List Char) :
    ∀ (token t0 : List Char) (rest : List (List Char)),
      split_string_loop delimiter s token = t0 :: rest →
      ∃ suffix, t0 = token.reverse ++ suffix := by
  induction s with
  | nil =>
    intro token t0 rest h
    unfold split_string_loop at h
    split_ifs at h
    simp at h
    exact ⟨[], by rw [← h.1]; simp⟩
  | cons c more ih =>
    intro token t0 rest h
    unfold split_string_loop at h
    split_ifs at h
    · simp at h
      exact ⟨[], by rw [← h.1]; simp⟩
    · obtain ⟨suffix, hs⟩ := ih (c :: token) t0 rest h
      exact ⟨c :: suffix, by simp [hs]⟩

/-- A line whose first token starts with a character other than '#' is not skipped. -/
theorem not_skipped_of_tokens (raw : String) (t0 : String) (rest : List String) (c : Char)
    (ht : line_tokens raw = t0 :: rest) (hc : t0.data.head? = some c) (hne : c ≠ '#') :
    is_skipped raw = false := by
  unfold line_tokens split_string at ht
  unfold is_skipped
  generalize trim_line raw.data = line at ht ⊢
  cases line with
  | nil => simp [split_string_loop] at ht
  | cons c0 more =>
    have hc0 : c0 = c := by
      unfold split_string_loop at ht
      split_ifs at ht with h
      · simp at ht
        rw [← ht.1] at hc
        simp at hc
      · rcases hl : split_string_loop ';' more [c0] with _ | ⟨u0, us⟩
        · rw [hl] at ht
          simp at ht
        · obtain ⟨suffix, hs⟩ := split_string_loop_head ';' more [c0] u0 us hl
          rw [hl] at ht
          simp at ht
          rw [← ht.1, hs] at hc
          simpa using hc
    simp [hc0, hne]

/-- A line that is not skipped has at least one token. -/
theorem line_tokens_ne_nil (raw : String) (h : is_skipped raw = false) :
    line_tokens raw ≠ [] := by
  unfold is_skipped at h
  unfold line_tokens split_string
  have hne : trim_line raw.data ≠ [] := by
    intro h0
    simp [h0] at h
  simpa using split_string_loop_ne_nil ';' _ [] (Or.inl hne)

/-- A skipped line changes the line number only. -/
theorem load_line_skipped (P : StrConv α) (st : LoadState α) (raw : String)
    (h : is_skipped raw = true) (hs : st.stopped = false) :
    load_line P st raw = { st with line_number := st.line_number + 1 } := by
  simp [load_line, h, hs]

/-- Skipped lines change the line number only. -/
theorem load_lines_skipped (P : StrConv α) (lines : List String)
    (h : ∀ x ∈ lines, is_skipped x = true) :
    ∀ st : LoadState α, st.stopped = false →
      lines.foldl (load_line P) st =
        { st with line_number := st.line_number + lines.length } := by
  induction lines with
  | nil => intro st _; simp
  | cons x rest ih =>
    intro st hs
    rw [List.foldl_cons, load_line_skipped P st x (h x (List.mem_cons_self _ _)) hs,
      ih (fun y hy => h y (List.mem_cons_of_mem _ hy))
        { st with line_number := st.line_number + 1 } hs]
    simp only [List.length_cons, Nat.cast_add, Nat.cast_one, LoadState.mk.injEq, true_and,
      and_true]
    ring

/-- Once the loop has been left, the remaining lines are not read. -/
theorem load_lines_stopped (P : StrConv α) (lines : List String) :
    ∀ st : LoadState α, st.stopped = true → lines.foldl (load_line P) st = st := by
  induction lines with
  | nil => intro st _; rfl
  | cons x rest ih =>
    intro st hs
    have h1 : load_line P st x = st := by simp [load_line, hs]
    rw [List.foldl_cons, h1]
    exact ih st hs

/-- The state of the loop after leading blank and comment lines. -/
theorem load_lines_leading (P : StrConv α) (pre : List String)
    (hpre : ∀ x ∈ pre, is_skipped x = true) :
    load_lines P pre = ({ load_init with line_number := pre.length } : LoadState α) := by
  unfold load_lines
  rw [load_lines_skipped P pre hpre load_init rfl]
  simp [load_init]

/-- C22: when the first line that is neither blank nor a comment yields fewer than 5 tokens,
`load_scene_from_file` returns the default scene, whatever the remaining lines are; the
number of tokens is at most the number of ';'-separated fields of the line. -/
theorem load_scene_short_globals (P : StrConv α) (pre : List String) (l : String)
    (rest : List String) (hpre : ∀ x ∈ pre, is_skipped x = true)
    (hl : is_skipped l = false) (hfew : (line_tokens l).length < 5) :
    load_scene_from_file P (some (pre ++ l :: rest)) = Scene.ctor ∧
    (line_tokens l).length ≤ (trim_line l.data).count ';' + 1 := by
  refine ⟨?_, ?_⟩
  · have h1 : load_line P (load_lines P pre) l =
        ({ load_init with line_number := pre.length + 1, success := false,
                          stopped := true } : LoadState α) := by
      rw [load_lines_leading P pre hpre]
      simp [load_line, load_init, hl, line_tokens_ne_nil l hl, load_globals, hfew]
    have h2 : load_lines P (pre ++ l :: rest) =
        ({ load_init with line_number := pre.length + 1, success := false,
                          stopped := true } : LoadState α) := by
      unfold load_lines at h1 ⊢
      rw [List.foldl_append, List.foldl_cons, h1]
      exact load_lines_stopped P rest _ rfl
    simp [load_scene_from_file, h2]
  · unfold line_tokens split_string
    rw [List.length_map]
    exact split_string_loop_length ';' _ []

/-- C24: when the only line that is neither blank nor a comment is a global line whose first
five tokens convert to the integers `d`, `s` and the numbers `r`, `g`, `b`,
`load_scene_from_file` returns the scene with `max_ray_depth = d`, `samples_per_pixel = s`,
`background_color = (r, g, b)`, no materials and no spheres, whatever blank and comment lines
stand before and after it. -/
theorem load_scene_globals_only (P : StrConv α) (pre post : List String) (l : String)
    (hpre : ∀ x ∈ pre, is_skipped x = true) (hpost : ∀ x ∈ post, is_skipped x = true)
    (hl : is_skipped l = false) (t0 t1 t2 t3 t4 : String) (more : List String)
    (htok : line_tokens l = t0 :: t1 :: t2 :: t3 :: t4 :: more) (d s : Int) (r g b : α)
    (h0 : P.stoi t0 = some d) (h1 : P.stoi t1 = some s) (h2 : P.stod t2 = some r)
    (h3 : P.stod t3 = some g) (h4 : P.stod t4 = some b) :
    load_scene_from_file P (some (pre ++ l :: post)) = ⟨d, s, ⟨r, g, b⟩, [], []⟩ := by
  have hstep : load_line P (load_lines P pre) l =
      (⟨⟨d, s, ⟨r, g, b⟩, [], []⟩, true, pre.length + 1, true, false⟩ : LoadState α) := by
    rw [load_lines_leading P pre hpre]
    simp [load_line, load_init, hl, htok, load_globals, h0, h1, h2, h3, h4, Scene.ctor]
  have hall : load_lines P (pre ++ l :: post) =
      (⟨⟨d, s, ⟨r, g, b⟩, [], []⟩, true, pre.length + 1 + post.length, true, false⟩ :
        LoadState α) := by
    unfold load_lines at hstep ⊢
    rw [List.foldl_append, List.foldl_cons, hstep, load_lines_skipped P post hpost _ rfl]
  simp [load_scene_from_file, hall]

/-- A material or sphere line keeps `globals_loaded` as it is. -/
theorem load_object_globals_loaded (P : StrConv α) (st : LoadState α)
    (tokens : List String) :
    (load_object P st tokens).globals_loaded = st.globals_loaded := by
  unfold load_object
  simp only []
  split_ifs
  · rfl
  · cases parse_material P tokens with
    | none => rfl
    | some material => rfl
  · rfl
  · cases parse_sphere P tokens with
    | none => rfl
    | some cr =>
      cases materials_find st.loaded_scene.materials (tokens.getD 1 "") with
      | none => rfl
      | some material => rfl
  · rfl

/-- A line keeps `globals_loaded` set. -/
theorem load_line_globals_loaded (P : StrConv α) (st : LoadState α) (raw : String)
    (h : st.globals_loaded = true) : (load_line P st raw).globals_loaded = true := by
  obtain ⟨sc, su, ln, gl, stp⟩ := st
  simp only at h
  subst h
  unfold load_line
  cases stp
  · simp only [Bool.false_eq_true, if_false, not_true_eq_false]
    split_ifs
    · rfl
    · rfl
    · rw [load_object_globals_loaded]
  · rfl

/-- The lines keep `globals_loaded` set. -/
theorem load_lines_globals_loaded (P : StrConv α) (lines : List String) :
    ∀ st : LoadState α, st.globals_loaded = true →
      (lines.foldl (load_line P) st).globals_loaded = true := by
  induction lines with
  | nil => intro st h; exact h
  | cons x rest ih =>
    intro st h
    rw [List.foldl_cons]
    exact ih _ (load_line_globals_loaded P st x h)

/-- The line number does not influence what a material or sphere line does. -/
theorem load_object_number (P : StrConv α) (st : LoadState α) (k : Int)
    (tokens : List String) :
    load_object P { st with line_number := k } tokens =
      { load_object P st tokens with line_number := k } := by
  unfold load_object
  simp only []
  split_ifs
  · rfl
  · cases parse_material P tokens with
    | none => rfl
    | some material => rfl
  · rfl
  · cases parse_sphere P tokens with
    | none => rfl
    | some cr =>
      cases materials_find st.loaded_scene.materials (tokens.getD 1 "") with
      | none => rfl
      | some material => rfl
  · rfl

/-- The line number does not influence what a line does to the other locals. -/
theorem load_line_number (P : StrConv α) (st : LoadState α) (k : Int) (raw : String) :
    ∃ k1 : Int, load_line P { st with line_number := k } raw =
      { load_line P st raw with line_number := k1 } := by
  obtain ⟨sc, su, ln, gl, stp⟩ := st
  cases stp
  · refine ⟨k + 1, ?_⟩
    unfold load_line
    simp only [Bool.false_eq_true, if_false]
    split_ifs
    · rfl
    · rfl
    · exact load_object_number P ⟨sc, su, ln + 1, gl, false⟩ (k + 1) _
    · exact load_globals_number P ⟨sc, su, ln + 1, gl, false⟩ (k + 1) _
  · exact ⟨k, rfl⟩

/-- The line number does not influence what the lines do to the other locals. -/
theorem load_lines_number (P : StrConv α) (lines : List String) :
    ∀ (st : LoadState α) (k : Int),
      ∃ k1 : Int, lines.foldl (load_line P) { st with line_number := k } =
        { lines.foldl (load_line P) st with line_number := k1 } := by
  induction lines with
  | nil => intro st k; exact ⟨k, rfl⟩
  | cons x rest ih =>
    intro st k
    obtain ⟨k1, h1⟩ := load_line_number P st k x
    obtain ⟨k2, h2⟩ := ih (load_line P st x) k1
    exact ⟨k2, by rw [List.foldl_cons, List.foldl_cons, h1, h2]⟩

/-- C23: after lines from which the global settings have been loaded, a sphere line
`S;material_id;cx;cy;cz;radius` whose coordinates and radius convert and whose material id
has no entry in the materials loaded from the earlier lines adds no sphere and is not fatal:
the scene loaded from the file equals the scene loaded from the file without that line. -/
theorem load_scene_undefined_material (P : StrConv α) (pre post : List String) (l : String)
    (hglobals : (load_lines P pre).globals_loaded = true)
    (t0 material_id cx cy cz radius : String) (more : List String)
    (htok : line_tokens l = t0 :: material_id :: cx :: cy :: cz :: radius :: more)
    (htype : t0.data.head? = some 'S') (x y z r : α)
    (hx : P.stod cx = some x) (hy : P.stod cy = some y) (hz : P.stod cz = some z)
    (hr : P.stod radius = some r)
    (hundef : materials_find (load_lines P pre).loaded_scene.materials material_id = none) :
    load_scene_from_file P (some (pre ++ l :: post)) =
      load_scene_from_file P (some (pre ++ post)) := by
  have hl : is_skipped l = false :=
    not_skipped_of_tokens l t0 _ 'S' htok htype (by decide)
  have hstep : ∃ k : Int, load_line P (load_lines P pre) l =
      { load_lines P pre with line_number := k } := by
    generalize load_lines P pre = st0 at hglobals hundef
    obtain ⟨sc, su, ln, gl, stp⟩ := st0
    simp only at hglobals hundef
    subst hglobals
    cases stp
    · refine ⟨ln + 1, ?_⟩
      simp [load_line, hl, htok, load_object, htype, parse_sphere, hx, hy, hz, hr, hundef]
    · exact ⟨ln, rfl⟩
  obtain ⟨k, hk⟩ := hstep
  obtain ⟨k1, hk1⟩ := load_lines_number P post (load_lines P pre) k
  have hall : load_lines P (pre ++ l :: post) =
      { load_lines P (pre ++ post) with line_number := k1 } := by
    unfold load_lines at hk hk1 ⊢
    rw [List.foldl_append, List.foldl_cons, hk, hk1, List.foldl_append]
  have hg : (load_lines P (pre ++ post)).globals_loaded = true := by
    unfold load_lines at hglobals ⊢
    rw [List.foldl_append]
    exact load_lines_globals_loaded P post _ hglobals
  simp [load_scene_from_file, hall, hg]

end Loader

section LoaderWitness

/-- The conversion `decimal_stod` of the token `0.1`. -/
theorem decimal_stod_tenth {α : Type} [LinearOrderedField α] :
    (decimal_stod "0.1" : Option α) = some 0.1 := by
  have h : (decimal_stod "0.1" : Option α)
      = some ((digits_value ['0'] : α) + (digits_value ['1'] : α) / 10 ^ 1) := rfl
  have d0 : digits_value ['0'] = 0 := by decide
  have d1 : digits_value ['1'] = 1 := by decide
  rw [h, d0, d1]
  norm_num

/-- C22 on a file whose first line after a comment and a blank line is `3;1;0.1`: the default
scene is returned although a material line and a sphere line follow. -/
theorem load_scene_short_globals_witness :
    ((∀ x ∈ ["# scene", ""], is_skipped x = true) ∧ is_skipped "3;1;0.1" = false ∧
      (line_tokens "3;1;0.1").length < 5) ∧
    load_scene_from_file (decimal_conv : StrConv ℝ)
      (some (["# scene", ""] ++ "3;1;0.1" :: ["M;grey;0.5;0.5;0.5;0;0", "S;grey;0;0;-5;1"]))
      = Scene.ctor :=
  ⟨⟨by decide, by decide, by decide⟩,
    (load_scene_short_globals decimal_conv ["# scene", ""] "3;1;0.1"
      ["M;grey;0.5;0.5;0.5;0;0", "S;grey;0;0;-5;1"] (by decide) (by decide) (by decide)).1⟩

/-- C24 on the file with the global line `3;1;0.1;0.1;0.1` between a comment, a blank line
and a line of white space. -/
theorem load_scene_globals_only_witness :
    ((∀ x ∈ ["# scene", ""], is_skipped x = true) ∧ (∀ x ∈ ["  \t"], is_skipped x = true) ∧
      is_skipped "3;1;0.1;0.1;0.1" = false ∧
      line_tokens "3;1;0.1;0.1;0.1" = ["3", "1", "0.1", "0.1", "0.1"] ∧
      (decimal_conv : StrConv ℝ).stoi "3" = some 3 ∧
      (decimal_conv : StrConv ℝ).stoi "1" = some 1 ∧
      (decimal_conv : StrConv ℝ).stod "0.1" = some 0.1) ∧
    load_scene_from_file (decimal_conv : StrConv ℝ)
      (some (["# scene", ""] ++ "3;1;0.1;0.1;0.1" :: ["  \t"]))
      = ⟨3, 1, ⟨0.1, 0.1, 0.1⟩, [], []⟩ :=
  ⟨⟨by decide, by decide, by decide, by decide, by decide, by decide, decimal_stod_tenth⟩,
    load_scene_globals_only decimal_conv ["# scene", ""] ["  \t"] "3;1;0.1;0.1;0.1"
      (by decide) (by decide) (by decide) "3" "1" "0.1" "0.1" "0.1" [] (by decide) 3 1
      0.1 0.1 0.1 (by decide) (by decide) decimal_stod_tenth decimal_stod_tenth
      decimal_stod_tenth⟩

/-- C23 on a file with the global line `3;1;0.1;0.1;0.1`, the material `grey` and a sphere
of it: the line `S;gold;1;0;-5;1`, whose material `gold` is not defined, can be removed
without changing the loaded scene. -/
theorem load_scene_undefined_material_witness :
    ((load_lines (decimal_conv : StrConv ℝ)
        ["3;1;0.1;0.1;0.1", "M;grey;0.5;0.5;0.5;0;0", "S;grey;0;0;-5;1"]).globals_loaded
        = true ∧
      line_tokens "S;gold;1;0;-5;1" = ["S", "gold", "1", "0", "-5", "1"] ∧
      materials_find (load_lines (decimal_conv : StrConv ℝ)
        ["3;1;0.1;0.1;0.1", "M;grey;0.5;0.5;0.5;0;0", "S;grey;0;0;-5;1"]).loaded_scene.materials
        "gold" = none) ∧
    load_scene_from_file (decimal_conv : StrConv ℝ)
        (some (["3;1;0.1;0.1;0.1", "M;grey;0.5;0.5;0.5;0;0", "S;grey;0;0;-5;1"] ++
          "S;gold;1;0;-5;1" :: ["S;grey;2;0;-5;1"])) =
      load_scene_from_file (decimal_conv : StrConv ℝ)
        (some (["3;1;0.1;0.1;0.1", "M;grey;0.5;0.5;0.5;0;0", "S;grey;0;0;-5;1"] ++
          ["S;grey;2;0;-5;1"])) :=
  ⟨⟨rfl, by decide, rfl⟩,
    load_scene_undefined_material decimal_conv
      ["3;1;0.1;0.1;0.1", "M;grey;0.5;0.5;0.5;0;0", "S;grey;0;0;-5;1"] ["S;grey;2;0;-5;1"]
      "S;gold;1;0;-5;1" rfl "S" "gold" "1" "0" "-5" "1" [] (by decide) (by decide)
      _ _ _ _ rfl rfl rfl rfl rfl⟩

end LoaderWitness

/-! ## Rounding to the nearest double -/

section Rounding

variable {α : Type} [LinearOrderedField α] [FloorRing α]

/-- The rounded value is within 1/2, and even when exactly 1/2 away. -/
theorem round_half_even_spec (y : α) :
    |y - (round_half_even y : α)| ≤ 1 / 2 ∧
    (|y - (round_half_even y : α)| = 1 / 2 → round_half_even y % 2 = 0) := by
  have h0 : 0 ≤ y - (Int.floor y : α) := sub_nonneg.mpr (Int.floor_le y)
  have h1 : y - (Int.floor y : α) < 1 := by
    have := Int.lt_floor_add_one y
    linarith
  unfold round_half_even
  split_ifs with ha hb hc
  · constructor
    · rw [abs_of_nonneg h0]; exact le_of_lt ha
    · intro h; rw [abs_of_nonneg h0] at h; linarith
  · push_cast
    have hneg : y - ((Int.floor y : α) + 1) < 0 := by linarith
    constructor
    · rw [abs_of_neg hneg]; linarith
    · intro h; rw [abs_of_neg hneg] at h; linarith
  · constructor
    · rw [abs_of_nonneg h0]; exact not_lt.mp hb
    · intro _; exact hc
  · push_cast
    have hneg : y - ((Int.floor y : α) + 1) < 0 := by linarith
    constructor
    · rw [abs_of_neg hneg]; linarith
    · intro _; omega

/-- The integer within 1/2, even when exactly 1/2 away, is the rounded value. -/
theorem round_half_even_eq (y : α) (n : Int)
    (h : |y - (n : α)| < 1 / 2 ∨ (|y - (n : α)| = 1 / 2 ∧ n % 2 = 0)) :
    round_half_even y = n := by
  obtain ⟨hs, he⟩ := round_half_even_spec y
  by_contra hne
  have hd : (1 : α) ≤ |((round_half_even y : Int) : α) - (n : α)| := by
    have : (1 : Int) ≤ |round_half_even y - n| := Int.one_le_abs (sub_ne_zero.mpr hne)
    have h2 : ((1 : Int) : α) ≤ ((|round_half_even y - n| : Int) : α) := Int.cast_le.mpr this
    simpa using h2
  have htri : |((round_half_even y : Int) : α) - (n : α)| ≤
      |y - (round_half_even y : α)| + |y - (n : α)| := by
    have := abs_sub_le ((round_half_even y : Int) : α) y (n : α)
    rw [abs_sub_comm ((round_half_even y : Int) : α) y] at this
    exact this
  rcases h with h | ⟨h, hev⟩
  · linarith
  · have h1 : |y - (round_half_even y : α)| = 1 / 2 := by linarith
    have hev2 := he h1
    have hle : |((round_half_even y : Int) : α) - (n : α)| ≤ 1 := by linarith
    have hle2 : |round_half_even y - n| ≤ 1 := by
      have h3 : ((|round_half_even y - n| : Int) : α) ≤ ((1 : Int) : α) := by
        simpa using hle
      exact Int.cast_le.mp h3
    have hge2 : (1 : Int) ≤ |round_half_even y - n| := Int.one_le_abs (sub_ne_zero.mpr hne)
    have habs : |round_half_even y - n| = 1 := le_antisymm hle2 hge2
    rcases abs_eq (by norm_num : (0 : Int) ≤ 1) |>.mp habs with h5 | h5 <;> omega

/-- Integers round to themselves. -/
theorem round_half_even_intCast (n : Int) : round_half_even (n : α) = n :=
  round_half_even_eq _ _ (Or.inl (by simp))

/-- Rounding commutes with negation. -/
theorem round_half_even_neg (y : α) : round_half_even (-y) = -round_half_even y := by
  obtain ⟨hs, he⟩ := round_half_even_spec y
  apply round_half_even_eq
  have h : |(-y) - ((-round_half_even y : Int) : α)| = |y - (round_half_even y : α)| := by
    push_cast
    rw [← abs_neg]
    congr 1
    ring
  rw [h]
  rcases lt_or_eq_of_le hs with h1 | h1
  · exact Or.inl h1
  · exact Or.inr ⟨h1, by have := he h1; omega⟩

/-- Rounding to an integer is monotone. -/
theorem round_half_even_mono {y z : α} (h : y ≤ z) :
    round_half_even y ≤ round_half_even z := by
  obtain ⟨hy, hye⟩ := round_half_even_spec y
  obtain ⟨hz, hze⟩ := round_half_even_spec z
  by_contra hlt
  push_neg at hlt
  have h1 : ((round_half_even z : Int) : α) + 1 ≤ (round_half_even y : α) := by
    have : round_half_even z + 1 ≤ round_half_even y := hlt
    have h2 : ((round_half_even z + 1 : Int) : α) ≤ ((round_half_even y : Int) : α) :=
      Int.cast_le.mpr this
    simpa using h2
  have hy2 := abs_le.mp hy
  have hz2 := abs_le.mp hz
  have hyz : y = z := by linarith [hy2.1, hy2.2, hz2.1, hz2.2]
  subst hyz
  omega

/-- The exponent of the last place for `2 ^ e ≤ |x| < 2 ^ (e + 1)`. -/
theorem binary64_exponent_of_bounds (x : α) (e : Int) (h1 : (2 : α) ^ e ≤ |x|)
    (h2 : |x| < (2 : α) ^ (e + 1)) : binary64_exponent x = max (e - 52) (-1074) := by
  have hpos : 0 < |x| := lt_of_lt_of_le (zpow_pos (by norm_num) e) h1
  have ha : e ≤ Int.log 2 |x| := by
    rw [← Int.zpow_le_iff_le_log (by norm_num) hpos]
    simpa using h1
  have hb : Int.log 2 |x| < e + 1 := by
    rw [← Int.lt_zpow_iff_log_lt (by norm_num) hpos]
    simpa using h2
  have : Int.log 2 |x| = e := by omega
  unfold binary64_exponent
  rw [this]

/-- Zero is a double. -/
theorem binary64_zero : binary64 (0 : α) = 0 := by
  unfold binary64
  rw [zero_div]
  have : round_half_even (((0 : Int) : α)) = 0 := round_half_even_intCast 0
  simp only [Int.cast_zero] at this
  rw [this]
  simp

/-- The rounding of `x` with `2 ^ e ≤ |x| < 2 ^ (e + 1)` when `x / 2 ^ q`, for the exponent
`q = max (e - 52) (-1074)` of the last place, is nearest to the integer `n`. -/
theorem binary64_eq (x : α) (e n : Int) (h1 : (2 : α) ^ e ≤ |x|)
    (h2 : |x| < (2 : α) ^ (e + 1))
    (hn : |x / 2 ^ max (e - 52) (-1074) - (n : α)| < 1 / 2 ∨
      (|x / 2 ^ max (e - 52) (-1074) - (n : α)| = 1 / 2 ∧ n % 2 = 0)) :
    binary64 x = (n : α) * 2 ^ max (e - 52) (-1074) := by
  unfold binary64
  rw [binary64_exponent_of_bounds x e h1 h2, round_half_even_eq _ n hn]

/-- Rounding to the nearest double commutes with negation. -/
theorem binary64_neg (x : α) : binary64 (-x) = -binary64 x := by
  unfold binary64 binary64_exponent
  rw [abs_neg, neg_div, round_half_even_neg]
  push_cast
  ring

/-- The double nearest to a non-negative number is non-negative. -/
theorem binary64_nonneg {x : α} (h : 0 ≤ x) : 0 ≤ binary64 x := by
  unfold binary64
  have hp : (0 : α) < 2 ^ binary64_exponent x := zpow_pos (by norm_num) _
  have h0 : round_half_even (0 : α) ≤ round_half_even (x / 2 ^ binary64_exponent x) :=
    round_half_even_mono (div_nonneg h (le_of_lt hp))
  have hz : round_half_even (((0 : Int) : α)) = 0 := round_half_even_intCast 0
  simp only [Int.cast_zero] at hz
  rw [hz] at h0
  have : (0 : α) ≤ (round_half_even (x / 2 ^ binary64_exponent x) : α) := by
    exact_mod_cast h0
  exact mul_nonneg this (le_of_lt hp)

/-- The error of the rounding: half a unit in the last place. -/
theorem binary64_err (x : α) :
    |binary64 x - x| ≤ 2 ^ (-53 : Int) * |x| + 2 ^ (-1075 : Int) := by
  by_cases hx : x = 0
  · subst hx
    rw [binary64_zero]
    simp
    positivity
  have hpos : 0 < |x| := abs_pos.mpr hx
  have hp : (0 : α) < 2 ^ binary64_exponent x := zpow_pos (by norm_num) _
  have hs := (round_half_even_spec (x / 2 ^ binary64_exponent x)).1
  have h1 : |binary64 x - x| =
      |x / 2 ^ binary64_exponent x - (round_half_even (x / 2 ^ binary64_exponent x) : α)| *
        2 ^ binary64_exponent x := by
    unfold binary64
    rw [← abs_of_pos hp, ← abs_mul, abs_of_pos hp, ← abs_neg]
    congr 1
    field_simp
    ring
  have h2 : |binary64 x - x| ≤ 1 / 2 * 2 ^ binary64_exponent x := by
    rw [h1]
    exact mul_le_mul_of_nonneg_right hs (le_of_lt hp)
  have hlog : (2 : α) ^ Int.log 2 |x| ≤ |x| := by
    have := Int.zpow_log_le_self (by norm_num : (1 : Nat) < 2) hpos
    simpa using this
  have h3 : (1 : α) / 2 * 2 ^ binary64_exponent x ≤
      2 ^ (-53 : Int) * |x| + 2 ^ (-1075 : Int) := by
    unfold binary64_exponent
    rcases le_total (Int.log 2 |x| - 52) (-1074) with h | h
    · rw [max_eq_right h]
      have : (1 : α) / 2 * 2 ^ (-1074 : Int) = 2 ^ (-1075 : Int) := by
        rw [show (-1074 : Int) = -1075 + 1 by norm_num, zpow_add₀ (by norm_num)]
        norm_num
      rw [this]
      have : (0 : α) ≤ 2 ^ (-53 : Int) * |x| := by positivity
      linarith
    · rw [max_eq_left h]
      have : (1 : α) / 2 * 2 ^ (Int.log 2 |x| - 52) = 2 ^ (-53 : Int) * 2 ^ Int.log 2 |x| := by
        rw [show Int.log 2 |x| - 52 = Int.log 2 |x| + (-53) + 1 by ring,
          zpow_add₀ (by norm_num), zpow_add₀ (by norm_num)]
        norm_num
        ring
      rw [this]
      have h5 : (2 : α) ^ (-53 : Int) * 2 ^ Int.log 2 |x| ≤ 2 ^ (-53 : Int) * |x| :=
        mul_le_mul_of_nonneg_left hlog (by positivity)
      have : (0 : α) < 2 ^ (-1075 : Int) := by positivity
      linarith
  exact le_trans h2 h3

/-- A value with a significand of at most 53 bits and an exponent from -1074 is a double. -/
theorem binary64_exact (n q : Int) (hn : |n| < 2 ^ 53) (hq : -1074 ≤ q) :
    binary64 ((n : α) * 2 ^ q) = (n : α) * 2 ^ q := by
  by_cases h0 : n = 0
  · subst h0
    simp [binary64_zero]
  have hpq : (0 : α) < 2 ^ q := zpow_pos (by norm_num) _
  have habs : |(n : α) * 2 ^ q| = |(n : α)| * 2 ^ q := by
    rw [abs_mul, abs_of_pos hpq]
  have hpos : 0 < |(n : α) * 2 ^ q| := by
    rw [habs]
    exact mul_pos (abs_pos.mpr (by exact_mod_cast h0)) hpq
  have hlt : |(n : α) * 2 ^ q| < 2 ^ (53 + q) := by
    rw [habs, zpow_add₀ (by norm_num)]
    apply mul_lt_mul_of_pos_right _ hpq
    have : ((|n| : Int) : α) < ((2 ^ 53 : Int) : α) := Int.cast_lt.mpr hn
    rw [Int.cast_abs] at this
    exact lt_of_lt_of_le this (by norm_num)
  have hlog : Int.log 2 |(n : α) * 2 ^ q| < 53 + q := by
    rw [← Int.lt_zpow_iff_log_lt (by norm_num) hpos]
    simpa using hlt
  have hle : binary64_exponent ((n : α) * 2 ^ q) ≤ q := by
    unfold binary64_exponent
    exact max_le (by omega) hq
  obtain ⟨k, hk⟩ := Int.eq_ofNat_of_zero_le (sub_nonneg.mpr hle)
  have hdiv : (n : α) * 2 ^ q / 2 ^ binary64_exponent ((n : α) * 2 ^ q) =
      ((n * 2 ^ k : Int) : α) := by
    have hq2 : q = binary64_exponent ((n : α) * 2 ^ q) + (k : Int) := by omega
    have hp : (0 : α) < 2 ^ binary64_exponent ((n : α) * 2 ^ q) := zpow_pos (by norm_num) _
    rw [div_eq_iff (ne_of_gt hp)]
    nth_rewrite 1 [hq2]
    rw [zpow_add₀ (by norm_num), zpow_natCast]
    push_cast
    ring
  unfold binary64
  rw [hdiv, round_half_even_intCast]
  rw [← hdiv]
  have hp : (0 : α) < 2 ^ binary64_exponent ((n : α) * 2 ^ q) := zpow_pos (by norm_num) _
  field_simp

/-- Integers of magnitude at most `2 ^ 53` are doubles. -/
theorem binary64_intCast (n : Int) (hn : |n| ≤ 2 ^ 53) : binary64 (n : α) = (n : α) := by
  rcases lt_or_eq_of_le hn with h | h
  · have : binary64 ((n : α) * 2 ^ (0 : Int)) = (n : α) * 2 ^ (0 : Int) :=
      binary64_exact n 0 h (by norm_num)
    simpa using this
  · have h2 : n = 2 ^ 53 ∨ n = -2 ^ 53 := by
      rcases abs_eq (by norm_num : (0 : Int) ≤ 2 ^ 53) |>.mp h with h3 | h3
      · exact Or.inl h3
      · exact Or.inr h3
    rcases h2 with h3 | h3
    · have : binary64 (((1 : Int) : α) * 2 ^ (53 : Int)) = ((1 : Int) : α) * 2 ^ (53 : Int) :=
        binary64_exact 1 53 (by norm_num) (by norm_num)
      rw [h3]
      norm_num at this ⊢
      exact this
    · have : binary64 (((-1 : Int) : α) * 2 ^ (53 : Int)) = ((-1 : Int) : α) * 2 ^ (53 : Int) :=
        binary64_exact (-1) 53 (by norm_num) (by norm_num)
      rw [h3]
      norm_num at this ⊢
      exact this

/-- Rounding does not cross a power of two at or above the last place: from below. -/
theorem binary64_le_zpow {x : α} {k : Int} (hk : binary64_exponent x ≤ k)
    (hx : x ≤ 2 ^ k) : binary64 x ≤ 2 ^ k := by
  obtain ⟨j, hj⟩ := Int.eq_ofNat_of_zero_le (sub_nonneg.mpr hk)
  have hp : (0 : α) < 2 ^ binary64_exponent x := zpow_pos (by norm_num) _
  have hk2 : k = binary64_exponent x + (j : Int) := by omega
  have hpow : (2 : α) ^ k = ((2 ^ j : Int) : α) * 2 ^ binary64_exponent x := by
    rw [hk2, zpow_add₀ (by norm_num), zpow_natCast]
    push_cast
    ring
  have hdiv : x / 2 ^ binary64_exponent x ≤ ((2 ^ j : Int) : α) := by
    rw [div_le_iff₀ hp, ← hpow]
    exact hx
  have hr := round_half_even_mono hdiv
  rw [round_half_even_intCast] at hr
  unfold binary64
  rw [hpow]
  exact mul_le_mul_of_nonneg_right (by exact_mod_cast hr) (le_of_lt hp)

/-- Rounding does not cross a power of two at or above the last place: from above. -/
theorem zpow_le_binary64 {x : α} {k : Int} (hk : binary64_exponent x ≤ k)
    (hx : 2 ^ k ≤ x) : 2 ^ k ≤ binary64 x := by
  obtain ⟨j, hj⟩ := Int.eq_ofNat_of_zero_le (sub_nonneg.mpr hk)
  have hp : (0 : α) < 2 ^ binary64_exponent x := zpow_pos (by norm_num) _
  have hk2 : k = binary64_exponent x + (j : Int) := by omega
  have hpow : (2 : α) ^ k = ((2 ^ j : Int) : α) * 2 ^ binary64_exponent x := by
    rw [hk2, zpow_add₀ (by norm_num), zpow_natCast]
    push_cast
    ring
  have hdiv : ((2 ^ j : Int) : α) ≤ x / 2 ^ binary64_exponent x := by
    rw [le_div_iff₀ hp, ← hpow]
    exact hx
  have hr := round_half_even_mono hdiv
  rw [round_half_even_intCast] at hr
  unfold binary64
  rw [hpow]
  exact mul_le_mul_of_nonneg_right (by exact_mod_cast hr) (le_of_lt hp)

/-- Rounding to the nearest double is monotone on the non-negative numbers. -/
theorem binary64_mono_of_nonneg {x y : α} (hx : 0 ≤ x) (h : x ≤ y) :
    binary64 x ≤ binary64 y := by
  rcases eq_or_lt_of_le hx with h0 | hpos
  · rw [← h0, binary64_zero]
    exact binary64_nonneg (le_trans hx h)
  have hypos : 0 < y := lt_of_lt_of_le hpos h
  have hlog : Int.log 2 |x| ≤ Int.log 2 |y| := by
    rw [abs_of_pos hpos, abs_of_pos hypos]
    exact Int.log_mono_right hpos h
  have hq : binary64_exponent x ≤ binary64_exponent y := by
    unfold binary64_exponent
    exact max_le_max (by omega) le_rfl
  rcases eq_or_lt_of_le hq with he | hlt
  · unfold binary64
    rw [← he]
    have hp : (0 : α) < 2 ^ binary64_exponent x := zpow_pos (by norm_num) _
    have hr := round_half_even_mono (div_le_div_of_nonneg_right h (le_of_lt hp))
    exact mul_le_mul_of_nonneg_right (by exact_mod_cast hr) (le_of_lt hp)
  · have hqy : binary64_exponent y = Int.log 2 |y| - 52 := by
      have h1 : -1074 ≤ binary64_exponent x := by
        unfold binary64_exponent; exact le_max_right _ _
      unfold binary64_exponent at hlt ⊢
      rcases le_total (Int.log 2 |y| - 52) (-1074) with h2 | h2
      · rw [max_eq_right h2] at hlt
        unfold binary64_exponent at h1
        omega
      · exact max_eq_left h2
    have hqx : Int.log 2 |x| - 52 ≤ binary64_exponent x := by
      unfold binary64_exponent; exact le_max_left _ _
    have h1 : (2 : α) ^ Int.log 2 |y| ≤ y := by
      have := Int.zpow_log_le_self (by norm_num : (1 : Nat) < 2)
        (abs_pos.mpr (ne_of_gt hypos))
      have h5 : (2 : α) ^ Int.log 2 |y| ≤ |y| := by simpa using this
      exact le_trans h5 (le_of_eq (abs_of_pos hypos))
    have h2 : x ≤ (2 : α) ^ Int.log 2 |y| := by
      have := Int.lt_zpow_succ_log_self (by norm_num : (1 : Nat) < 2) |x|
      rw [abs_of_pos hpos] at this
      have h3 : (2 : α) ^ (Int.log 2 x + 1) ≤ 2 ^ Int.log 2 |y| := by
        apply zpow_le_zpow_right₀ (by norm_num)
        rw [abs_of_pos hpos] at hqx
        omega
      have h4 : x < (2 : α) ^ (Int.log 2 x + 1) := by simpa using this
      exact le_of_lt (lt_of_lt_of_le h4 h3)
    exact le_trans (binary64_le_zpow (by omega) h2) (zpow_le_binary64 (by omega) h1)

/-- Rounding to the nearest double is monotone. -/
theorem binary64_mono {x y : α} (h : x ≤ y) : binary64 x ≤ binary64 y := by
  rcases le_total 0 x with hx | hx
  · exact binary64_mono_of_nonneg hx h
  · rcases le_total 0 y with hy | hy
    · have h1 := binary64_nonneg (neg_nonneg.mpr hx)
      rw [binary64_neg] at h1
      have h2 := binary64_nonneg hy
      linarith
    · have h1 := binary64_mono_of_nonneg (neg_nonneg.mpr hy) (neg_le_neg h)
      rw [binary64_neg, binary64_neg] at h1
      linarith

/-- The rounding of the non-negative root `r` of `x`, from bounds on `x`. -/
theorem binary64_root_eq (r x : α) (hr : 0 ≤ r) (hx : r * r = x) (e n : Int) (hn : 1 ≤ n)
    (h1 : ((2 : α) ^ e) ^ 2 ≤ x) (h2 : x < ((2 : α) ^ (e + 1)) ^ 2)
    (h3 : ((((n : α) - 1 / 2)) * 2 ^ max (e - 52) (-1074)) ^ 2 < x)
    (h4 : x < ((((n : α) + 1 / 2)) * 2 ^ max (e - 52) (-1074)) ^ 2) :
    binary64 r = (n : α) * 2 ^ max (e - 52) (-1074) := by
  have hq : (0 : α) < 2 ^ max (e - 52) (-1074) := zpow_pos (by norm_num) _
  have hn1 : (1 : α) ≤ (n : α) := by exact_mod_cast hn
  have hlo : (0 : α) < ((n : α) - 1 / 2) * 2 ^ max (e - 52) (-1074) :=
    mul_pos (by linarith) hq
  have hhi : (0 : α) < ((n : α) + 1 / 2) * 2 ^ max (e - 52) (-1074) :=
    mul_pos (by linarith) hq
  have he : (0 : α) < 2 ^ e := zpow_pos (by norm_num) _
  have he1 : (0 : α) < 2 ^ (e + 1) := zpow_pos (by norm_num) _
  have hsq : r ^ 2 = x := by rw [← hx]; ring
  have b1 : (2 : α) ^ e ≤ r := by
    rw [← hsq] at h1
    exact (pow_le_pow_iff_left₀ (le_of_lt he) hr (by norm_num)).mp h1
  have b2 : r < (2 : α) ^ (e + 1) := by
    rw [← hsq] at h2
    exact (pow_lt_pow_iff_left₀ hr (le_of_lt he1) (by norm_num)).mp h2
  have b3 : ((n : α) - 1 / 2) * 2 ^ max (e - 52) (-1074) < r := by
    rw [← hsq] at h3
    exact (pow_lt_pow_iff_left₀ (le_of_lt hlo) hr (by norm_num)).mp h3
  have b4 : r < ((n : α) + 1 / 2) * 2 ^ max (e - 52) (-1074) := by
    rw [← hsq] at h4
    exact (pow_lt_pow_iff_left₀ hr (le_of_lt hhi) (by norm_num)).mp h4
  apply binary64_eq r e n
  · rw [abs_of_nonneg hr]; exact b1
  · rw [abs_of_nonneg hr]; exact b2
  · left
    rw [abs_lt]
    constructor
    · rw [lt_sub_iff_add_lt, lt_div_iff₀ hq]
      linarith
    · rw [sub_lt_iff_lt_add, div_lt_iff₀ hq]
      linarith

/-- The value of a correctly rounded square root, from bounds on the argument. -/
theorem Libm.RoundedSqrt.sqrt_of_bounds {m : Libm α} (hm : m.RoundedSqrt) (x : α) (e n : Int)
    (hn : 1 ≤ n) (h1 : ((2 : α) ^ e) ^ 2 ≤ x) (h2 : x < ((2 : α) ^ (e + 1)) ^ 2)
    (h3 : ((((n : α) - 1 / 2)) * 2 ^ max (e - 52) (-1074)) ^ 2 < x)
    (h4 : x < ((((n : α) + 1 / 2)) * 2 ^ max (e - 52) (-1074)) ^ 2) :
    m.sqrt x = (n : α) * 2 ^ max (e - 52) (-1074) := by
  have hx0 : 0 ≤ x := le_trans (sq_nonneg _) h1
  obtain ⟨r, hr, hrr, hs⟩ := hm x hx0
  rw [hs]
  exact binary64_root_eq r x hr hrr e n hn h1 h2 h3 h4

/-- The correctly rounded square root of 0 is 0. -/
theorem Libm.RoundedSqrt.sqrt_zero {m : Libm α} (hm : m.RoundedSqrt) : m.sqrt 0 = 0 := by
  obtain ⟨r, hr, hrr, hs⟩ := hm 0 le_rfl
  have : r = 0 := by
    rcases mul_eq_zero.mp hrr with h | h <;> exact h
  rw [hs, this, binary64_zero]

/-- The real square root, rounded to the nearest double, is correctly rounded. -/
theorem real_sqrt_rounded :
    (Libm.mk (fun x => binary64 (Real.sqrt x)) Real.cos Real.sin Real.tan
      (fun y x => Complex.arg ⟨x, y⟩)).RoundedSqrt :=
  fun x hx => ⟨Real.sqrt x, Real.sqrt_nonneg x, Real.mul_self_sqrt hx, rfl⟩

/-- With the identity as rounding, the double-arithmetic definitions are the exact ones. -/
theorem fl_id_eq (m : Libm α) (s : Sphere α) (ray : Ray α) (a b : Vec3 α)
    (cam : Camera α) (u v : α) :
    Vec3.dot_fl id a b = Vec3.dot a b ∧ Vec3.cross_fl id a b = Vec3.cross a b ∧
    Vec3.normalize_fl id m a = Vec3.normalize m a ∧
    Sphere.intersect_fl id m s ray = Sphere.intersect m s ray ∧
    Camera.get_ray_fl id m cam u v = Camera.get_ray m cam u v ∧
    vec3_to_uint32_color_fl id a = vec3_to_uint32_color a := by
  have hn : ∀ w : Vec3 α, Vec3.normalize_fl id m w = Vec3.normalize m w := fun w => by
    simp only [Vec3.normalize_fl, Vec3.normalize, Vec3.length_fl, Vec3.length,
      Vec3.length_squared_fl, Vec3.length_squared, id]
  refine ⟨by simp only [Vec3.dot_fl, Vec3.dot, id], by simp only [Vec3.cross_fl, Vec3.cross, id],
    hn a, ?_, ?_, ?_⟩
  · simp only [Sphere.intersect_fl, Sphere.intersect, hn, Vec3.dot_fl, Vec3.dot, Vec3.sub_fl,
      Vec3.sub, Vec3.add_fl, Vec3.add, Vec3.mul_fl, Vec3.mul, id]
  · simp only [Camera.get_ray_fl, Camera.get_ray, Ray.ctor_fl, Ray.ctor, hn, Vec3.add_fl,
      Vec3.add, Vec3.mul_fl, Vec3.mul, id]
  · simp only [vec3_to_uint32_color_fl, vec3_to_uint32_color, id]

end Rounding

/-! ## Pixel encoding in double arithmetic -/

section ColourFl

variable {α : Type} [LinearOrderedField α] [FloorRing α]

/-- The number 255 is a double. -/
theorem binary64_255 : binary64 (255 : α) = 255 := by
  have : binary64 (((255 : Int) : α)) = ((255 : Int) : α) := binary64_intCast 255 (by norm_num)
  simpa using this

/-- The byte of one colour component in double arithmetic: the floor of the rounded product
of the clamped component and 255, which lies between 0 and 255. -/
theorem to_uint8_binary64_clamp (x : α) :
    to_uint8 (binary64 (clamp x 0 1 * 255)) =
      (Int.floor (binary64 (clamp x 0 1 * 255))).toNat ∧
    to_uint8 (binary64 (clamp x 0 1 * 255)) ≤ 255 := by
  have hc := clamp_mem x 0 1 (zero_le_one)
  have h0 : (0 : α) ≤ clamp x 0 1 * 255 := mul_nonneg hc.1 (by norm_num)
  have h1 : clamp x 0 1 * 255 ≤ 255 := by nlinarith [hc.2]
  have hb0 : (0 : α) ≤ binary64 (clamp x 0 1 * 255) := binary64_nonneg h0
  have hb1 : binary64 (clamp x 0 1 * 255) ≤ 255 := by
    have := binary64_mono h1
    rwa [binary64_255] at this
  have hf0 : 0 ≤ Int.floor (binary64 (clamp x 0 1 * 255)) := Int.floor_nonneg.mpr hb0
  have hf1 : Int.floor (binary64 (clamp x 0 1 * 255)) ≤ 255 := by
    have := Int.floor_le (binary64 (clamp x 0 1 * 255))
    have h2 : ((Int.floor (binary64 (clamp x 0 1 * 255)) : Int) : α) ≤ ((255 : Int) : α) := by
      push_cast
      linarith
    exact_mod_cast h2
  unfold to_uint8
  omega

/-- The bytes of the word of `vec3_to_uint32_color` in double arithmetic. -/
theorem vec3_to_uint32_color_binary64_unpack (c : Vec3 α) :
    vec3_to_uint32_color_fl binary64 c < 2 ^ 32 ∧
    vec3_to_uint32_color_fl binary64 c / 2 ^ 24 % 256 = 0xFF ∧
    vec3_to_uint32_color_fl binary64 c / 2 ^ 16 % 256 =
      (Int.floor (binary64 (clamp c.x 0 1 * 255))).toNat ∧
    vec3_to_uint32_color_fl binary64 c / 2 ^ 8 % 256 =
      (Int.floor (binary64 (clamp c.y 0 1 * 255))).toNat ∧
    vec3_to_uint32_color_fl binary64 c % 256 =
      (Int.floor (binary64 (clamp c.z 0 1 * 255))).toNat := by
  have hx := to_uint8_binary64_clamp c.x
  have hy := to_uint8_binary64_clamp c.y
  have hz := to_uint8_binary64_clamp c.z
  have hv : vec3_to_uint32_color_fl binary64 c =
      4278190080 + to_uint8 (binary64 (clamp c.x 0 1 * 255)) * 65536 +
      to_uint8 (binary64 (clamp c.y 0 1 * 255)) * 256 +
      to_uint8 (binary64 (clamp c.z 0 1 * 255)) := by
    unfold vec3_to_uint32_color_fl
    exact pack_bytes _ _ _ (by omega) (by omega) (by omega)
  rw [hv, ← hx.1, ← hy.1, ← hz.1]
  exact ⟨by omega, by omega, by omega, by omega, by omega⟩

/-- C20, amended: in double arithmetic `vec3_to_uint32_color` yields a 32-bit word whose
bits 24-31 are 0xFF and whose bits 16-23, 8-15 and 0-7 are, for the red, green and blue
component, the floor of the double nearest to `clamp(c, 0, 1) * 255`; a component of at
most 0 gives the byte 0, a component of at least 1 gives 255, and the byte is monotone in
the component. -/
theorem vec3_to_uint32_color_binary64_bytes (c : Vec3 α) :
    vec3_to_uint32_color_fl binary64 c < 2 ^ 32 ∧
    vec3_to_uint32_color_fl binary64 c / 2 ^ 24 % 256 = 0xFF ∧
    vec3_to_uint32_color_fl binary64 c / 2 ^ 16 % 256 =
      (Int.floor (binary64 (clamp c.x 0 1 * 255))).toNat ∧
    vec3_to_uint32_color_fl binary64 c / 2 ^ 8 % 256 =
      (Int.floor (binary64 (clamp c.y 0 1 * 255))).toNat ∧
    vec3_to_uint32_color_fl binary64 c % 256 =
      (Int.floor (binary64 (clamp c.z 0 1 * 255))).toNat ∧
    (∀ x : α, x ≤ 0 → (Int.floor (binary64 (clamp x 0 1 * 255))).toNat = 0) ∧
    (∀ x : α, 1 ≤ x → (Int.floor (binary64 (clamp x 0 1 * 255))).toNat = 255) ∧
    (∀ x y : α, x ≤ y →
      (Int.floor (binary64 (clamp x 0 1 * 255))).toNat ≤
        (Int.floor (binary64 (clamp y 0 1 * 255))).toNat) := by
  obtain ⟨h1, h2, h3, h4, h5⟩ := vec3_to_uint32_color_binary64_unpack c
  refine ⟨h1, h2, h3, h4, h5, ?_, ?_, ?_⟩
  · intro x h
    have : clamp x 0 1 = 0 := by
      unfold clamp
      split_ifs <;> linarith
    rw [this, zero_mul, binary64_zero]
    simp
  · intro x h
    have : clamp x 0 1 = 1 := by
      unfold clamp
      split_ifs <;> linarith
    rw [this, one_mul, binary64_255]
    simp
  · intro x y h
    have hm := clamp_mono x y 0 1 zero_le_one h
    have hx := to_uint8_binary64_clamp x
    have hy := to_uint8_binary64_clamp y
    have hfl : Int.floor (binary64 (clamp x 0 1 * 255)) ≤
        Int.floor (binary64 (clamp y 0 1 * 255)) :=
      Int.floor_le_floor (binary64_mono (by nlinarith))
    omega

/-- C20 as stated fails for the double nearest to 1/255 as red component: the product with
255 is below 1, so its floor is 0, but the double nearest to the product is 1, and the red
byte of `vec3_to_uint32_color` is 1. -/
theorem vec3_to_uint32_color_rounded_product :
    binary64 (1 / 255 : ℝ) = 282578800148737 / 72057594037927936 ∧
    (Int.floor (clamp (282578800148737 / 72057594037927936 : ℝ) 0 1 * 255)).toNat = 0 ∧
    vec3_to_uint32_color_fl binary64
      (⟨282578800148737 / 72057594037927936, 0, 0⟩ : Vec3 ℝ) / 2 ^ 16 % 256 = 1 := by
  have h1 : binary64 (1 / 255 : ℝ) = 282578800148737 / 72057594037927936 := by
    rw [binary64_eq _ (-8) 4521260802379792 (by norm_num [abs_of_pos])
      (by norm_num [abs_of_pos]) (Or.inl (by norm_num [abs_lt]))]
    norm_num
  have hc : clamp (282578800148737 / 72057594037927936 : ℝ) 0 1 =
      282578800148737 / 72057594037927936 := by
    unfold clamp
    norm_num
  have h2 : binary64 ((282578800148737 / 72057594037927936 : ℝ) * 255) = 1 := by
    rw [binary64_eq _ (-1) (2 ^ 53) (by norm_num [abs_of_pos]) (by norm_num [abs_of_pos])
      (Or.inl (by norm_num [abs_lt]))]
    norm_num
  refine ⟨h1, ?_, ?_⟩
  · rw [hc]
    have : Int.floor ((282578800148737 / 72057594037927936 : ℝ) * 255) = 0 := by
      rw [Int.floor_eq_iff]
      norm_num
    rw [this]
    rfl
  · rw [(vec3_to_uint32_color_binary64_unpack _).2.2.1]
    simp only []
    rw [hc, h2]
    simp

end ColourFl

/-! ## The cross product in double arithmetic -/

section Magnitude

variable {α : Type} [LinearOrderedField α]

/-- The magnitude of a product. -/
theorem abs_mul_le_mul {x y X Y : α} (hx : |x| ≤ X) (hy : |y| ≤ Y) : |x * y| ≤ X * Y := by
  rw [abs_mul]
  exact mul_le_mul hx hy (abs_nonneg y) (le_trans (abs_nonneg x) hx)

end Magnitude

section CrossFl

variable {α : Type} [LinearOrderedField α] [FloorRing α]

/-- The error of the rounding of a value of magnitude at most `B`. -/
theorem binary64_err_le {x B : α} (h : |x| ≤ B) :
    |binary64 x - x| ≤ 2 ^ (-53 : Int) * B + 2 ^ (-1075 : Int) := by
  have h1 := binary64_err x
  have h2 : (2 : α) ^ (-53 : Int) * |x| ≤ 2 ^ (-53 : Int) * B :=
    mul_le_mul_of_nonneg_left h (by positivity)
  linarith

/-- Rounding keeps a magnitude below a power of two with exponent at least -1074. -/
theorem binary64_abs_le_zpow (k : Int) {x : α} (hk : -1074 ≤ k) (h : |x| ≤ 2 ^ k) :
    |binary64 x| ≤ 2 ^ k := by
  have hexp : ∀ y : α, y ≠ 0 → |y| ≤ 2 ^ k → binary64_exponent y ≤ k := by
    intro y h0 hy
    unfold binary64_exponent
    apply max_le _ hk
    have hpos : 0 < |y| := abs_pos.mpr h0
    have h1 : (2 : α) ^ Int.log 2 |y| ≤ |y| := by
      have := Int.zpow_log_le_self (by norm_num : (1 : Nat) < 2) hpos
      simpa using this
    have h2 : (2 : α) ^ Int.log 2 |y| ≤ 2 ^ k := le_trans h1 hy
    have h3 : Int.log 2 |y| ≤ k := (zpow_le_zpow_iff_right₀ (by norm_num)).mp h2
    omega
  by_cases hx0 : x = 0
  · subst hx0
    rw [binary64_zero, abs_zero]
    positivity
  have hx := abs_le.mp h
  rw [abs_le]
  constructor
  · have h1 : -x ≤ 2 ^ k := by linarith [hx.1]
    have h2 := binary64_le_zpow (hexp (-x) (neg_ne_zero.mpr hx0) (by rwa [abs_neg])) h1
    rw [binary64_neg] at h2
    linarith
  · exact binary64_le_zpow (hexp x hx0 h) hx.2

/-- One component of the cross product in double arithmetic, for factors of magnitude at
most 1: the magnitude is at most 2 and the error at most `4 * 2^-53 + 3 * 2^-1075`. -/
theorem cross_component_err {p q r s : α} (hp : |p| ≤ 1) (hq : |q| ≤ 1) (hr : |r| ≤ 1)
    (hs : |s| ≤ 1) :
    |binary64 (binary64 (p * q) - binary64 (r * s))| ≤ 2 ∧
    |binary64 (binary64 (p * q) - binary64 (r * s)) - (p * q - r * s)| ≤
      4 * 2 ^ (-53 : Int) + 3 * 2 ^ (-1075 : Int) := by
  have hpq : |p * q| ≤ 1 := by simpa using abs_mul_le_mul hp hq
  have hrs : |r * s| ≤ 1 := by simpa using abs_mul_le_mul hr hs
  have e1 := binary64_err_le hpq
  have e2 := binary64_err_le hrs
  have m1 : |binary64 (p * q)| ≤ 1 := by
    have := binary64_abs_le_zpow 0 (by norm_num) (le_trans hpq (by norm_num))
    simpa using this
  have m2 : |binary64 (r * s)| ≤ 1 := by
    have := binary64_abs_le_zpow 0 (by norm_num) (le_trans hrs (by norm_num))
    simpa using this
  have hd : |binary64 (p * q) - binary64 (r * s)| ≤ 2 := by
    have := abs_sub (binary64 (p * q)) (binary64 (r * s))
    linarith
  have e3 := binary64_err_le hd
  have m3 : |binary64 (binary64 (p * q) - binary64 (r * s))| ≤ 2 := by
    have := binary64_abs_le_zpow 1 (by norm_num) (le_trans hd (by norm_num))
    simpa using this
  refine ⟨m3, ?_⟩
  rw [abs_le] at e1 e2 e3 ⊢
  constructor <;> linarith [e1.1, e1.2, e2.1, e2.2, e3.1, e3.2]

/-- The dot product with a vector `w` of the cross product, both in double arithmetic, for
components of magnitude at most 1, when the exact dot product is 0. -/
theorem dot_cross_fl_le (a b w : Vec3 α)
    (ha : |a.x| ≤ 1 ∧ |a.y| ≤ 1 ∧ |a.z| ≤ 1) (hb : |b.x| ≤ 1 ∧ |b.y| ≤ 1 ∧ |b.z| ≤ 1)
    (hw : |w.x| ≤ 1 ∧ |w.y| ≤ 1 ∧ |w.z| ≤ 1) (h0 : Vec3.dot (Vec3.cross a b) w = 0) :
    |Vec3.dot_fl binary64 (Vec3.cross_fl binary64 a b) w| ≤ 2 ^ (-48 : Int) := by
  obtain ⟨mx, ex⟩ := cross_component_err ha.2.1 hb.2.2 ha.2.2 hb.2.1
  obtain ⟨my, ey⟩ := cross_component_err ha.2.2 hb.1 ha.1 hb.2.2
  obtain ⟨mz, ez⟩ := cross_component_err ha.1 hb.2.1 ha.2.1 hb.1
  simp only [Vec3.dot_fl, Vec3.cross_fl]
  simp only [Vec3.dot, Vec3.cross] at h0
  generalize binary64 (binary64 (a.y * b.z) - binary64 (a.z * b.y)) = cx at mx ex ⊢
  generalize binary64 (binary64 (a.z * b.x) - binary64 (a.x * b.z)) = cy at my ey ⊢
  generalize binary64 (binary64 (a.x * b.y) - binary64 (a.y * b.x)) = cz at mz ez ⊢
  have px : |cx * w.x| ≤ 2 := by simpa using abs_mul_le_mul mx hw.1
  have py : |cy * w.y| ≤ 2 := by simpa using abs_mul_le_mul my hw.2.1
  have pz : |cz * w.z| ≤ 2 := by simpa using abs_mul_le_mul mz hw.2.2
  have tx := binary64_err_le px
  have ty := binary64_err_le py
  have tz := binary64_err_le pz
  have ntx : |binary64 (cx * w.x)| ≤ 2 := by
    have := binary64_abs_le_zpow 1 (by norm_num) (le_trans px (by norm_num))
    simpa using this
  have nty : |binary64 (cy * w.y)| ≤ 2 := by
    have := binary64_abs_le_zpow 1 (by norm_num) (le_trans py (by norm_num))
    simpa using this
  have ntz : |binary64 (cz * w.z)| ≤ 2 := by
    have := binary64_abs_le_zpow 1 (by norm_num) (le_trans pz (by norm_num))
    simpa using this
  have hs1 : |binary64 (cx * w.x) + binary64 (cy * w.y)| ≤ 4 := by
    have := abs_add (binary64 (cx * w.x)) (binary64 (cy * w.y))
    linarith
  have s1 := binary64_err_le hs1
  have ns1 : |binary64 (binary64 (cx * w.x) + binary64 (cy * w.y))| ≤ 4 := by
    have := binary64_abs_le_zpow 2 (by norm_num) (le_trans hs1 (by norm_num))
    exact le_trans this (by norm_num)
  have hs2 : |binary64 (binary64 (cx * w.x) + binary64 (cy * w.y)) + binary64 (cz * w.z)|
      ≤ 6 := by
    have := abs_add (binary64 (binary64 (cx * w.x) + binary64 (cy * w.y)))
      (binary64 (cz * w.z))
    linarith
  have s2 := binary64_err_le hs2
  have dx : |(cx - (a.y * b.z - a.z * b.y)) * w.x| ≤
      4 * 2 ^ (-53 : Int) + 3 * 2 ^ (-1075 : Int) := by
    simpa using abs_mul_le_mul ex hw.1
  have dy : |(cy - (a.z * b.x - a.x * b.z)) * w.y| ≤
      4 * 2 ^ (-53 : Int) + 3 * 2 ^ (-1075 : Int) := by
    simpa using abs_mul_le_mul ey hw.2.1
  have dz : |(cz - (a.x * b.y - a.y * b.x)) * w.z| ≤
      4 * 2 ^ (-53 : Int) + 3 * 2 ^ (-1075 : Int) := by
    simpa using abs_mul_le_mul ez hw.2.2
  have hnum : (28 : α) * 2 ^ (-53 : Int) + 14 * 2 ^ (-1075 : Int) ≤ 2 ^ (-48 : Int) := by
    norm_num
  have hid : cx * w.x + cy * w.y + cz * w.z =
      (cx - (a.y * b.z - a.z * b.y)) * w.x + (cy - (a.z * b.x - a.x * b.z)) * w.y +
        (cz - (a.x * b.y - a.y * b.x)) * w.z := by
    linear_combination h0
  generalize (cx - (a.y * b.z - a.z * b.y)) * w.x = Ex at dx hid
  generalize (cy - (a.z * b.x - a.x * b.z)) * w.y = Ey at dy hid
  generalize (cz - (a.x * b.y - a.y * b.x)) * w.z = Ez at dz hid
  generalize cx * w.x = X at tx s1 s2 hid ⊢
  generalize cy * w.y = Y at ty s1 s2 hid ⊢
  generalize cz * w.z = Z at tz s1 s2 hid ⊢
  generalize binary64 X = fX at tx s1 s2 ⊢
  generalize binary64 Y = fY at ty s1 s2 ⊢
  generalize binary64 Z = fZ at tz s1 s2 ⊢
  generalize binary64 (fX + fY) = S1 at s1 s2 ⊢
  generalize binary64 (S1 + fZ) = S2 at s2 ⊢
  rw [abs_le] at tx ty tz s1 s2 dx dy dz ⊢
  constructor <;> linarith [tx.1, tx.2, ty.1, ty.2, tz.1, tz.2, s1.1, s1.2, s2.1, s2.2,
    dx.1, dx.2, dy.1, dy.2, dz.1, dz.2, hid, hnum]

/-- C16, amended: in double arithmetic, for all vectors `a` and `b` with components of
magnitude at most 1, the computed `dot(cross(a, b), a)` and `dot(cross(a, b), b)` are 0 up
to `2^-48` in magnitude, and `cross((1,0,0), (0,1,0)) = (0,0,1)` exactly. -/
theorem Vec3.cross_fl_orthogonal_right_handed (a b : Vec3 α)
    (ha : |a.x| ≤ 1 ∧ |a.y| ≤ 1 ∧ |a.z| ≤ 1) (hb : |b.x| ≤ 1 ∧ |b.y| ≤ 1 ∧ |b.z| ≤ 1) :
    |Vec3.dot_fl binary64 (Vec3.cross_fl binary64 a b) a| ≤ 2 ^ (-48 : Int) ∧
    |Vec3.dot_fl binary64 (Vec3.cross_fl binary64 a b) b| ≤ 2 ^ (-48 : Int) ∧
    Vec3.cross_fl binary64 (⟨1, 0, 0⟩ : Vec3 α) ⟨0, 1, 0⟩ = ⟨0, 0, 1⟩ := by
  refine ⟨dot_cross_fl_le a b a ha hb ha (by simp only [Vec3.dot, Vec3.cross]; ring),
    dot_cross_fl_le a b b ha hb hb (by simp only [Vec3.dot, Vec3.cross]; ring), ?_⟩
  have h1 : binary64 (1 : α) = 1 := by
    have : binary64 (((1 : Int) : α)) = ((1 : Int) : α) := binary64_intCast 1 (by norm_num)
    simpa using this
  simp only [Vec3.cross_fl]
  norm_num [binary64_zero, h1]

end CrossFl

section CrossFlClosed

/-- C16 as stated fails in double arithmetic: for the doubles nearest to (0.1, 0.2, 0.3)
and (0.4, 0.5, 0.7) the computed `dot(cross(a, b), a)` is `-2^-59`, about -1.7e-18,
not 0. -/
theorem Vec3.cross_fl_dot_nonzero :
    (binary64 (0.1 : ℝ) = 3602879701896397 / 36028797018963968 ∧
      binary64 (0.2 : ℝ) = 3602879701896397 / 18014398509481984 ∧
      binary64 (0.3 : ℝ) = 5404319552844595 / 18014398509481984 ∧
      binary64 (0.4 : ℝ) = 3602879701896397 / 9007199254740992 ∧
      binary64 (0.5 : ℝ) = 1 / 2 ∧
      binary64 (0.7 : ℝ) = 3152519739159347 / 4503599627370496) ∧
    Vec3.dot_fl binary64
      (Vec3.cross_fl binary64
        (⟨3602879701896397 / 36028797018963968, 3602879701896397 / 18014398509481984,
          5404319552844595 / 18014398509481984⟩ : Vec3 ℝ)
        ⟨3602879701896397 / 9007199254740992, 1 / 2, 3152519739159347 / 4503599627370496⟩)
      ⟨3602879701896397 / 36028797018963968, 3602879701896397 / 18014398509481984,
        5404319552844595 / 18014398509481984⟩ = -(1 / 2 ^ 59) ∧
    Vec3.dot_fl binary64
      (Vec3.cross_fl binary64
        (⟨3602879701896397 / 36028797018963968, 3602879701896397 / 18014398509481984,
          5404319552844595 / 18014398509481984⟩ : Vec3 ℝ)
        ⟨3602879701896397 / 9007199254740992, 1 / 2, 3152519739159347 / 4503599627370496⟩)
      ⟨3602879701896397 / 36028797018963968, 3602879701896397 / 18014398509481984,
        5404319552844595 / 18014398509481984⟩ ≠ 0 := by
  have h1 : binary64 (0.1 : ℝ) = (3602879701896397 / 36028797018963968) := by
    rw [binary64_eq _ (-4) 7205759403792794 (by norm_num [abs_of_pos]) (by norm_num [abs_of_pos])
      (Or.inl (by norm_num [abs_lt]))]
    norm_num
  have h2 : binary64 (0.2 : ℝ) = (3602879701896397 / 18014398509481984) := by
    rw [binary64_eq _ (-3) 7205759403792794 (by norm_num [abs_of_pos]) (by norm_num [abs_of_pos])
      (Or.inl (by norm_num [abs_lt]))]
    norm_num
  have h3 : binary64 (0.3 : ℝ) = (5404319552844595 / 18014398509481984) := by
    rw [binary64_eq _ (-2) 5404319552844595 (by norm_num [abs_of_pos]) (by norm_num [abs_of_pos])
      (Or.inl (by norm_num [abs_lt]))]
    norm_num
  have h4 : binary64 (0.4 : ℝ) = (3602879701896397 / 9007199254740992) := by
    rw [binary64_eq _ (-2) 7205759403792794 (by norm_num [abs_of_pos]) (by norm_num [abs_of_pos])
      (Or.inl (by norm_num [abs_lt]))]
    norm_num
  have h5 : binary64 (0.5 : ℝ) = (1 / 2) := by
    rw [binary64_eq _ (-1) 4503599627370496 (by norm_num [abs_of_pos]) (by norm_num [abs_of_pos])
      (Or.inl (by norm_num [abs_lt]))]
    norm_num
  have h6 : binary64 (0.7 : ℝ) = (3152519739159347 / 4503599627370496) := by
    rw [binary64_eq _ (-1) 6305039478318694 (by norm_num [abs_of_pos]) (by norm_num [abs_of_pos])
      (Or.inl (by norm_num [abs_lt]))]
    norm_num
  have h7 : binary64 ((3602879701896397 / 18014398509481984) * (3152519739159347 / 4503599627370496)
      : ℝ) = (5044031582654955 / 36028797018963968) := by
    rw [binary64_eq _ (-3) 5044031582654955 (by norm_num [abs_of_pos]) (by norm_num [abs_of_pos])
      (Or.inl (by norm_num [abs_lt]))]
    norm_num
  have h8 : binary64 ((5404319552844595 / 18014398509481984) * (1 / 2) : ℝ) =
      (5404319552844595 / 36028797018963968) := by
    rw [binary64_eq _ (-3) 5404319552844595 (by norm_num [abs_of_pos]) (by norm_num [abs_of_pos])
      (Or.inl (by norm_num [abs_lt]))]
    norm_num
  have h9 : binary64 ((5044031582654955 / 36028797018963968) -
      (5404319552844595 / 36028797018963968) : ℝ) = (-45035996273705 / 4503599627370496) := by
    rw [binary64_eq _ (-7) (-5764607523034240) (by norm_num [abs_of_neg]) (by norm_num [abs_of_neg])
      (Or.inl (by norm_num [abs_lt]))]
    norm_num
  have h10 : binary64 ((5404319552844595 / 18014398509481984) *
      (3602879701896397 / 9007199254740992) : ℝ) = (1080863910568919 / 9007199254740992) := by
    rw [binary64_eq _ (-4) 8646911284551352 (by norm_num [abs_of_pos]) (by norm_num [abs_of_pos])
      (Or.inl (by norm_num [abs_lt]))]
    norm_num
  have h11 : binary64 ((3602879701896397 / 36028797018963968) *
      (3152519739159347 / 4503599627370496) : ℝ) = (5044031582654955 / 72057594037927936) := by
    rw [binary64_eq _ (-4) 5044031582654955 (by norm_num [abs_of_pos]) (by norm_num [abs_of_pos])
      (Or.inl (by norm_num [abs_lt]))]
    norm_num
  have h12 : binary64 ((1080863910568919 / 9007199254740992) -
      (5044031582654955 / 72057594037927936) : ℝ) = (3602879701896397 / 72057594037927936) := by
    rw [binary64_eq _ (-5) 7205759403792794 (by norm_num [abs_of_pos]) (by norm_num [abs_of_pos])
      (Or.inl (by norm_num [abs_lt]))]
    norm_num
  have h13 : binary64 ((3602879701896397 / 36028797018963968) * (1 / 2) : ℝ) =
      (3602879701896397 / 72057594037927936) := by
    rw [binary64_eq _ (-5) 7205759403792794 (by norm_num [abs_of_pos]) (by norm_num [abs_of_pos])
      (Or.inl (by norm_num [abs_lt]))]
    norm_num
  have h14 : binary64 ((3602879701896397 / 18014398509481984) *
      (3602879701896397 / 9007199254740992) : ℝ) = (1441151880758559 / 18014398509481984) := by
    rw [binary64_eq _ (-4) 5764607523034236 (by norm_num [abs_of_pos]) (by norm_num [abs_of_pos])
      (Or.inl (by norm_num [abs_lt]))]
    norm_num
  have h15 : binary64 ((3602879701896397 / 72057594037927936) -
      (1441151880758559 / 18014398509481984) : ℝ) = (-2161727821137839 / 72057594037927936) := by
    rw [binary64_eq _ (-6) (-8646911284551356) (by norm_num [abs_of_neg]) (by norm_num [abs_of_neg])
      (Or.inl (by norm_num [abs_lt]))]
    norm_num
  have h16 : binary64 ((-45035996273705 / 4503599627370496) * (3602879701896397 / 36028797018963968)
      : ℝ) = (-9007199254741 / 9007199254740992) := by
    rw [binary64_eq _ (-10) (-4611686018427392) (by norm_num [abs_of_neg]) (by norm_num
        [abs_of_neg])
      (Or.inl (by norm_num [abs_lt]))]
    norm_num
  have h17 : binary64 ((3602879701896397 / 72057594037927936) *
      (3602879701896397 / 18014398509481984) : ℝ) = (1441151880758559 / 144115188075855872) := by
    rw [binary64_eq _ (-7) 5764607523034236 (by norm_num [abs_of_pos]) (by norm_num [abs_of_pos])
      (Or.inl (by norm_num [abs_lt]))]
    norm_num
  have h18 : binary64 ((-9007199254741 / 9007199254740992) + (1441151880758559 / 144115188075855872)
      : ℝ) = (1297036692682703 / 144115188075855872) := by
    rw [binary64_eq _ (-7) 5188146770730812 (by norm_num [abs_of_pos]) (by norm_num [abs_of_pos])
      (Or.inl (by norm_num [abs_lt]))]
    norm_num
  have h19 : binary64 ((-2161727821137839 / 72057594037927936) *
      (5404319552844595 / 18014398509481984) : ℝ) = (-5188146770730813 / 576460752303423488) := by
    rw [binary64_eq _ (-7) (-5188146770730813) (by norm_num [abs_of_neg]) (by norm_num [abs_of_neg])
      (Or.inl (by norm_num [abs_lt]))]
    norm_num
  have h20 : binary64 ((1297036692682703 / 144115188075855872) +
      (-5188146770730813 / 576460752303423488) : ℝ) = (-1 / 576460752303423488) := by
    rw [binary64_eq _ (-59) (-4503599627370496) (by norm_num [abs_of_neg]) (by norm_num
        [abs_of_neg])
      (Or.inl (by norm_num [abs_lt]))]
    norm_num
  have hc : Vec3.cross_fl binary64
      (⟨3602879701896397 / 36028797018963968, 3602879701896397 / 18014398509481984,
        5404319552844595 / 18014398509481984⟩ : Vec3 ℝ)
      ⟨3602879701896397 / 9007199254740992, 1 / 2, 3152519739159347 / 4503599627370496⟩ =
      ⟨-45035996273705 / 4503599627370496, 3602879701896397 / 72057594037927936,
        -2161727821137839 / 72057594037927936⟩ := by
    simp only [Vec3.cross_fl, h7, h8, h9, h10, h11, h12, h13, h14, h15]
  have hd : Vec3.dot_fl binary64
      (⟨-45035996273705 / 4503599627370496, 3602879701896397 / 72057594037927936,
        -2161727821137839 / 72057594037927936⟩ : Vec3 ℝ)
      ⟨3602879701896397 / 36028797018963968, 3602879701896397 / 18014398509481984,
        5404319552844595 / 18014398509481984⟩ = (-1 / 576460752303423488) := by
    simp only [Vec3.dot_fl, h16, h17, h18, h19, h20]
  refine ⟨⟨h1, h2, h3, h4, h5, h6⟩, ?_, ?_⟩
  · rw [hc, hd]
    norm_num
  · rw [hc, hd]
    norm_num

/-- C16, amended, on the doubles nearest to (0.1, 0.2, 0.3) and (0.4, 0.5, 0.7). -/
theorem Vec3.cross_fl_orthogonal_right_handed_witness :
    ((|(3602879701896397 / 36028797018963968 : ℝ)| ≤ 1 ∧
        |(3602879701896397 / 18014398509481984 : ℝ)| ≤ 1 ∧
        |(5404319552844595 / 18014398509481984 : ℝ)| ≤ 1) ∧
      (|(3602879701896397 / 9007199254740992 : ℝ)| ≤ 1 ∧ |(1 / 2 : ℝ)| ≤ 1 ∧
        |(3152519739159347 / 4503599627370496 : ℝ)| ≤ 1)) ∧
    |Vec3.dot_fl binary64
      (Vec3.cross_fl binary64
        (⟨3602879701896397 / 36028797018963968, 3602879701896397 / 18014398509481984,
          5404319552844595 / 18014398509481984⟩ : Vec3 ℝ)
        ⟨3602879701896397 / 9007199254740992, 1 / 2, 3152519739159347 / 4503599627370496⟩)
      ⟨3602879701896397 / 36028797018963968, 3602879701896397 / 18014398509481984,
        5404319552844595 / 18014398509481984⟩| ≤ 2 ^ (-48 : Int) := by
  have ha : |(3602879701896397 / 36028797018963968 : ℝ)| ≤ 1 ∧
      |(3602879701896397 / 18014398509481984 : ℝ)| ≤ 1 ∧
      |(5404319552844595 / 18014398509481984 : ℝ)| ≤ 1 := by
    refine ⟨?_, ?_, ?_⟩ <;> norm_num [abs_le]
  have hb : |(3602879701896397 / 9007199254740992 : ℝ)| ≤ 1 ∧ |(1 / 2 : ℝ)| ≤ 1 ∧
      |(3152519739159347 / 4503599627370496 : ℝ)| ≤ 1 := by
    refine ⟨?_, ?_, ?_⟩ <;> norm_num [abs_le]
  exact ⟨⟨ha, hb⟩, (Vec3.cross_fl_orthogonal_right_handed
    (⟨3602879701896397 / 36028797018963968, 3602879701896397 / 18014398509481984,
      5404319552844595 / 18014398509481984⟩ : Vec3 ℝ)
    ⟨3602879701896397 / 9007199254740992, 1 / 2, 3152519739159347 / 4503599627370496⟩
    ha hb).1⟩

end CrossFlClosed
